import Mathlib

/-!
# Prez cluster (Raft) consensus core: a shallow embedding of `src/cluster.c`

The C globals `server` and `server.cluster` become one record, `ClusterState`,
threaded through every function.  Values of C type `long long` (terms, log
indices, millisecond timestamps) are integers: signed overflow is undefined in
C, so the functions compute in `ℤ` and every statement is about executions in
which no `long long` operation overflows; the one place where the code narrows
a value, `compareIndices`, is modelled with its wrap-around.  Identities held
in `sds` and `char *` are strings compared by value (`sdsempty()` is `""`).
The send buffer of a link is observed through the list `sent` of frames handed
to `clusterSendMessage`, oldest first.  Each call of `mstime()` inside one
handler invocation reads the same clock value, passed in as `now`.

The log store (`log.c`) and the header `cluster.h` are not among the sources;
the log operations and the macro `quorumSize` are modelled from the
specification, each marked as such.  `logSync`, a durability barrier, changes
nothing of the modelled state and has no counterpart here.
-/

namespace Prez

/-! ## Data model -/

/-- Role of the node: `PREZ_FOLLOWER`, `PREZ_CANDIDATE`, `PREZ_LEADER`. -/
inductive Role where
  | follower
  | candidate
  | leader
  deriving DecidableEq, Repr

/-- One `logEntry`: fixed-size record of term, index, command name, command. -/
structure LogEntry where
  index : Int
  term : Int
  commandName : String
  command : String
  deriving DecidableEq, Repr

/-- Payload `clusterMsgDataRequestVote`. -/
structure RequestVote where
  term : Int
  candidateid : String
  last_log_index : Int
  last_log_term : Int
  deriving DecidableEq, Repr

/-- Payload `clusterMsgDataResponseVote`; `vote_granted` is `GRANT_VOTE`
(true) or `DENY_VOTE` (false). -/
structure ResponseVote where
  term : Int
  vote_granted : Bool
  deriving DecidableEq, Repr

/-- Payload `clusterMsgDataAppendEntries`; `log_entries` holds the
`log_entries_count` entries carried by the frame. -/
structure AppendEntries where
  term : Int
  leaderid : String
  prev_log_index : Int
  prev_log_term : Int
  leader_commit_index : Int
  log_entries : List LogEntry
  deriving DecidableEq, Repr

/-- Payload `clusterMsgDataResponseAppendEntries`; `ok` is true for `PREZ_OK`
and false for any other status (`PREZ_ERR`). -/
structure ResponseAppendEntries where
  term : Int
  index : Int
  commit_index : Int
  ok : Bool
  deriving DecidableEq, Repr

/-- The `union clusterMsgData`, discriminated by the header's type tag. -/
inductive ClusterMsgData where
  | requestvote (vote : RequestVote)
  | responsevote (vote : ResponseVote)
  | appendentries (entries : AppendEntries)
  | responseappendentries (entries : ResponseAppendEntries)
  deriving DecidableEq, Repr

/-- A frame as built by `clusterBuildMessageHdr` and filled in by a sender:
the sender identity, the sender port and the payload. -/
structure ClusterMsg where
  sender : String
  port : Int
  data : ClusterMsgData
  deriving DecidableEq, Repr

/-- A `clusterLink`: its descriptor and the roster node it is bound to, as an
index into `ClusterState.nodes` (`none` is the C `NULL`, the value every
accepted link starts with). -/
structure ClusterLink where
  fd : Int
  node : Option Nat
  deriving DecidableEq, Repr

/-- A `clusterNode` of the roster.  `link` is the descriptor of the node's
outbound link (`none` is `NULL`); `myself` and `noaddr` are the two flag bits
`PREZ_NODE_MYSELF` and `PREZ_NODE_NOADDR` the code tests. -/
structure ClusterNode where
  name : String
  myself : Bool
  noaddr : Bool
  ip : String
  port : Int
  link : Option Int
  next_index : Int
  match_index : Int
  last_sent_entry : Option LogEntry
  last_activity_time : Int
  deriving DecidableEq, Repr

/-- The globals `server` and `server.cluster` the consensus code reads and
writes.  `name` and `port` are `server.name` and `server.port`; `myself` is
the index of the node `myself` points to; `sent` lists the frames passed to
`clusterSendMessage` with the link they were queued on; `applied` lists the
indices passed to `logApply`. -/
structure ClusterState where
  name : String
  port : Int
  myself : Nat
  nodes : List ClusterNode
  state : Role
  leader : String
  voted_for : String
  current_term : Int
  commit_index : Int
  last_applied : Int
  votes_granted : Int
  log_entries : List LogEntry
  log_max_entries_per_request : Int
  last_activity_time : Int
  election_timeout : Int
  heartbeat_interval : Int
  proc_clients : List (Int × Nat)
  stats_bus_messages_sent : Int
  stats_bus_messages_received : Int
  sent : List (ClusterLink × ClusterMsg)
  applied : List Int
  deriving DecidableEq, Repr

/-! ## Log view (`log.c`, not part of the sources at hand) -/

/-- Index of the last entry of a log, 0 when it is empty. -/
def logLastIndex (log : List LogEntry) : Int :=
  match log.getLast? with
  | some e => e.index
  | none => 0

/-- Term of the last entry of a log, 0 when it is empty. -/
def logLastTerm (log : List LogEntry) : Int :=
  match log.getLast? with
  | some e => e.term
  | none => 0

/-- Modelled from the spec: `logCurrentIndex` of the absent `log.c`;
"latest entry's index ..., or 0 ... if empty". -/
def logCurrentIndex (s : ClusterState) : Int :=
  logLastIndex s.log_entries

/-- Modelled from the spec: `logCurrentTerm` of the absent `log.c`;
"latest entry's ... term, or 0 ... if empty". -/
def logCurrentTerm (s : ClusterState) : Int :=
  logLastTerm s.log_entries

/-- Modelled from the spec: `getLogNode` of the absent `log.c`, the list node
holding the entry with the given index, seen as the suffix of the log that
starts there ("random read by index"). -/
def getLogNode (s : ClusterState) (index : Int) : List LogEntry :=
  s.log_entries.dropWhile (fun e => e.index != index)

/-- Modelled from the spec: `logGetTerm` of the absent `log.c`; "returns the
term of a stored entry, 0 if `index == 0`, or a sentinel "unknown" for indices
out of range" (the sentinel is taken to be -1). -/
def logGetTerm (s : ClusterState) (index : Int) : Int :=
  if index = 0 then 0
  else
    match s.log_entries.find? (fun e => e.index == index) with
    | some e => e.term
    | none => -1

/-- Modelled from the spec: `logVerifyAppend` of the absent `log.c`; "returns
OK iff `prev_index == 0` OR a stored entry at `prev_index` exists with term
equal to `prev_term`.  Otherwise returns MISMATCH."  OK is 0, the value the
caller tests for; MISMATCH is -1. -/
def logVerifyAppend (s : ClusterState) (prev_index prev_term : Int) : Int :=
  if prev_index = 0 then 0
  else
    match s.log_entries.find? (fun e => e.index == prev_index) with
    | some e => if e.term = prev_term then 0 else -1
    | none => -1

/-- Modelled from the spec: `append(entry)` of the log view; "precondition
`entry.index == current_index + 1` and `entry.term ≥ current_term_in_log`".
An entry that breaks the precondition is refused with status -1. -/
def logAppend (log : List LogEntry) (e : LogEntry) : Int × List LogEntry :=
  if e.index = logLastIndex log + 1 ∧ e.term ≥ logLastTerm log then (0, log ++ [e])
  else (-1, log)

/-- Modelled from the spec: one step of `append_batch`; "if an entry already
exists at that index with a different term, truncate the suffix starting at
that index and then append; if an entry already exists with the same term,
skip; otherwise append." -/
def logAppendEntry (log : List LogEntry) (e : LogEntry) : Int × List LogEntry :=
  match log.find? (fun o => o.index == e.index) with
  | some old =>
    if old.term = e.term then (0, log)
    else logAppend (log.takeWhile (fun o => o.index != e.index)) e
  | none => logAppend log e

/-- Modelled from the spec: `append_batch(entries)`, "for each entry in
order", stopping at the first entry that is refused. -/
def logAppendBatch : List LogEntry → List LogEntry → Int × List LogEntry
  | log, [] => (0, log)
  | log, e :: es =>
    if (logAppendEntry log e).1 ≠ 0 then logAppendEntry log e
    else logAppendBatch (logAppendEntry log e).2 es

/-- Modelled from the spec: `logAppendEntries` of the absent `log.c`, the
`append_batch` of the entries a frame carries; returns the status and the
state with the new log. -/
def logAppendEntries (s : ClusterState) (entries : AppendEntries) : Int × ClusterState :=
  ((logAppendBatch s.log_entries entries.log_entries).1,
   { s with log_entries := (logAppendBatch s.log_entries entries.log_entries).2 })

/-- Modelled from the spec: `logCommitIndex` of the absent `log.c`;
"`commit_index := min(leader_commit, current_index)`.  Never decreases
`commit_index`."  Always reports success (0). -/
def logCommitIndex (s : ClusterState) (index : Int) : Int × ClusterState :=
  if min index (logCurrentIndex s) > s.commit_index then
    (0, { s with commit_index := min index (logCurrentIndex s) })
  else (0, s)

/-- Modelled from the spec: `logApply` of the absent `log.c`; "call applicator
on that entry; if a pending client handle exists, complete it", the handle
being "drained when the index becomes applied". -/
def logApply (s : ClusterState) (index : Int) : ClusterState :=
  { s with applied := s.applied ++ [index],
           proc_clients := s.proc_clients.filter (fun p => p.1 != index) }

/-- Modelled from the spec: the macro `quorumSize` of the absent `cluster.h`;
"`⌊N/2⌋ + 1` where N is the roster size", the size of the `nodes` table. -/
def quorumSize (s : ClusterState) : Nat :=
  s.nodes.length / 2 + 1

/-! ## Internal utilities -/

/-- Value of a 64-bit two's complement word (`long long`). -/
def wrap64 (x : Int) : Int :=
  (x + 2 ^ 63) % 2 ^ 64 - 2 ^ 63

/-- Conversion of a `long long` to `int`: the low 32 bits, two's complement. -/
def toInt32 (x : Int) : Int :=
  (x + 2 ^ 31) % 2 ^ 32 - 2 ^ 31

/-- Function `compareIndices`: the 64-bit difference of the two values, returned as
`int`. -/
def compareIndices (a b : Int) : Int :=
  toInt32 (wrap64 (a - b))

/-- The call `qsort(log_indices, n, sizeof(long long), compareIndices)`: a
comparison sort driven by `compareIndices`, here an insertion sort placing
`a` before `b` when `compareIndices a b <= 0`. -/
def qsortIndices (indices : List Int) : List Int :=
  indices.insertionSort (fun a b => compareIndices a b ≤ 0)

/-- Body of the loop of `reverseIndices`: exchange `indices[i]` and
`indices[j]`. -/
def swapIndices (indices : List Int) (i j : Nat) : List Int :=
  match indices[i]?, indices[j]? with
  | some x, some y => (indices.set j x).set i y
  | _, _ => indices

/-- Function `reverseIndices`: for `i` from 0 below `size/2`, with `j = size-1-i`,
exchange `indices[i]` and `indices[j]`. -/
def reverseIndices (indices : List Int) (size : Nat) : List Int :=
  (List.range (size / 2)).foldl (fun a i => swapIndices a i (size - 1 - i)) indices

/-! ## Sending -/

/-- The name `myself->name` copied into every header (`""` if the pointer
does not designate a roster node). -/
def myselfName (s : ClusterState) : String :=
  match s.nodes[s.myself]? with
  | some n => n.name
  | none => ""

/-- The effect of `clusterBuildMessageHdr` followed by the sender filling in
the payload: a frame from this node. -/
def clusterBuildMessageHdr (s : ClusterState) (data : ClusterMsgData) : ClusterMsg :=
  { sender := myselfName s, port := s.port, data := data }

/-- Function `clusterSendMessage`: queue the frame on the link's send buffer and count
it. -/
def clusterSendMessage (s : ClusterState) (link : ClusterLink) (msg : ClusterMsg) :
    ClusterState :=
  { s with sent := s.sent ++ [(link, msg)],
           stats_bus_messages_sent := s.stats_bus_messages_sent + 1 }

/-- Function `clusterBroadcastMessage`: queue the frame on the link of every roster
node that has one and is not this node. -/
def clusterBroadcastMessage (s : ClusterState) (msg : ClusterMsg) : ClusterState :=
  s.nodes.enum.foldl
    (fun acc p =>
      match p.2.link with
      | none => acc
      | some fd => if p.2.myself then acc else clusterSendMessage acc ⟨fd, some p.1⟩ msg)
    s

/-- Function `clusterSendRequestVote`: read the log position, bump `current_term`, and
broadcast a RequestVote carrying the new term. -/
def clusterSendRequestVote (s : ClusterState) : ClusterState :=
  let last_log_index := logCurrentIndex s
  let last_log_term := logCurrentTerm s
  let s1 := { s with current_term := s.current_term + 1 }
  clusterBroadcastMessage s1
    (clusterBuildMessageHdr s1
      (.requestvote { term := s1.current_term, candidateid := myselfName s1,
                      last_log_index := last_log_index, last_log_term := last_log_term }))

/-- Function `clusterSendResponseVote`: reply on `link` with the current term and the
verdict. -/
def clusterSendResponseVote (s : ClusterState) (link : ClusterLink) (vote_granted : Bool) :
    ClusterState :=
  clusterSendMessage s link
    (clusterBuildMessageHdr s
      (.responsevote { term := s.current_term, vote_granted := vote_granted }))

/-- Function `clusterSendResponseAppendEntries`: reply on `link` with the current term,
the log's current index, the commit index and the status. -/
def clusterSendResponseAppendEntries (s : ClusterState) (link : ClusterLink) (ok : Bool) :
    ClusterState :=
  clusterSendMessage s link
    (clusterBuildMessageHdr s
      (.responseappendentries
        { term := s.current_term, index := logCurrentIndex s,
          commit_index := s.commit_index, ok := ok }))

/-- The roster node a link is bound to, with its index: `link->node`. -/
def linkNode (s : ClusterState) (link : ClusterLink) : Option (Nat × ClusterNode) :=
  match link.node with
  | none => none
  | some i =>
    match s.nodes[i]? with
    | none => none
    | some node => some (i, node)

/-- The entries `clusterSendAppendEntries` copies into a frame for a peer
whose cursor is `next_index`: none unless the log reaches `next_index`, else
the entries from the node of that index on, at most
`log_max_entries_per_request` of them. -/
def entriesToSend (s : ClusterState) (next_index : Int) : List LogEntry :=
  if logCurrentIndex s ≥ next_index then
    (getLogNode s next_index).take s.log_max_entries_per_request.toNat
  else []

/-- Body of `clusterSendAppendEntries` for a link bound to roster node `i`,
whose record is `node`. -/
def clusterSendAppendEntriesTo (s : ClusterState) (link : ClusterLink) (i : Nat)
    (node : ClusterNode) : ClusterState :=
  let msg := clusterBuildMessageHdr s
    (.appendentries
      { term := s.current_term, leaderid := myselfName s,
        prev_log_index := node.next_index - 1,
        prev_log_term := logGetTerm s (node.next_index - 1),
        leader_commit_index := s.commit_index,
        log_entries := entriesToSend s node.next_index })
  let node1 := { node with last_sent_entry := (entriesToSend s node.next_index).getLast? }
  clusterSendMessage { s with nodes := s.nodes.set i node1 } link msg

/-- Function `clusterSendAppendEntries` (and `clusterSendHeartbeat`, which only calls
it): fails when `link->node` is `NULL`. -/
def clusterSendAppendEntries (s : ClusterState) (link : ClusterLink) : Option ClusterState :=
  match linkNode s link with
  | none => none
  | some (i, node) => some (clusterSendAppendEntriesTo s link i node)

/-! ## Message handlers -/

/-- The tail of `clusterProcessRequestVote`, from the log comparison on: deny
when the receiver's log position exceeds the candidate's, else grant. -/
def requestVoteLogCheck (s : ClusterState) (link : ClusterLink) (vote : RequestVote)
    (now : Int) : ClusterState :=
  let last_log_index := logCurrentIndex s
  let last_log_term := logCurrentTerm s
  if last_log_index > vote.last_log_index ∨ last_log_term > vote.last_log_term then
    clusterSendResponseVote s link false
  else
    let s1 := clusterSendResponseVote { s with voted_for := vote.candidateid } link true
    { s1 with last_activity_time := now }

/-- Function `clusterProcessRequestVote`: the stale-term exit, the term adoption or
else the duplicate-vote exit, then the log comparison. -/
def clusterProcessRequestVote (s : ClusterState) (link : ClusterLink) (vote : RequestVote)
    (now : Int) : ClusterState :=
  if vote.term < s.current_term then
    clusterSendResponseVote s link false
  else if vote.term > s.current_term then
    requestVoteLogCheck
      { s with state := .follower, current_term := vote.term, leader := "", voted_for := "" }
      link vote now
  else if s.voted_for.length > 0 ∧ s.voted_for ≠ vote.candidateid then
    clusterSendResponseVote s link false
  else
    requestVoteLogCheck s link vote now

/-- Function `clusterProcessResponseVote`: count a granted vote of the current term,
else step down on a newer term, else ignore the reply. -/
def clusterProcessResponseVote (s : ClusterState) (_link : ClusterLink) (vote : ResponseVote) :
    ClusterState :=
  if vote.vote_granted = true ∧ vote.term = s.current_term then
    { s with votes_granted := s.votes_granted + 1 }
  else if vote.term > s.current_term then
    { s with state := .follower, current_term := vote.term, leader := "", voted_for := "" }
  else s

/-- Lines 746-758 of `clusterProcessAppendEntries`: the bookkeeping done for
every frame whose term is not stale, before the log is looked at. -/
def appendEntriesAdopt (s : ClusterState) (entries : AppendEntries) (now : Int) :
    ClusterState :=
  let s1 := { s with last_activity_time := now }
  if entries.term = s1.current_term then
    let s2 := if s1.state = .candidate then { s1 with state := .follower } else s1
    { s2 with leader := entries.leaderid }
  else
    { s1 with state := .follower, current_term := entries.term,
              leader := entries.leaderid, voted_for := "" }

/-- Function `clusterProcessAppendEntries`: the stale-term exit, the bookkeeping,
then the three log steps, each with its own failure exit, and the reply. -/
def clusterProcessAppendEntries (s : ClusterState) (link : ClusterLink)
    (entries : AppendEntries) (now : Int) : ClusterState :=
  if entries.term < s.current_term then
    clusterSendResponseAppendEntries s link false
  else
    let s1 := appendEntriesAdopt s entries now
    if logVerifyAppend s1 entries.prev_log_index entries.prev_log_term ≠ 0 then
      clusterSendResponseAppendEntries s1 link false
    else if (logAppendEntries s1 entries).1 ≠ 0 then
      clusterSendResponseAppendEntries (logAppendEntries s1 entries).2 link false
    else if (logCommitIndex (logAppendEntries s1 entries).2 entries.leader_commit_index).1 ≠ 0 then
      clusterSendResponseAppendEntries
        (logCommitIndex (logAppendEntries s1 entries).2 entries.leader_commit_index).2 link false
    else
      clusterSendResponseAppendEntries
        (logCommitIndex (logAppendEntries s1 entries).2 entries.leader_commit_index).2 link true

/-- Function `clusterProcessResponseAppendEntries`; fails where the C code would
dereference a `NULL` `link->node`. -/
def clusterProcessResponseAppendEntries (s : ClusterState) (link : ClusterLink)
    (entries : ResponseAppendEntries) : Option ClusterState :=
  if entries.ok = true then
    match linkNode s link with
    | none => none
    | some (i, node) =>
      match node.last_sent_entry with
      | some e =>
        let node1 := { node with next_index := e.index + 1, match_index := e.index }
        some { s with nodes := s.nodes.set i node1 }
      | none => some s
  else if entries.term > s.current_term then
    some { s with state := .follower, current_term := entries.term, leader := "",
                  voted_for := "" }
  else
    match linkNode s link with
    | none => none
    | some (i, node) =>
      let node1 := { node with next_index := node.next_index - 1 }
      some { s with nodes := s.nodes.set i node1 }

/-! ## Commit index of the leader -/

/-- The array `log_indices` of `clusterUpdateCommitIndex` after `qsort` and
`reverseIndices`: the `match_index` of every node of the `nodes` table. -/
def sortedMatchIndices (s : ClusterState) : List Int :=
  reverseIndices (qsortIndices (s.nodes.map (fun n => n.match_index))) s.nodes.length

/-- The local `commit_index` of `clusterUpdateCommitIndex`:
`log_indices[quorumSize-1]`. -/
def commitCandidate (s : ClusterState) : Int :=
  (sortedMatchIndices s).getD (quorumSize s - 1) 0

/-- Function `clusterUpdateCommitIndex`: adopt the candidate value when it is
beyond `commit_index` and its entry is of the current term. -/
def clusterUpdateCommitIndex (s : ClusterState) : ClusterState :=
  if commitCandidate s > s.commit_index ∧ s.current_term = logGetTerm s (commitCandidate s) then
    { s with commit_index := commitCandidate s }
  else s

/-! ## Cluster cron job -/

/-- Body of the first loop of `clusterCron` for roster node `p.1` with record
`p.2`: a node other than this one that has an address and no link gets the
link `connect p.1`, if the connection succeeds. -/
def cronConnectNode (now : Int) (connect : Nat → Option Int) (p : Nat × ClusterNode) :
    ClusterNode :=
  if p.2.myself ∨ p.2.noaddr then p.2
  else
    match p.2.link with
    | some _ => p.2
    | none =>
      match connect p.1 with
      | none => p.2
      | some fd => { p.2 with link := some fd, last_activity_time := now }

/-- First loop of `clusterCron`: for every roster node other than this one
that has an address and no link, try to connect; `connect i` is the descriptor
`anetTcpNonBlockBindConnect` returns for node `i`, `none` for -1. -/
def cronConnect (s : ClusterState) (now : Int) (connect : Nat → Option Int) : ClusterState :=
  { s with nodes := s.nodes.enum.map (cronConnectNode now connect) }

/-- The loop `while (commit_index > last_applied) { last_applied++;
logApply(last_applied); }`, run for `fuel` iterations at most. -/
def cronApplyLoop : Nat → ClusterState → ClusterState
  | 0, s => s
  | fuel + 1, s =>
    if s.commit_index > s.last_applied then
      cronApplyLoop fuel (logApply { s with last_applied := s.last_applied + 1 } (s.last_applied + 1))
    else s

/-- The apply loop of `clusterCron`, with the number of iterations it needs. -/
def cronApply (s : ClusterState) : ClusterState :=
  cronApplyLoop (s.commit_index - s.last_applied).toNat s

/-- The election step of `clusterCron`: when this node is not the leader and
has heard nothing for longer than `election_timeout`, become a candidate,
vote for `server.name` and broadcast the RequestVote. -/
def cronElection (s : ClusterState) (now election_timeout : Int) : ClusterState :=
  if s.state ≠ .leader ∧ now - s.last_activity_time > election_timeout then
    clusterSendRequestVote
      { s with last_activity_time := now, state := .candidate, leader := "",
               voted_for := s.name, votes_granted := 1 }
  else s

/-- The candidate step of `clusterCron`: with `quorumSize` votes become the
leader and reset the cursors of every other roster node that has an address. -/
def cronCandidate (s : ClusterState) : ClusterState :=
  if s.state = .candidate ∧ s.votes_granted ≥ (quorumSize s : Int) then
    { s with state := .leader, leader := s.name,
             nodes := s.nodes.map (fun n =>
               if n.myself ∨ n.noaddr then n
               else { n with next_index := logCurrentIndex s + 1, match_index := 0 }) }
  else s

/-- Body of the heartbeat loop of `clusterCron` for roster node `i`. -/
def cronHeartbeat (now : Int) (s : ClusterState) (i : Nat) : ClusterState :=
  match s.nodes[i]? with
  | none => s
  | some node =>
    if node.myself ∨ node.noaddr then s
    else
      match node.link with
      | none => s
      | some fd =>
        if now - node.last_activity_time > s.heartbeat_interval then
          let node1 := { node with last_activity_time := now }
          clusterSendAppendEntriesTo { s with nodes := s.nodes.set i node1 } ⟨fd, some i⟩ i node1
        else s

/-- The leader step of `clusterCron`: update the commit index, then send a
heartbeat to every linked roster node whose last one is older than
`heartbeat_interval`. -/
def cronLeader (s : ClusterState) (now : Int) : ClusterState :=
  if s.state = .leader then
    (List.range s.nodes.length).foldl (cronHeartbeat now) (clusterUpdateCommitIndex s)
  else s

/-- The first two loops of `clusterCron`: connect, then apply. -/
def cronPrepared (s : ClusterState) (now : Int) (connect : Nat → Option Int) : ClusterState :=
  cronApply (cronConnect s now connect)

/-- Function `clusterCron`.  `now` is the clock, `rnd` the value `random()` returns and
`connect` the outcome of the connection attempts.  Fails when
`election_timeout` is 0, where `random() % election_timeout` divides by
zero. -/
def clusterCron (s : ClusterState) (now rnd : Int) (connect : Nat → Option Int) :
    Option ClusterState :=
  let s1 := cronPrepared s now connect
  if s1.election_timeout = 0 then none
  else
    let election_timeout := s1.election_timeout + Int.tmod rnd s1.election_timeout
    some (cronLeader (cronCandidate (cronElection s1 now election_timeout)) now)

/-! ## Client commands -/

/-- A `prezClient` with a command ready, reduced to what
`clusterProcessCommand` reads: the client itself (`id`, the handle kept in
`proc_clients`), the name `c->cmd->name` and the arguments `c->argv`. -/
structure PrezClient where
  id : Nat
  cmdName : String
  argv : List String
  deriving DecidableEq, Repr

/-- Modelled from the spec: `logWriteEntry` of the absent `log.c`, the
`append(entry)` of the log view: "appends".  Its precondition is the caller's
to meet, and the caller looks at no status. -/
def logWriteEntry (s : ClusterState) (entry : LogEntry) : ClusterState :=
  { s with log_entries := s.log_entries ++ [entry] }

/-- The entry `clusterProcessCommand` builds: the next index, the current
term, the command name, and the arguments joined by blanks and ended by a
newline. -/
def commandEntry (s : ClusterState) (c : PrezClient) : LogEntry :=
  { index := logCurrentIndex s + 1, term := s.current_term, commandName := c.cmdName,
    command := String.intercalate " " c.argv ++ "\n" }

/-- Function `clusterProcessCommand`: build the entry, write it to the log
(`logSync` has no counterpart), then either commit it at once, when the
`nodes` table has one node, or record the client under the entry's index in
`proc_clients` (`dictAdd`).  The function does not look at the role. -/
def clusterProcessCommand (s : ClusterState) (c : PrezClient) : ClusterState :=
  let s1 := logWriteEntry s (commandEntry s c)
  if s1.nodes.length = 1 then
    (logCommitIndex s1 (logCurrentIndex s1)).2
  else
    { s1 with proc_clients := s1.proc_clients ++ [((commandEntry s c).index, c.id)] }

/-! ## Initialization -/

/-- Functions `initClusterConfig` and `clusterInit`, up to the state they
leave: a follower that has not voted, nothing committed or applied, the
`nodes` table as `clusterLoadConfig` filled it, the log as `loadLogFile`
rebuilt it (Modelled from the spec: "the file is replayed to rebuild the
in-memory log view"), and `current_term` the term of its last entry;
`myself->port` is set to `server.port`.  The constants of the absent headers
(`PREZ_CLUSTER_ELECTION_TIMEOUT`, `PREZ_CLUSTER_HEARTBEAT_INTERVAL`,
`PREZ_LOG_MAX_ENTRIES_PER_REQUEST`) are parameters. -/
def clusterInit (name : String) (port : Int) (myself : Nat) (nodes : List ClusterNode)
    (log : List LogEntry) (now election_timeout heartbeat_interval max_entries : Int) :
    ClusterState :=
  { name := name, port := port, myself := myself,
    nodes := nodes.modify (fun n => { n with port := port }) myself,
    state := .follower,
    leader := "", voted_for := "", current_term := logLastTerm log, commit_index := 0,
    last_applied := 0, votes_granted := 0, log_entries := log,
    log_max_entries_per_request := max_entries, last_activity_time := now,
    election_timeout := election_timeout, heartbeat_interval := heartbeat_interval,
    proc_clients := [], stats_bus_messages_sent := 0, stats_bus_messages_received := 0,
    sent := [], applied := [] }

/-- The state `clusterCron` is in after its election step. -/
def cronElected (s : ClusterState) (now rnd : Int) (connect : Nat → Option Int) :
    ClusterState :=
  cronElection (cronPrepared s now connect) now
    (s.election_timeout + Int.tmod rnd s.election_timeout)

/-- Lines 683-689 of `clusterProcessRequestVote`: the state after a RequestVote of a
newer term has been adopted, the state itself for any other term. -/
def requestVoteAdopt (s : ClusterState) (vote : RequestVote) : ClusterState :=
  if vote.term > s.current_term then
    { s with state := .follower, current_term := vote.term, leader := "", voted_for := "" }
  else s

/-! ## Frames on the wire -/

/-- The sizes and tags `cluster.c` takes from the absent `cluster.h`: `hdrLen`
is `sizeof(clusterMsg)-sizeof(union clusterMsgData)`, the `sz` fields are the
`sizeof` of the four payload structures and of `logEntry`, `maxEntries` is
`PREZ_LOG_MAX_ENTRIES_PER_REQUEST`, `minLen` is `CLUSTERMSG_MIN_LEN`, and the
last four fields are the four `CLUSTERMSG_TYPE_` tags. -/
structure MsgLayout where
  hdrLen : Nat
  szRequestVote : Nat
  szResponseVote : Nat
  szAppendEntries : Nat
  szResponseAppendEntries : Nat
  szLogEntry : Nat
  maxEntries : Nat
  minLen : Nat
  typeVoteRequest : Nat
  typeAppendEntries : Nat
  typeVoteRequestResp : Nat
  typeAppendEntriesResp : Nat
  deriving DecidableEq, Repr

/-- A received frame as `clusterProcessPacket` reads it through
`clusterMsg *hdr`: the header fields in host order (after `ntohl` and
`ntohs`), and the payload bytes as each member of the union shows them. -/
structure ClusterFrame where
  sig : String
  totlen : Nat
  ver : Nat
  type : Nat
  log_entries_count : Nat
  requestvote : RequestVote
  appendentries : AppendEntries
  responsevote : ResponseVote
  responseappendentries : ResponseAppendEntries
  deriving DecidableEq, Repr

/-- Value of an integer stored in a `uint32_t`. -/
def uint32 (x : Int) : Nat :=
  (x % 2 ^ 32).toNat

/-- Value of an integer stored in a `uint16_t`. -/
def uint16 (x : Int) : Nat :=
  (x % 2 ^ 16).toNat

/-- The `explen` that `clusterProcessPacket` computes for an AppendEntries frame
with the given `log_entries_count`. -/
def appendEntriesExplen (L : MsgLayout) (count : Nat) : Nat :=
  uint32 ((L.hdrLen : Int) +
    ((L.szAppendEntries : Int) - (L.szLogEntry : Int) * (L.maxEntries : Int) +
      (count : Int) * (L.szLogEntry : Int)))

/-- Function `clusterProcessPacket`, with the frame in `link->rcvbuf` and
`rcvbuflen = sdslen(link->rcvbuf)`; `now` is the clock the handlers read.
Returns the status (always 1) and the new state; fails where the C code
dereferences a `NULL` `link->node` (the log line of an AppendEntries response
reads `link->node->name`). -/
def clusterProcessPacket (L : MsgLayout) (s : ClusterState) (link : ClusterLink)
    (f : ClusterFrame) (rcvbuflen : Nat) (now : Int) : Option (Int × ClusterState) :=
  let s1 := { s with stats_bus_messages_received := s.stats_bus_messages_received + 1 }
  if f.totlen < 16 then some (1, s1)
  else if f.ver ≠ 0 then some (1, s1)
  else if f.totlen > rcvbuflen then some (1, s1)
  else if f.type = L.typeVoteRequest then
    if f.totlen ≠ uint32 ((L.hdrLen : Int) + (L.szRequestVote : Int)) then some (1, s1)
    else some (1, clusterProcessRequestVote s1 link f.requestvote now)
  else if f.type = L.typeAppendEntries then
    if f.totlen ≠ appendEntriesExplen L f.log_entries_count then some (1, s1)
    else some (1, clusterProcessAppendEntries s1 link f.appendentries now)
  else if f.type = L.typeVoteRequestResp then
    if f.totlen ≠ uint32 ((L.hdrLen : Int) + (L.szResponseVote : Int)) then some (1, s1)
    else some (1, clusterProcessResponseVote s1 link f.responsevote)
  else if f.type = L.typeAppendEntriesResp then
    if f.totlen ≠ uint32 ((L.hdrLen : Int) + (L.szResponseAppendEntries : Int)) then
      some (1, s1)
    else
      match linkNode s1 link with
      | none => none
      | some _ =>
        match clusterProcessResponseAppendEntries s1 link f.responseappendentries with
        | none => none
        | some s2 => some (1, s2)
  else some (1, s1)

/-- The `explen` that `clusterProcessPacket` compares `totlen` with, by the tag of
the frame in the order the tags are tested; `none` for a tag that is none of
the four. -/
def expectedLen (L : MsgLayout) (f : ClusterFrame) : Option Nat :=
  if f.type = L.typeVoteRequest then
    some (uint32 ((L.hdrLen : Int) + (L.szRequestVote : Int)))
  else if f.type = L.typeAppendEntries then
    some (appendEntriesExplen L f.log_entries_count)
  else if f.type = L.typeVoteRequestResp then
    some (uint32 ((L.hdrLen : Int) + (L.szResponseVote : Int)))
  else if f.type = L.typeAppendEntriesResp then
    some (uint32 ((L.hdrLen : Int) + (L.szResponseAppendEntries : Int)))
  else none

/-- What the code relies on from the declarations of the absent `cluster.h`:
the header is at least 16 bytes long and `CLUSTERMSG_MIN_LEN` does not exceed
it, the array of `maxEntries` entries is part of the AppendEntries payload,
every frame length fits 32 bits, the number of entries and the tags fit 16
bits, and the four tags are distinct. -/
def layoutOk (L : MsgLayout) : Prop :=
  16 ≤ L.hdrLen ∧ L.minLen ≤ L.hdrLen ∧
  L.szLogEntry * L.maxEntries ≤ L.szAppendEntries ∧
  L.hdrLen + L.szRequestVote < 2 ^ 32 ∧ L.hdrLen + L.szResponseVote < 2 ^ 32 ∧
  L.hdrLen + L.szAppendEntries < 2 ^ 32 ∧ L.hdrLen + L.szResponseAppendEntries < 2 ^ 32 ∧
  L.maxEntries < 2 ^ 16 ∧
  L.typeVoteRequest < 2 ^ 16 ∧ L.typeAppendEntries < 2 ^ 16 ∧
  L.typeVoteRequestResp < 2 ^ 16 ∧ L.typeAppendEntriesResp < 2 ^ 16 ∧
  L.typeVoteRequest ≠ L.typeAppendEntries ∧ L.typeVoteRequest ≠ L.typeVoteRequestResp ∧
  L.typeVoteRequest ≠ L.typeAppendEntriesResp ∧
  L.typeAppendEntries ≠ L.typeVoteRequestResp ∧
  L.typeAppendEntries ≠ L.typeAppendEntriesResp ∧
  L.typeVoteRequestResp ≠ L.typeAppendEntriesResp

/-- The handler `clusterProcessPacket` calls for a frame that passes its checks,
on the state with the counter of received frames already incremented. -/
def dispatchFrame (L : MsgLayout) (s1 : ClusterState) (link : ClusterLink)
    (f : ClusterFrame) (now : Int) : Option (Int × ClusterState) :=
  if f.type = L.typeVoteRequest then
    some (1, clusterProcessRequestVote s1 link f.requestvote now)
  else if f.type = L.typeAppendEntries then
    some (1, clusterProcessAppendEntries s1 link f.appendentries now)
  else if f.type = L.typeVoteRequestResp then
    some (1, clusterProcessResponseVote s1 link f.responsevote)
  else if f.type = L.typeAppendEntriesResp then
    match linkNode s1 link with
    | none => none
    | some _ =>
      match clusterProcessResponseAppendEntries s1 link f.responseappendentries with
      | none => none
      | some s2 => some (1, s2)
  else some (1, s1)

/-- Function `freeClusterLink` (and `handleLinkIOError`, which only calls it), as far as
the state goes: when the link is bound to a node, `link->node->link` is set
to `NULL`. -/
def freeClusterLink (s : ClusterState) (link : ClusterLink) : ClusterState :=
  match linkNode s link with
  | none => s
  | some (i, node) => { s with nodes := s.nodes.set i { node with link := none } }

/-- Function `clusterReadHandler`, for one frame that arrives on an empty receive buffer
with no read failing.  The first 8 bytes are read first.  When `totlen` is 8
they are the whole frame, and `clusterProcessPacket` runs at the end of that
very iteration, before the signature is looked at.  Otherwise the next
iteration starts with 8 bytes in the buffer: the link is freed
(`handleLinkIOError`) when the signature is not `RCmb` or `totlen` is below
`CLUSTERMSG_MIN_LEN`; a `totlen` below 8 that passes can never equal the
length of the buffer, so nothing is processed; else the rest is read and
`clusterProcessPacket` runs on the whole frame.  The link stays valid when
`clusterProcessPacket` returns non-zero.  Returns whether the link is still
valid and the new state. -/
def clusterReadHandler (L : MsgLayout) (s : ClusterState) (link : ClusterLink)
    (f : ClusterFrame) (now : Int) : Option (Bool × ClusterState) :=
  if f.totlen = 8 then
    match clusterProcessPacket L s link f 8 now with
    | none => none
    | some (r, s1) => some (decide (r ≠ 0), s1)
  else if f.sig ≠ "RCmb" ∨ f.totlen < L.minLen then some (false, freeClusterLink s link)
  else if f.totlen < 8 then some (true, s)
  else
    match clusterProcessPacket L s link f f.totlen now with
    | none => none
    | some (r, s1) => some (decide (r ≠ 0), s1)

/-- The `type` argument each sender passes to `clusterBuildMessageHdr`. -/
def clusterMsgType (L : MsgLayout) : ClusterMsgData → Nat
  | .requestvote _ => L.typeVoteRequest
  | .responsevote _ => L.typeVoteRequestResp
  | .appendentries _ => L.typeAppendEntries
  | .responseappendentries _ => L.typeAppendEntriesResp

/-- The `int totlen` that `clusterBuildMessageHdr` computes: the length of a frame
of the three kinds of fixed size, 0 for any other `type`. -/
def clusterBuildMessageHdrTotlen (L : MsgLayout) (type : Nat) : Int :=
  if type = L.typeVoteRequest then (L.hdrLen : Int) + (L.szRequestVote : Int)
  else if type = L.typeVoteRequestResp then (L.hdrLen : Int) + (L.szResponseVote : Int)
  else if type = L.typeAppendEntriesResp then
    (L.hdrLen : Int) + (L.szResponseAppendEntries : Int)
  else 0

/-- The `int totlen` that `clusterSendAppendEntries` computes for `logcount`
entries. -/
def clusterSendAppendEntriesTotlen (L : MsgLayout) (logcount : Int) : Int :=
  (L.hdrLen : Int) + ((L.szAppendEntries : Int) - (L.szLogEntry : Int) * (L.maxEntries : Int))
    + (L.szLogEntry : Int) * logcount

/-- The frame a sender writes for a message, as the receiver reads it: the
header `clusterBuildMessageHdr` fills after its `memset` (signature, version
0, type, and `totlen` for the kinds of fixed size), `totlen` and
`log_entries_count` as `clusterSendAppendEntries` sets them, and the payload in
its own member of the union (the other members are shown zeroed). -/
def wireFrame (L : MsgLayout) (msg : ClusterMsg) : ClusterFrame :=
  { sig := "RCmb",
    totlen :=
      (match msg.data with
       | .appendentries e => uint32 (clusterSendAppendEntriesTotlen L e.log_entries.length)
       | d => uint32 (clusterBuildMessageHdrTotlen L (clusterMsgType L d))),
    ver := 0,
    type := uint16 (clusterMsgType L msg.data),
    log_entries_count :=
      (match msg.data with
       | .appendentries e => uint16 e.log_entries.length
       | _ => 0),
    requestvote :=
      (match msg.data with
       | .requestvote v => v
       | _ => { term := 0, candidateid := "", last_log_index := 0, last_log_term := 0 }),
    appendentries :=
      (match msg.data with
       | .appendentries e => e
       | _ => { term := 0, leaderid := "", prev_log_index := 0, prev_log_term := 0,
                leader_commit_index := 0, log_entries := [] }),
    responsevote :=
      (match msg.data with
       | .responsevote v => v
       | _ => { term := 0, vote_granted := false }),
    responseappendentries :=
      (match msg.data with
       | .responseappendentries e => e
       | _ => { term := 0, index := 0, commit_index := 0, ok := true }) }

/-- The `term` field of a payload. -/
def msgTerm : ClusterMsgData → Int
  | .requestvote v => v.term
  | .responsevote v => v.term
  | .appendentries e => e.term
  | .responseappendentries e => e.term

/-! ## Loading the roster -/

/-- The C library's `isspace` in the C locale. -/
def isspace (c : Char) : Bool :=
  c.toNat = 32 || (9 ≤ c.toNat && c.toNat ≤ 13)

/-- The digit loop of `atoi`: the value of the leading decimal digits. -/
def atoiDigits : List Char → Int → Int
  | [], acc => acc
  | c :: cs, acc =>
    if 48 ≤ c.toNat ∧ c.toNat ≤ 57 then atoiDigits cs (acc * 10 + ((c.toNat : Int) - 48))
    else acc

/-- The C library's `atoi`: leading white space, an optional sign, then
decimal digits up to the first other character (values that fit an `int`
are meant; beyond them the C function is undefined). -/
def atoi (s : List Char) : Int :=
  match s.dropWhile isspace with
  | c :: cs =>
    if c.toNat = 45 then - atoiDigits cs 0
    else if c.toNat = 43 then atoiDigits cs 0
    else atoiDigits (c :: cs) 0
  | [] => 0

/-- The loop state of `clusterLoadConfig`: the `nodes` table and
`server.cluster->myself` (`none` is `NULL`). -/
structure ConfigState where
  nodes : List ClusterNode
  myself : Option Nat
  deriving DecidableEq, Repr

/-- Function `createClusterNode`: the name is copied, `link` is `NULL`, `ip` is zeroed
and `port` is 0; the other fields keep what the allocation holds, `fresh`. -/
def createClusterNode (nodename : String) (fresh : ClusterNode) : ClusterNode :=
  { fresh with name := nodename, link := none, ip := "", port := 0 }

/-- Function `clusterLookupNode`: the position of the node of that name in the table. -/
def clusterLookupNode (nodes : List ClusterNode) (name : String) : Option Nat :=
  nodes.findIdx? (fun n => n.name == name)

/-- The test `!strcasecmp(a, b)`: equal up to the case of ASCII letters. -/
def strcasecmpEq (a b : String) : Bool :=
  a.data.map Char.toLower == b.data.map Char.toLower

/-- Body of the `while(fgets(...))` loop of `clusterLoadConfig` for one line.
`sdssplitargs` is the function of the absent `sds.c` (`none` is its `NULL`),
`fresh` what `zmalloc` hands to `createClusterNode`.  Fails at `goto fmterr`
(which exits) and where the C code reads past the end of `argv` or of the
address string. -/
def clusterLoadConfigLine (sdssplitargs : String → Option (List String))
    (server_name : String) (fresh : ClusterNode) (st : ConfigState) (line : String) :
    Option ConfigState :=
  if line.data.head? = some (Char.ofNat 10) then some st
  else
    match sdssplitargs line with
    | none => none
    | some [] => none
    | some [_] => none
    | some (name :: addr :: _) =>
      let n := (clusterLookupNode st.nodes name).getD st.nodes.length
      let nodes1 :=
        if (clusterLookupNode st.nodes name).isSome then st.nodes
        else st.nodes ++ [createClusterNode name fresh]
      let nodes2 :=
        if strcasecmpEq name server_name then
          nodes1.modify (fun x => { x with myself := true }) n
        else nodes1
      let myself2 := if strcasecmpEq name server_name then some n else st.myself
      let ip := addr.data.takeWhile (fun c => c.toNat != 58)
      match addr.data.dropWhile (fun c => c.toNat != 58) with
      | [] => none
      | [_] => none
      | _ :: _ :: rest =>
        some { nodes := nodes2.modify
                 (fun x => { x with ip := String.mk ip, port := atoi rest }) n,
               myself := myself2 }

/-- Function `clusterLoadConfig` on the lines `fgets` returns from an existing file:
`some (nodes, myself)` stands for `PREZ_OK`; fails where the C code exits or
its final `prezAssert(server.cluster->myself != NULL)` fails. -/
def clusterLoadConfig (sdssplitargs : String → Option (List String))
    (server_name : String) (fresh : ClusterNode) (lines : List String) :
    Option (List ClusterNode × Nat) :=
  match lines.foldlM (clusterLoadConfigLine sdssplitargs server_name fresh)
      { nodes := [], myself := none } with
  | none => none
  | some st =>
    match st.myself with
    | none => none
    | some m => some (st.nodes, m)

/-! ## Steps of one node -/

/-- What can happen to a node: one of the four frames arrives on a link, or
the cron job runs. -/
inductive Event where
  | requestVote (link : ClusterLink) (vote : RequestVote) (now : Int)
  | responseVote (link : ClusterLink) (vote : ResponseVote)
  | appendEntries (link : ClusterLink) (entries : AppendEntries) (now : Int)
  | responseAppendEntries (link : ClusterLink) (entries : ResponseAppendEntries)
  | cron (now rnd : Int) (connect : Nat → Option Int)

/-- One step of a node: the handler of the event, `none` when it fails. -/
def step (s : ClusterState) : Event → Option ClusterState
  | .requestVote link vote now => some (clusterProcessRequestVote s link vote now)
  | .responseVote link vote => some (clusterProcessResponseVote s link vote)
  | .appendEntries link entries now => some (clusterProcessAppendEntries s link entries now)
  | .responseAppendEntries link entries => clusterProcessResponseAppendEntries s link entries
  | .cron now rnd connect => clusterCron s now rnd connect

/-- The states a node goes through on a sequence of events, the start state
first; `none` when a step fails. -/
def run (s : ClusterState) : List Event → Option (List ClusterState)
  | [] => some [s]
  | e :: es =>
    match step s e with
    | none => none
    | some s1 =>
      match run s1 es with
      | none => none
      | some tr => some (s :: tr)

/-! ## The cluster as a whole -/

/-- A frame in flight between two nodes of the roster, named by their
positions in it. -/
structure Packet where
  src : Nat
  dst : Nat
  msg : ClusterMsg
  deriving DecidableEq, Repr

/-- A fixed roster of nodes, each with its own state, and the frames in
flight between them. -/
structure Cluster where
  locals : List ClusterState
  net : List Packet

/-- The frames node `i` queued while going from state `s` to state `s1`, as
packets: a frame queued on a link travels to the node at the other end, and
the descriptor of a link is the roster position of that node. -/
def newPackets (i : Nat) (s s1 : ClusterState) : List Packet :=
  (s1.sent.drop s.sent.length).map (fun f => { src := i, dst := f.1.fd.toNat, msg := f.2 })

/-- The event a packet causes at its destination when it arrives on `link`. -/
def packetEvent (p : Packet) (link : ClusterLink) (now : Int) : Event :=
  match p.msg.data with
  | .requestvote vote => .requestVote link vote now
  | .responsevote vote => .responseVote link vote
  | .appendentries entries => .appendEntries link entries now
  | .responseappendentries entries => .responseAppendEntries link entries

/-- State `s` belongs to node `i` of a roster of `n` nodes: `myself` is entry
`i` of the `nodes` table and carries `server.name`, which is not empty; the
table has the `n` entries, only entry `i` is flagged as this node, and the
link of entry `j`, when there is one, is the link to node `j`. -/
def Roster (n i : Nat) (s : ClusterState) : Prop :=
  s.myself = i ∧ s.name ≠ "" ∧ myselfName s = s.name ∧ s.nodes.length = n ∧
  ∀ j node, s.nodes[j]? = some node →
    (node.myself = true ↔ j = i) ∧ ∀ fd, node.link = some fd → fd = (j : Int)

/-- A start of the cluster: every node is a follower with its roster loaded,
the identities are pairwise distinct, and no frame is in flight. -/
def ClusterInit (g : Cluster) : Prop :=
  g.net = [] ∧
  (∀ i s, g.locals[i]? = some s → Roster g.locals.length i s ∧ s.state = .follower) ∧
  (∀ (i j : Nat) (si sj : ClusterState),
    g.locals[i]? = some si → g.locals[j]? = some sj → si.name = sj.name → i = j)

/-- One step of the cluster: a frame in flight is delivered to its
destination, on a link to its source, and leaves the network; or the cron job
of a node runs; or a frame in flight is lost.  The frames a node queues
during its step enter the network. -/
inductive ClusterStep : Cluster → Cluster → Prop where
  | deliver (g : Cluster) (l1 l2 : List Packet) (p : Packet) (s s1 : ClusterState)
      (link : ClusterLink) (now : Int) :
      g.net = l1 ++ p :: l2 → g.locals[p.dst]? = some s → link.fd = (p.src : Int) →
      step s (packetEvent p link now) = some s1 →
      ClusterStep g ⟨g.locals.set p.dst s1, l1 ++ l2 ++ newPackets p.dst s s1⟩
  | tick (g : Cluster) (i : Nat) (s s1 : ClusterState) (now rnd : Int)
      (connect : Nat → Option Int) :
      g.locals[i]? = some s → (∀ j fd, connect j = some fd → fd = (j : Int)) →
      step s (.cron now rnd connect) = some s1 →
      ClusterStep g ⟨g.locals.set i s1, g.net ++ newPackets i s s1⟩
  | lose (g : Cluster) (l1 l2 : List Packet) (p : Packet) :
      g.net = l1 ++ p :: l2 → ClusterStep g ⟨g.locals, l1 ++ l2⟩

/-- The states of the cluster that can be reached from a start. -/
inductive Reachable : Cluster → Prop where
  | init (g : Cluster) : ClusterInit g → Reachable g
  | step (g g1 : Cluster) : Reachable g → ClusterStep g g1 → Reachable g1

/-- Bookkeeping for the election argument: `vote v T` is the node that node
`v` voted for in term `T`, if any; `counted c v` tells whether node `c` has,
in its current term, counted a vote of node `v`. -/
structure Ghost where
  vote : Nat → Int → Option Nat
  counted : Nat → Nat → Bool

/-- A packet that can still add node `v` to the votes node `c` counts in term
`T`: a RequestVote of term `T` from `c` to `v`, or a granted vote of term `T`
from `v` to `c`. -/
def liveFor (c v : Nat) (T : Int) (p : Packet) : Bool :=
  match p.msg.data with
  | .requestvote rv => p.src == c && p.dst == v && rv.term == T
  | .responsevote r => r.vote_granted && p.src == v && p.dst == c && r.term == T
  | _ => false

/-- A packet that takes no part in an election: neither a RequestVote nor a
granted vote. -/
def plainPacket (p : Packet) : Prop :=
  (∀ rv, p.msg.data ≠ .requestvote rv) ∧
  (∀ r, p.msg.data = .responsevote r → r.vote_granted = false)

/-- Two versions of a `nodes` table that describe the same roster: the same
number of entries, with the same names and flags, and every link of the second
is the link of the first or the link to the entry's own node. -/
def sameRoster (a b : List ClusterNode) : Prop :=
  b.length = a.length ∧
  ∀ (j : Nat) (x y : ClusterNode), a[j]? = some x → b[j]? = some y →
    y.name = x.name ∧ y.myself = x.myself ∧
    ∀ fd, y.link = some fd → x.link = some fd ∨ fd = (j : Int)

/-- The frames `clusterBroadcastMessage` queues for a numbered `nodes`
table. -/
def broadcastFrames (nodes : List (Nat × ClusterNode)) (msg : ClusterMsg) :
    List (ClusterLink × ClusterMsg) :=
  nodes.filterMap (fun p =>
    match p.2.link with
    | none => none
    | some fd => if p.2.myself then none else some (⟨fd, some p.1⟩, msg))

/-- The invariant behind "at most one leader per term". -/
structure ElectionInv (g : Cluster) (gh : Ghost) : Prop where
  roster : ∀ i s, g.locals[i]? = some s → Roster g.locals.length i s
  names : ∀ (i j : Nat) (si sj : ClusterState),
    g.locals[i]? = some si → g.locals[j]? = some sj → si.name = sj.name → i = j
  vote_bound : ∀ v T c, gh.vote v T = some c →
    c < g.locals.length ∧ ∃ s, g.locals[v]? = some s ∧ T ≤ s.current_term
  vote_current : ∀ v sv c sc, g.locals[v]? = some sv → gh.vote v sv.current_term = some c →
    g.locals[c]? = some sc → sv.voted_for = sc.name
  request : ∀ p ∈ g.net, ∀ rv, p.msg.data = .requestvote rv →
    p.src ≠ p.dst ∧ ∃ s, g.locals[p.src]? = some s ∧ rv.candidateid = s.name ∧
      rv.term ≤ s.current_term
  grant : ∀ p ∈ g.net, ∀ r, p.msg.data = .responsevote r → r.vote_granted = true →
    p.src ≠ p.dst ∧ gh.vote p.src r.term = some p.dst ∧
      ∃ s, g.locals[p.dst]? = some s ∧ r.term ≤ s.current_term
  live : ∀ c v s, g.locals[c]? = some s → v ≠ c →
    g.net.countP (liveFor c v s.current_term) + (if gh.counted c v then 1 else 0) ≤ 1
  counted_vote : ∀ c v, gh.counted c v = true →
    ∃ s, g.locals[c]? = some s ∧ gh.vote v s.current_term = some c
  tally : ∀ c s, g.locals[c]? = some s → s.state = .candidate →
    s.votes_granted ≤ (((List.range g.locals.length).countP (gh.counted c) : Nat) : Int)
  quorum : ∀ c s, g.locals[c]? = some s → s.state = .leader →
    g.locals.length / 2 + 1 ≤
      (List.range g.locals.length).countP (fun v => gh.vote v s.current_term == some c)

/-! ## Example states -/

/-- A roster node with no link and cursors at zero. -/
def exNode (name : String) (myself : Bool) : ClusterNode :=
  { name := name, myself := myself, noaddr := false, ip := "127.0.0.1", port := 0,
    link := none, next_index := 0, match_index := 0, last_sent_entry := none,
    last_activity_time := 0 }

/-- Node `"A"` of the roster `A, B, C` as `clusterInit` leaves it: follower
at term 0, nothing voted, empty log. -/
def exState : ClusterState :=
  { name := "A", port := 7000, myself := 0,
    nodes := [exNode "A" true, exNode "B" false, exNode "C" false],
    state := .follower, leader := "", voted_for := "", current_term := 0,
    commit_index := 0, last_applied := 0, votes_granted := 0, log_entries := [],
    log_max_entries_per_request := 16, last_activity_time := 0, election_timeout := 150,
    heartbeat_interval := 50, proc_clients := [], stats_bus_messages_sent := 0,
    stats_bus_messages_received := 0, sent := [], applied := [] }

/-- An accepted link, not yet bound to a roster node. -/
def exLink : ClusterLink :=
  { fd := 9, node := none }

/-- Node `"A"` later on: leader at term 2 with one entry of term 2 in its
log, node `"B"` linked and caught up, node `"C"` linked and behind. -/
def exLeader : ClusterState :=
  { exState with
    state := .leader, leader := "A", voted_for := "A", current_term := 2, votes_granted := 2,
    log_entries := [{ index := 1, term := 2, commandName := "SET", command := "SET x 1" }],
    nodes := [exNode "A" true,
              { exNode "B" false with link := some 4, next_index := 2, match_index := 1 },
              { exNode "C" false with link := some 5, next_index := 1, match_index := 0 }] }

/-- The link of `exLeader` to its roster node 1 (`"B"`). -/
def exLinkB : ClusterLink :=
  { fd := 4, node := some 1 }

/-- A heartbeat of a leader `"B"` at term 3 with nothing to append. -/
def exHeartbeat : AppendEntries :=
  { term := 3, leaderid := "B", prev_log_index := 0, prev_log_term := 0,
    leader_commit_index := 0, log_entries := [] }

/-- An AppendEntries of term 2 whose previous entry, index 2 of term 2, is
not in the log of `exLeader`, carrying an entry for index 3 and a leader
commit index of 3. -/
def exMismatch : AppendEntries :=
  { term := 2, leaderid := "B", prev_log_index := 2, prev_log_term := 2,
    leader_commit_index := 3,
    log_entries := [{ index := 3, term := 2, commandName := "SET", command := "SET y 2" }] }

/-- Number of positions of a list of `voted_for` values at which the value
differs from the one before it. -/
def changes : List String → Nat
  | a :: b :: rest => (if a ≠ b then 1 else 0) + changes (b :: rest)
  | _ => 0

/-- A RequestVote of candidate `"B"` for term 1 with an empty log. -/
def exVoteB : RequestVote :=
  { term := 1, candidateid := "B", last_log_index := 0, last_log_term := 0 }

/-- A RequestVote of candidate `"C"` for the same term 1. -/
def exVoteC : RequestVote :=
  { term := 1, candidateid := "C", last_log_index := 0, last_log_term := 0 }

/-- The candidate commit value as the specification words it: "Let S =
multiset of `match_index` over all peers plus the leader's own
`log.current_index`.  Sort descending.  Let `N := S[quorum_size − 1]`", the
peers being the roster nodes other than the leader. -/
def specCommitCandidate (s : ClusterState) : Int :=
  ((((s.nodes.filter (fun n => !n.myself)).map (fun n => n.match_index)) ++
      [logCurrentIndex s]).insertionSort (fun a b => a ≥ b)).getD (quorumSize s - 1) 0

/-- Node `i` of the roster `A, B, C` at the start: a follower at term 0 that
has learned nothing yet, with the three roster entries and no link. -/
def exStart (i : Nat) (name : String) : ClusterState :=
  { exState with
    name := name, myself := i,
    nodes := [exNode "A" (i == 0), exNode "B" (i == 1), exNode "C" (i == 2)] }

/-- The cluster `A, B, C` at the start. -/
def exCluster0 : Cluster :=
  { locals := [exStart 0 "A", exStart 1 "B", exStart 2 "C"], net := [] }

/-- The cron job of `A` at time 1000: every connection succeeds, the election
timeout has passed, `A` becomes a candidate for term 1. -/
def exA1 : ClusterState :=
  (clusterCron (exStart 0 "A") 1000 7 (fun j => some (j : Int))).getD (exStart 0 "A")

/-- The cluster after that cron job: the RequestVotes of `A` are in flight. -/
def exCluster1 : Cluster :=
  { locals := exCluster0.locals.set 0 exA1,
    net := exCluster0.net ++ newPackets 0 (exStart 0 "A") exA1 }

/-- The RequestVote of `A` for term 1 as it travels to `B`. -/
def exRequestAB : Packet :=
  { src := 0, dst := 1,
    msg := { sender := "A", port := 7000,
             data := .requestvote { term := 1, candidateid := "A", last_log_index := 0,
                                    last_log_term := 0 } } }

/-- The same RequestVote as it travels to `C`. -/
def exRequestAC : Packet :=
  { exRequestAB with dst := 2 }

/-- Node `B` after it has handled the RequestVote of `A`. -/
def exB2 : ClusterState :=
  clusterProcessRequestVote (exStart 1 "B") { fd := 0, node := none }
    { term := 1, candidateid := "A", last_log_index := 0, last_log_term := 0 } 1001

/-- The cluster after `B` has handled the RequestVote: its reply is in
flight. -/
def exCluster2 : Cluster :=
  { locals := exCluster1.locals.set 1 exB2,
    net := [] ++ [exRequestAC] ++ newPackets 1 (exStart 1 "B") exB2 }

/-- The granted vote of `B` as it travels to `A`. -/
def exGrantBA : Packet :=
  { src := 1, dst := 0,
    msg := { sender := "B", port := 7000,
             data := .responsevote { term := 1, vote_granted := true } } }

/-- Node `A` after it has counted the vote of `B`. -/
def exA3 : ClusterState :=
  clusterProcessResponseVote exA1 { fd := 1, node := some 1 } { term := 1, vote_granted := true }

/-- The cluster after `A` has counted the vote of `B`. -/
def exCluster3 : Cluster :=
  { locals := exCluster2.locals.set 0 exA3,
    net := [exRequestAC] ++ [] ++ newPackets 0 exA1 exA3 }

/-- Node `A` after its next cron job, at time 1002: with two votes of three
it is the leader of term 1. -/
def exA4 : ClusterState :=
  (clusterCron exA3 1002 7 (fun j => some (j : Int))).getD exA3

/-- The cluster in which `A` leads term 1. -/
def exCluster4 : Cluster :=
  { locals := exCluster3.locals.set 0 exA4,
    net := exCluster3.net ++ newPackets 0 exA3 exA4 }

/-! ## Log indices -/

/-- The indices of a log are contiguous from 1: the entry at position `k`
(from 0) has index `k + 1`. -/
def logContiguous (log : List LogEntry) : Prop :=
  ∀ (k : Nat) (e : LogEntry), log[k]? = some e → e.index = (k : Int) + 1

/-- The ordering `last_applied ≤ commit_index ≤ log.current_index`. -/
def IndexInv (s : ClusterState) : Prop :=
  s.last_applied ≤ s.commit_index ∧ s.commit_index ≤ logCurrentIndex s

/-- The ordering of the three indices together with the two facts of the data
model it rests on: log indices contiguous from 1, and a term that is not
negative. -/
def LogInv (s : ClusterState) : Prop :=
  IndexInv s ∧ logContiguous s.log_entries ∧ 0 ≤ s.current_term

/-! ## More example states -/

/-- The leader `exLeader` once every record of its `nodes` table, its own
included, has `match_index` 1. -/
def exLeaderAll : ClusterState :=
  { exLeader with
    nodes := [{ exNode "A" true with match_index := 1 },
              { exNode "B" false with link := some 4, next_index := 2, match_index := 1 },
              { exNode "C" false with link := some 5, next_index := 2, match_index := 1 }] }

/-- The leader `exLeader` after it has sent entry 1 to `"C"`: the record of
`"C"` remembers it as `last_sent_entry`. -/
def exLeaderSent : ClusterState :=
  { exLeader with
    nodes := [exNode "A" true,
              { exNode "B" false with link := some 4, next_index := 2, match_index := 1 },
              { exNode "C" false with
                  link := some 5, next_index := 1, match_index := 0,
                  last_sent_entry :=
                    some { index := 1, term := 2, commandName := "SET",
                           command := "SET x 1" } }] }

/-- The link of `exLeader` to its roster node 2 (`"C"`). -/
def exLinkC : ClusterLink :=
  { fd := 5, node := some 2 }

/-- A client with the command `SET x 1`. -/
def exClient : PrezClient :=
  { id := 11, cmdName := "SET", argv := ["SET", "x", "1"] }

/-- A candidate of term 3 with two votes, whose roster node `"B"` is flagged
`PREZ_NODE_NOADDR` and has cursors 7 and 3. -/
def exCandidateNoaddr : ClusterState :=
  { exState with
    state := .candidate, voted_for := "A", current_term := 3, votes_granted := 2,
    last_activity_time := 1000,
    nodes := [exNode "A" true,
              { exNode "B" false with noaddr := true, next_index := 7, match_index := 3 },
              exNode "C" false] }

/-- A follower of term 1 with two entries of term 1, both committed and
applied. -/
def exFollower : ClusterState :=
  { exState with
    current_term := 1, commit_index := 2, last_applied := 2,
    log_entries := [{ index := 1, term := 1, commandName := "SET", command := "SET x 1" },
                    { index := 2, term := 1, commandName := "SET", command := "SET y 2" }] }

/-- An AppendEntries of term 2 that starts at the beginning of the log and
carries, for index 1, an entry of term 2. -/
def exConflict : AppendEntries :=
  { term := 2, leaderid := "B", prev_log_index := 0, prev_log_term := 0,
    leader_commit_index := 0,
    log_entries := [{ index := 1, term := 2, commandName := "SET", command := "SET z 3" }] }

/-- A state with three entries committed, of which one is applied. -/
def exToApply : ClusterState :=
  { exState with commit_index := 4, last_applied := 1 }

/-! ## Example frames and roster lines -/

/-- A layout with the sizes of a packed `clusterMsg`: a header of 54 bytes,
payloads of 64, 16, 90 + 16 * 1088 and 32 bytes, entries of 1088 bytes, 16
entries at most, and the tags 0 to 3. -/
def exLayout : MsgLayout :=
  { hdrLen := 54, szRequestVote := 64, szResponseVote := 16,
    szAppendEntries := 17498, szResponseAppendEntries := 32, szLogEntry := 1088,
    maxEntries := 16, minLen := 54,
    typeVoteRequest := 0, typeAppendEntries := 1, typeVoteRequestResp := 2,
    typeAppendEntriesResp := 3 }

/-- The frame of the RequestVote `exVoteB` sent by `"B"`, with version 1 in
place of 0. -/
def exBadVersion : ClusterFrame :=
  { wireFrame exLayout { sender := "B", port := 7000, data := .requestvote exVoteB } with
    ver := 1 }

/-- The frame of the RequestVote `exVoteB` sent by `"B"`, with the signature
`RCmx` in place of `RCmb`. -/
def exBadSignature : ClusterFrame :=
  { wireFrame exLayout { sender := "B", port := 7000, data := .requestvote exVoteB } with
    sig := "RCmx" }

/-- A frame of 8 bytes, the part of the header that is read first, with a
signature that is not `RCmb`. -/
def exShortFrame : ClusterFrame :=
  { exBadSignature with totlen := 8 }

/-- An identity of 40 characters. -/
def exIdentity : String :=
  "0123456789abcdef0123456789abcdef01234567"

/-- A roster line for the node `exIdentity` at `127.0.0.1`, port 7000. -/
def exRosterLine : String :=
  "0123456789abcdef0123456789abcdef01234567 127.0.0.1:7000\n"

/-- What `sdssplitargs` returns on `exRosterLine`: its two words. -/
def exSplitArgs (line : String) : Option (List String) :=
  if line = exRosterLine then some [exIdentity, "127.0.0.1:7000"] else none

/-- A receiver whose log ends at index 5 with term 1, asked for its vote at
time 9 by a candidate whose log ends at index 3 with term 2. -/
def exLongLog : ClusterState :=
  { exState with
    current_term := 2,
    log_entries := (List.range 5).map (fun k =>
      { index := (k : Int) + 1, term := 1, commandName := "SET", command := "SET x 1" }) }

/-- The RequestVote of candidate `"B"` for term 3, whose log ends at index 3
with term 2. -/
def exVoteNewer : RequestVote :=
  { term := 3, candidateid := "B", last_log_index := 3, last_log_term := 2 }

/-- The follower of the start once it has granted `exVoteB` at time 5. -/
def exGranted : ClusterState :=
  clusterProcessRequestVote (exStart 1 "B") exLink exVoteB 5

/-! ## Basic facts -/

theorem string_length_eq_zero (v : String) : v.length = 0 ↔ v = "" := by
  constructor
  · intro h
    cases v with
    | mk d =>
      have hd : d = [] := List.length_eq_zero.mp h
      subst hd
      rfl
  · rintro rfl
    rfl

theorem string_length_pos (v : String) : v.length > 0 ↔ v ≠ "" := by
  rw [gt_iff_lt, Nat.pos_iff_ne_zero, Ne, string_length_eq_zero]

/-! ## Vote requests -/

/-- C1: `clusterProcessRequestVote` sends exactly one reply, which carries
the receiver's term after processing; the reply grants the vote exactly when
the request's term is not stale, the receiver has not voted for someone else
in that term (or the request's term is newer), and the receiver's log index
and log term do not exceed the candidate's; on a grant `voted_for` is the
candidate and `last_activity_time` is `now`. -/
theorem requestVote_reply (s : ClusterState) (link : ClusterLink) (vote : RequestVote)
    (now : Int) :
    ∃ granted : Bool,
      (granted = true ↔
        (vote.term ≥ s.current_term ∧
         (vote.term > s.current_term ∨ s.voted_for = "" ∨ s.voted_for = vote.candidateid) ∧
         logCurrentIndex s ≤ vote.last_log_index ∧ logCurrentTerm s ≤ vote.last_log_term)) ∧
      (clusterProcessRequestVote s link vote now).sent =
        s.sent ++ [(link,
          { sender := myselfName s, port := s.port,
            data := .responsevote
              { term := (clusterProcessRequestVote s link vote now).current_term,
                vote_granted := granted } })] ∧
      (granted = true →
        (clusterProcessRequestVote s link vote now).voted_for = vote.candidateid ∧
        (clusterProcessRequestVote s link vote now).last_activity_time = now) := by
  unfold clusterProcessRequestVote
  by_cases h1 : vote.term < s.current_term
  · refine ⟨false, ?_, ?_, ?_⟩
    · simp only [Bool.false_eq_true, false_iff]
      omega
    · simp [h1, clusterSendResponseVote, clusterSendMessage, clusterBuildMessageHdr, myselfName]
    · simp
  · by_cases hlog : logCurrentIndex s > vote.last_log_index ∨
        logCurrentTerm s > vote.last_log_term
    · by_cases h2 : vote.term > s.current_term
      · refine ⟨false, ?_, ?_, ?_⟩
        · simp only [Bool.false_eq_true, false_iff]
          omega
        · simp only [h1, h2, if_true, if_false, requestVoteLogCheck]
          rw [if_pos (by simpa [logCurrentIndex, logCurrentTerm] using hlog)]
          simp [clusterSendResponseVote, clusterSendMessage, clusterBuildMessageHdr, myselfName]
        · simp
      · refine ⟨false, ?_, ?_, ?_⟩
        · simp only [Bool.false_eq_true, false_iff]
          omega
        · by_cases h3 : s.voted_for.length > 0 ∧ s.voted_for ≠ vote.candidateid
          · simp [h1, h2, h3, clusterSendResponseVote, clusterSendMessage,
              clusterBuildMessageHdr, myselfName]
          · simp only [h1, h2, h3, if_false, requestVoteLogCheck]
            rw [if_pos hlog]
            simp [clusterSendResponseVote, clusterSendMessage, clusterBuildMessageHdr,
              myselfName]
        · simp
    · by_cases h2 : vote.term > s.current_term
      · refine ⟨true, ?_, ?_, ?_⟩
        · simp only [true_iff]
          omega
        · simp only [h1, h2, if_true, if_false, requestVoteLogCheck]
          rw [if_neg (by simpa [logCurrentIndex, logCurrentTerm] using hlog)]
          simp [clusterSendResponseVote, clusterSendMessage, clusterBuildMessageHdr, myselfName]
        · intro _
          simp only [h1, h2, if_true, if_false, requestVoteLogCheck]
          rw [if_neg (by simpa [logCurrentIndex, logCurrentTerm] using hlog)]
          simp [clusterSendResponseVote, clusterSendMessage]
      · by_cases h3 : s.voted_for.length > 0 ∧ s.voted_for ≠ vote.candidateid
        · refine ⟨false, ?_, ?_, ?_⟩
          · simp only [Bool.false_eq_true, false_iff]
            rintro ⟨_, h, _⟩
            rcases h with h | h | h
            · exact h2 h
            · exact h3.2 (by rw [h] at h3; simp at h3)
            · exact h3.2 h
          · simp [h1, h2, h3, clusterSendResponseVote, clusterSendMessage,
              clusterBuildMessageHdr, myselfName]
          · simp
        · refine ⟨true, ?_, ?_, ?_⟩
          · simp only [true_iff]
            refine ⟨by omega, ?_, by omega, by omega⟩
            by_cases he : s.voted_for = ""
            · exact Or.inr (Or.inl he)
            · refine Or.inr (Or.inr ?_)
              by_contra hne
              exact h3 ⟨(string_length_pos _).mpr he, hne⟩
          · simp only [h1, h2, h3, if_false, requestVoteLogCheck]
            rw [if_neg hlog]
            simp [clusterSendResponseVote, clusterSendMessage, clusterBuildMessageHdr,
              myselfName]
          · intro _
            simp only [h1, h2, h3, if_false, requestVoteLogCheck]
            rw [if_neg hlog]
            simp [clusterSendResponseVote, clusterSendMessage]

/-! ## Frame facts: which fields the auxiliary functions touch -/

theorem clusterBroadcastMessage_eq (s : ClusterState) (msg : ClusterMsg) :
    clusterBroadcastMessage s msg =
      { s with sent := (clusterBroadcastMessage s msg).sent,
               stats_bus_messages_sent :=
                 (clusterBroadcastMessage s msg).stats_bus_messages_sent } := by
  unfold clusterBroadcastMessage
  generalize s.nodes.enum = l
  induction l generalizing s with
  | nil => rfl
  | cons p l ih =>
    simp only [List.foldl_cons]
    rcases hl : p.2.link with _ | fd
    · exact ih s
    · by_cases hm : p.2.myself = true
      · simp only [hm, if_true]
        exact ih s
      · simp only [hm]
        rw [ih]
        simp [clusterSendMessage]

theorem cronApplyLoop_eq (fuel : Nat) (s : ClusterState) :
    cronApplyLoop fuel s =
      { s with last_applied := (cronApplyLoop fuel s).last_applied,
               applied := (cronApplyLoop fuel s).applied,
               proc_clients := (cronApplyLoop fuel s).proc_clients } := by
  induction fuel generalizing s with
  | zero => rfl
  | succ n ih =>
    unfold cronApplyLoop
    by_cases h : s.commit_index > s.last_applied
    · simp only [h, if_true]
      rw [ih]
      simp [logApply]
    · simp only [h, if_false]

theorem cronApply_eq (s : ClusterState) :
    cronApply s =
      { s with last_applied := (cronApply s).last_applied,
               applied := (cronApply s).applied,
               proc_clients := (cronApply s).proc_clients } :=
  cronApplyLoop_eq _ s

theorem cronHeartbeat_eq (now : Int) (s : ClusterState) (i : Nat) :
    cronHeartbeat now s i =
      { s with nodes := (cronHeartbeat now s i).nodes,
               sent := (cronHeartbeat now s i).sent,
               stats_bus_messages_sent := (cronHeartbeat now s i).stats_bus_messages_sent } := by
  unfold cronHeartbeat
  rcases s.nodes[i]? with _ | node
  · rfl
  · simp only
    by_cases hm : node.myself = true ∨ node.noaddr = true
    · simp only [hm, if_true]
    · simp only [hm, if_false]
      rcases node.link with _ | fd
      · rfl
      · simp only
        by_cases ht : now - node.last_activity_time > s.heartbeat_interval
        · simp only [ht, if_true]
          simp [clusterSendAppendEntriesTo, clusterSendMessage]
        · simp only [ht, if_false]

theorem cronHeartbeat_foldl_eq (now : Int) (l : List Nat) (s : ClusterState) :
    l.foldl (cronHeartbeat now) s =
      { s with nodes := (l.foldl (cronHeartbeat now) s).nodes,
               sent := (l.foldl (cronHeartbeat now) s).sent,
               stats_bus_messages_sent :=
                 (l.foldl (cronHeartbeat now) s).stats_bus_messages_sent } := by
  induction l generalizing s with
  | nil => rfl
  | cons i l ih =>
    simp only [List.foldl_cons]
    rw [ih, cronHeartbeat_eq]

theorem clusterUpdateCommitIndex_eq (s : ClusterState) :
    clusterUpdateCommitIndex s =
      { s with commit_index := (clusterUpdateCommitIndex s).commit_index } := by
  unfold clusterUpdateCommitIndex
  split <;> rfl

theorem cronLeader_eq (s : ClusterState) (now : Int) :
    cronLeader s now =
      { s with nodes := (cronLeader s now).nodes,
               sent := (cronLeader s now).sent,
               stats_bus_messages_sent := (cronLeader s now).stats_bus_messages_sent,
               commit_index := (cronLeader s now).commit_index } := by
  unfold cronLeader
  by_cases h : s.state = .leader
  · simp only [h, if_true]
    have h1 := cronHeartbeat_foldl_eq now (List.range s.nodes.length)
      (clusterUpdateCommitIndex s)
    have h2 := clusterUpdateCommitIndex_eq s
    generalize List.foldl (cronHeartbeat now) (clusterUpdateCommitIndex s)
      (List.range s.nodes.length) = x at h1 ⊢
    generalize clusterUpdateCommitIndex s = y at h1 h2
    cases x
    cases y
    cases s
    simp_all
  · simp only [h, if_false]

theorem cronCandidate_eq (s : ClusterState) :
    cronCandidate s =
      { s with state := (cronCandidate s).state,
               leader := (cronCandidate s).leader,
               nodes := (cronCandidate s).nodes } := by
  unfold cronCandidate
  split <;> rfl

theorem clusterSendRequestVote_eq (s : ClusterState) :
    clusterSendRequestVote s =
      { s with current_term := s.current_term + 1,
               sent := (clusterSendRequestVote s).sent,
               stats_bus_messages_sent := (clusterSendRequestVote s).stats_bus_messages_sent } := by
  unfold clusterSendRequestVote
  simp only
  rw [clusterBroadcastMessage_eq]

theorem cronElection_eq (s : ClusterState) (now election_timeout : Int) :
    cronElection s now election_timeout =
      if s.state ≠ .leader ∧ now - s.last_activity_time > election_timeout then
        { s with last_activity_time := now, state := .candidate, leader := "",
                 voted_for := s.name, votes_granted := 1,
                 current_term := s.current_term + 1,
                 sent := (cronElection s now election_timeout).sent,
                 stats_bus_messages_sent :=
                   (cronElection s now election_timeout).stats_bus_messages_sent }
      else s := by
  unfold cronElection
  split
  · rw [clusterSendRequestVote_eq]
  · rfl

theorem cronConnect_eq (s : ClusterState) (now : Int) (connect : Nat → Option Int) :
    cronConnect s now connect = { s with nodes := (cronConnect s now connect).nodes } :=
  rfl

theorem cronPrepared_eq (s : ClusterState) (now : Int) (connect : Nat → Option Int) :
    cronPrepared s now connect =
      { s with nodes := (cronPrepared s now connect).nodes,
               last_applied := (cronPrepared s now connect).last_applied,
               applied := (cronPrepared s now connect).applied,
               proc_clients := (cronPrepared s now connect).proc_clients } := by
  unfold cronPrepared
  rw [cronApply_eq, cronConnect_eq]

theorem clusterCron_eq_some (s : ClusterState) (now rnd : Int) (connect : Nat → Option Int)
    (h : s.election_timeout ≠ 0) :
    clusterCron s now rnd connect =
      some (cronLeader (cronCandidate (cronElection (cronPrepared s now connect) now
        (s.election_timeout + Int.tmod rnd s.election_timeout))) now) := by
  have he : (cronPrepared s now connect).election_timeout = s.election_timeout := by
    rw [cronPrepared_eq]
  unfold clusterCron
  simp only [he, h, if_false]

theorem clusterCron_eq_none (s : ClusterState) (now rnd : Int) (connect : Nat → Option Int)
    (h : s.election_timeout = 0) : clusterCron s now rnd connect = none := by
  have he : (cronPrepared s now connect).election_timeout = s.election_timeout := by
    rw [cronPrepared_eq]
  unfold clusterCron
  simp only [he, h, if_true]

/-! ## Terms -/

theorem requestVoteLogCheck_current_term (s : ClusterState) (link : ClusterLink)
    (vote : RequestVote) (now : Int) :
    (requestVoteLogCheck s link vote now).current_term = s.current_term := by
  unfold requestVoteLogCheck
  simp only
  split <;> rfl

theorem clusterProcessRequestVote_current_term (s : ClusterState) (link : ClusterLink)
    (vote : RequestVote) (now : Int) :
    (clusterProcessRequestVote s link vote now).current_term = max s.current_term vote.term := by
  unfold clusterProcessRequestVote
  by_cases h1 : vote.term < s.current_term
  · simp only [h1, if_true, clusterSendResponseVote, clusterSendMessage]
    omega
  · by_cases h2 : vote.term > s.current_term
    · simp only [h1, h2, if_true, if_false, requestVoteLogCheck_current_term]
      omega
    · have h3 : max s.current_term vote.term = s.current_term := by omega
      simp only [h1, h2, if_false, h3]
      split
      · rfl
      · exact requestVoteLogCheck_current_term _ _ _ _

theorem appendEntries_after_adopt (s : ClusterState) (link : ClusterLink)
    (entries : AppendEntries) (now : Int) (h : ¬ entries.term < s.current_term) :
    (clusterProcessAppendEntries s link entries now).current_term =
        (appendEntriesAdopt s entries now).current_term ∧
    (clusterProcessAppendEntries s link entries now).state =
        (appendEntriesAdopt s entries now).state ∧
    (clusterProcessAppendEntries s link entries now).voted_for =
        (appendEntriesAdopt s entries now).voted_for ∧
    (clusterProcessAppendEntries s link entries now).leader =
        (appendEntriesAdopt s entries now).leader ∧
    (clusterProcessAppendEntries s link entries now).last_activity_time =
        (appendEntriesAdopt s entries now).last_activity_time ∧
    (clusterProcessAppendEntries s link entries now).votes_granted =
        (appendEntriesAdopt s entries now).votes_granted := by
  unfold clusterProcessAppendEntries
  simp only [h, if_false]
  split
  · simp [clusterSendResponseAppendEntries, clusterSendMessage]
  · split
    · simp [clusterSendResponseAppendEntries, clusterSendMessage, logAppendEntries]
    · split <;>
      · simp only [clusterSendResponseAppendEntries, clusterSendMessage, logAppendEntries,
          logCommitIndex]
        split <;> simp

theorem appendEntriesAdopt_current_term (s : ClusterState) (entries : AppendEntries) (now : Int) :
    (appendEntriesAdopt s entries now).current_term = entries.term := by
  unfold appendEntriesAdopt
  simp only
  split
  · next h => split <;> exact h.symm
  · rfl

theorem clusterProcessAppendEntries_current_term (s : ClusterState) (link : ClusterLink)
    (entries : AppendEntries) (now : Int) :
    (clusterProcessAppendEntries s link entries now).current_term =
      max s.current_term entries.term := by
  by_cases h : entries.term < s.current_term
  · unfold clusterProcessAppendEntries
    simp only [h, if_true, clusterSendResponseAppendEntries, clusterSendMessage]
    omega
  · rw [(appendEntries_after_adopt s link entries now h).1, appendEntriesAdopt_current_term]
    omega

theorem clusterProcessResponseVote_current_term (s : ClusterState) (link : ClusterLink)
    (vote : ResponseVote) :
    s.current_term ≤ (clusterProcessResponseVote s link vote).current_term := by
  unfold clusterProcessResponseVote
  split
  · exact le_refl _
  · split
    · next h => exact le_of_lt h
    · exact le_refl _

theorem clusterProcessResponseAppendEntries_current_term (s s1 : ClusterState)
    (link : ClusterLink) (entries : ResponseAppendEntries)
    (h : clusterProcessResponseAppendEntries s link entries = some s1) :
    s.current_term ≤ s1.current_term := by
  unfold clusterProcessResponseAppendEntries at h
  split at h
  · split at h
    · exact absurd h (by simp)
    · split at h <;>
      · simp only [Option.some.injEq] at h
        subst h
        exact le_refl _
  · split at h
    · next hgt =>
      simp only [Option.some.injEq] at h
      subst h
      exact le_of_lt hgt
    · split at h
      · exact absurd h (by simp)
      · simp only [Option.some.injEq] at h
        subst h
        exact le_refl _

theorem cronElection_current_term (s : ClusterState) (now election_timeout : Int) :
    s.current_term ≤ (cronElection s now election_timeout).current_term := by
  rw [cronElection_eq]
  split
  · simp
  · exact le_refl _

theorem clusterCron_current_term (s s1 : ClusterState) (now rnd : Int)
    (connect : Nat → Option Int) (h : clusterCron s now rnd connect = some s1) :
    s.current_term ≤ s1.current_term := by
  by_cases he : s.election_timeout = 0
  · rw [clusterCron_eq_none s now rnd connect he] at h
    exact absurd h (by simp)
  · rw [clusterCron_eq_some s now rnd connect he] at h
    simp only [Option.some.injEq] at h
    subst h
    have h1 : (cronPrepared s now connect).current_term = s.current_term := by
      rw [cronPrepared_eq]
    have h2 := cronElection_current_term (cronPrepared s now connect) now
      (s.election_timeout + Int.tmod rnd s.election_timeout)
    rw [cronLeader_eq, cronCandidate_eq]
    simpa [h1] using h2

theorem responseAppendEntries_none_linkNode (s : ClusterState) (link : ClusterLink)
    (entries : ResponseAppendEntries)
    (h : clusterProcessResponseAppendEntries s link entries = none) :
    linkNode s link = none := by
  unfold clusterProcessResponseAppendEntries at h
  split at h
  · split at h
    · assumption
    · split at h <;> exact absurd h (by simp)
  · split at h
    · exact absurd h (by simp)
    · split at h
      · assumption
      · exact absurd h (by simp)

/-- C4: `current_term` never decreases.  Each of the four message handlers,
with any message, and `clusterCron`, with any inputs, leaves `current_term` at
least as large as it found it; the two that can fail do so only on a link
bound to no roster node, respectively with `election_timeout = 0`. -/
theorem current_term_nondecreasing (s : ClusterState) :
    (∀ link vote now,
      s.current_term ≤ (clusterProcessRequestVote s link vote now).current_term) ∧
    (∀ link vote,
      s.current_term ≤ (clusterProcessResponseVote s link vote).current_term) ∧
    (∀ link entries now,
      s.current_term ≤ (clusterProcessAppendEntries s link entries now).current_term) ∧
    (∀ link entries,
      match clusterProcessResponseAppendEntries s link entries with
      | some s1 => s.current_term ≤ s1.current_term
      | none => linkNode s link = none) ∧
    (∀ now rnd connect,
      match clusterCron s now rnd connect with
      | some s1 => s.current_term ≤ s1.current_term
      | none => s.election_timeout = 0) := by
  refine ⟨?_, ?_, ?_, ?_, ?_⟩
  · intro link vote now
    rw [clusterProcessRequestVote_current_term]
    exact le_max_left _ _
  · intro link vote
    exact clusterProcessResponseVote_current_term s link vote
  · intro link entries now
    rw [clusterProcessAppendEntries_current_term]
    exact le_max_left _ _
  · intro link entries
    rcases h : clusterProcessResponseAppendEntries s link entries with _ | s1
    · exact responseAppendEntries_none_linkNode s link entries h
    · exact clusterProcessResponseAppendEntries_current_term s s1 link entries h
  · intro now rnd connect
    rcases h : clusterCron s now rnd connect with _ | s1
    · by_contra he
      rw [clusterCron_eq_some s now rnd connect he] at h
      exact absurd h (by simp)
    · exact clusterCron_current_term s s1 now rnd connect h

/-! ## Adopting a newer term -/

/-- C5, as stated, fails: an AppendEntriesResponse with `ok = true` and term 5
reaches the leader `exLeader` (term 2) from its peer `"B"`; the handler
returns, and the leader is still the leader at term 2. -/
theorem responseAppendEntries_ok_newer_term_ignored :
    ∃ s1, clusterProcessResponseAppendEntries exLeader exLinkB
            { term := 5, index := 1, commit_index := 0, ok := true } = some s1 ∧
          (5 : Int) > exLeader.current_term ∧
          s1.current_term = 2 ∧ s1.state = .leader := by
  refine ⟨exLeader, ?_, by decide, by decide, by decide⟩
  decide

/-- C5, amended: a RequestVote, a RequestVoteResponse, an AppendEntries, or an
AppendEntriesResponse with `ok = false`, whose term exceeds `current_term`
leaves the node a follower at the message's term; `voted_for` is then empty,
except that a RequestVote that passes the log comparison sets it to the
candidate; `leader` is then empty, except that an AppendEntries sets it to
the sender's `leaderid`.  An AppendEntriesResponse with `ok = true` changes
neither `current_term` nor the role, whatever its term. -/
theorem newer_term_adopted (s : ClusterState) (link : ClusterLink) :
    (∀ vote now, vote.term > s.current_term →
      (clusterProcessRequestVote s link vote now).current_term = vote.term ∧
      (clusterProcessRequestVote s link vote now).state = .follower ∧
      (clusterProcessRequestVote s link vote now).leader = "" ∧
      (clusterProcessRequestVote s link vote now).voted_for =
        if logCurrentIndex s > vote.last_log_index ∨ logCurrentTerm s > vote.last_log_term
        then "" else vote.candidateid) ∧
    (∀ vote, vote.term > s.current_term →
      (clusterProcessResponseVote s link vote).current_term = vote.term ∧
      (clusterProcessResponseVote s link vote).state = .follower ∧
      (clusterProcessResponseVote s link vote).leader = "" ∧
      (clusterProcessResponseVote s link vote).voted_for = "") ∧
    (∀ entries now, entries.term > s.current_term →
      (clusterProcessAppendEntries s link entries now).current_term = entries.term ∧
      (clusterProcessAppendEntries s link entries now).state = .follower ∧
      (clusterProcessAppendEntries s link entries now).leader = entries.leaderid ∧
      (clusterProcessAppendEntries s link entries now).voted_for = "") ∧
    (∀ entries, entries.ok = false → entries.term > s.current_term →
      ∃ s1, clusterProcessResponseAppendEntries s link entries = some s1 ∧
        s1.current_term = entries.term ∧ s1.state = .follower ∧ s1.leader = "" ∧
        s1.voted_for = "") ∧
    (∀ entries s1, entries.ok = true →
      clusterProcessResponseAppendEntries s link entries = some s1 →
      s1.current_term = s.current_term ∧ s1.state = s.state) := by
  refine ⟨?_, ?_, ?_, ?_, ?_⟩
  · intro vote now h
    have h1 : ¬ vote.term < s.current_term := by omega
    unfold clusterProcessRequestVote
    simp only [h1, h, if_true, if_false, requestVoteLogCheck]
    by_cases hlog : logCurrentIndex s > vote.last_log_index ∨
        logCurrentTerm s > vote.last_log_term
    · rw [if_pos (by simpa [logCurrentIndex, logCurrentTerm] using hlog), if_pos hlog]
      simp [clusterSendResponseVote, clusterSendMessage]
    · rw [if_neg (by simpa [logCurrentIndex, logCurrentTerm] using hlog), if_neg hlog]
      simp [clusterSendResponseVote, clusterSendMessage]
  · intro vote h
    have h1 : ¬ vote.term = s.current_term := by omega
    unfold clusterProcessResponseVote
    simp [h1, h]
  · intro entries now h
    have h1 : ¬ entries.term < s.current_term := by omega
    have h2 : ¬ entries.term = s.current_term := by omega
    obtain ⟨e1, e2, e3, e4, _, _⟩ := appendEntries_after_adopt s link entries now h1
    rw [e1, e2, e3, e4]
    unfold appendEntriesAdopt
    simp [h2]
  · intro entries hok h
    refine ⟨{ s with state := .follower, current_term := entries.term, leader := "",
                     voted_for := "" }, ?_, rfl, rfl, rfl, rfl⟩
    unfold clusterProcessResponseAppendEntries
    simp [hok, h]
  · intro entries s1 hok h
    unfold clusterProcessResponseAppendEntries at h
    simp only [hok, if_true] at h
    split at h
    · exact absurd h (by simp)
    · split at h <;>
      · simp only [Option.some.injEq] at h
        subst h
        exact ⟨rfl, rfl⟩

/-- C5, amended, at concrete inputs: the leader `exLeader` (term 2) steps
down on a RequestVote, a RequestVoteResponse, a heartbeat and a failed
AppendEntriesResponse of term 3. -/
theorem newer_term_adopted_witness :
    (clusterProcessRequestVote exLeader exLink
        { term := 3, candidateid := "B", last_log_index := 1, last_log_term := 2 } 7).state
      = .follower ∧
    (clusterProcessResponseVote exLeader exLinkB { term := 3, vote_granted := true }).state
      = .follower ∧
    (clusterProcessAppendEntries exLeader exLink exHeartbeat 7).state = .follower ∧
    (∃ s1, clusterProcessResponseAppendEntries exLeader exLinkB
        { term := 3, index := 0, commit_index := 0, ok := false } = some s1 ∧
      s1.current_term = 3 ∧ s1.state = .follower ∧ s1.leader = "" ∧ s1.voted_for = "") ∧
    (clusterProcessResponseAppendEntries exLeader exLinkB
        { term := 5, index := 1, commit_index := 0, ok := true } = some exLeader →
      exLeader.current_term = exLeader.current_term ∧ exLeader.state = exLeader.state) :=
  ⟨((newer_term_adopted exLeader exLink).1 _ 7 (by decide)).2.1,
   ((newer_term_adopted exLeader exLinkB).2.1 _ (by decide)).2.1,
   ((newer_term_adopted exLeader exLink).2.2.1 exHeartbeat 7 (by decide)).2.1,
   (newer_term_adopted exLeader exLinkB).2.2.2.1 _ rfl (by decide),
   (newer_term_adopted exLeader exLinkB).2.2.2.2 _ exLeader rfl⟩

/-! ## AppendEntries at the receiver -/

/-- C6: an AppendEntries whose term is below `current_term` gets exactly one
reply, with `ok = false` and `term = current_term`, and `last_activity_time`,
`current_term`, the role, `voted_for`, `leader`, the log and `commit_index`
stay as they were. -/
theorem appendEntries_stale_term (s : ClusterState) (link : ClusterLink)
    (entries : AppendEntries) (now : Int) (h : entries.term < s.current_term) :
    (clusterProcessAppendEntries s link entries now).sent =
      s.sent ++ [(link,
        { sender := myselfName s, port := s.port,
          data := .responseappendentries
            { term := s.current_term, index := logCurrentIndex s,
              commit_index := s.commit_index, ok := false } })] ∧
    (clusterProcessAppendEntries s link entries now).last_activity_time =
      s.last_activity_time ∧
    (clusterProcessAppendEntries s link entries now).current_term = s.current_term ∧
    (clusterProcessAppendEntries s link entries now).state = s.state ∧
    (clusterProcessAppendEntries s link entries now).voted_for = s.voted_for ∧
    (clusterProcessAppendEntries s link entries now).leader = s.leader ∧
    (clusterProcessAppendEntries s link entries now).log_entries = s.log_entries ∧
    (clusterProcessAppendEntries s link entries now).commit_index = s.commit_index := by
  unfold clusterProcessAppendEntries
  simp [h, clusterSendResponseAppendEntries, clusterSendMessage, clusterBuildMessageHdr]

/-- C6 at a concrete input: a frame of term 1 reaches `exLeader` (term 2). -/
theorem appendEntries_stale_term_witness :
    (clusterProcessAppendEntries exLeader exLink { exHeartbeat with term := 1 } 7).sent =
      [(exLink,
        { sender := "A", port := 7000,
          data := .responseappendentries
            { term := 2, index := 1, commit_index := 0, ok := false } })] ∧
    (clusterProcessAppendEntries exLeader exLink { exHeartbeat with term := 1 } 7).state =
      .leader :=
  ⟨(appendEntries_stale_term exLeader exLink { exHeartbeat with term := 1 } 7 (by decide)).1,
   (appendEntries_stale_term exLeader exLink { exHeartbeat with term := 1 } 7
      (by decide)).2.2.2.1⟩

/-- C7: after an AppendEntries whose term is at least `current_term`,
`last_activity_time` is `now`, `current_term` is the message's term, `leader`
is the message's `leaderid`, the role is follower if it was candidate or the
term is newer, and `voted_for` is empty if the term is newer and unchanged if
it is equal; none of this depends on the outcome of the log checks, which the
statement does not mention. -/
theorem appendEntries_current_term (s : ClusterState) (link : ClusterLink)
    (entries : AppendEntries) (now : Int) (h : entries.term ≥ s.current_term) :
    (clusterProcessAppendEntries s link entries now).last_activity_time = now ∧
    (clusterProcessAppendEntries s link entries now).current_term = entries.term ∧
    (clusterProcessAppendEntries s link entries now).leader = entries.leaderid ∧
    (s.state = .candidate ∨ entries.term > s.current_term →
      (clusterProcessAppendEntries s link entries now).state = .follower) ∧
    (entries.term > s.current_term →
      (clusterProcessAppendEntries s link entries now).voted_for = "") ∧
    (entries.term = s.current_term →
      (clusterProcessAppendEntries s link entries now).voted_for = s.voted_for) := by
  have h1 : ¬ entries.term < s.current_term := by omega
  obtain ⟨e1, e2, e3, e4, e5, _⟩ := appendEntries_after_adopt s link entries now h1
  rw [e1, e2, e3, e4, e5]
  unfold appendEntriesAdopt
  by_cases h2 : entries.term = s.current_term
  · have h3 : ¬ entries.term > s.current_term := by omega
    by_cases hc : s.state = .candidate
    · simp [h2, hc]
    · simp [h2, hc]
  · have h3 : entries.term > s.current_term := by omega
    simp [h2, h3]

/-- C7 at concrete inputs: `exState` (term 0) and `exLeader` (term 2) each
receive the heartbeat of term 3. -/
theorem appendEntries_current_term_witness :
    (clusterProcessAppendEntries exState exLink exHeartbeat 7).last_activity_time = 7 ∧
    (clusterProcessAppendEntries exState exLink exHeartbeat 7).current_term = 3 ∧
    (clusterProcessAppendEntries exState exLink exHeartbeat 7).leader = "B" ∧
    (clusterProcessAppendEntries exLeader exLink exHeartbeat 7).state = .follower ∧
    (clusterProcessAppendEntries exLeader exLink exHeartbeat 7).voted_for = "" :=
  ⟨(appendEntries_current_term exState exLink exHeartbeat 7 (by decide)).1,
   (appendEntries_current_term exState exLink exHeartbeat 7 (by decide)).2.1,
   (appendEntries_current_term exState exLink exHeartbeat 7 (by decide)).2.2.1,
   (appendEntries_current_term exLeader exLink exHeartbeat 7 (by decide)).2.2.2.1
     (Or.inr (by decide)),
   (appendEntries_current_term exLeader exLink exHeartbeat 7 (by decide)).2.2.2.2.1
     (by decide)⟩

theorem logVerifyAppend_adopt (s : ClusterState) (entries : AppendEntries) (now : Int)
    (i t : Int) :
    logVerifyAppend (appendEntriesAdopt s entries now) i t = logVerifyAppend s i t := by
  have h : (appendEntriesAdopt s entries now).log_entries = s.log_entries := by
    unfold appendEntriesAdopt
    simp only
    split
    · split <;> rfl
    · rfl
  unfold logVerifyAppend
  rw [h]

theorem appendEntriesAdopt_frame (s : ClusterState) (entries : AppendEntries) (now : Int) :
    (appendEntriesAdopt s entries now).log_entries = s.log_entries ∧
    (appendEntriesAdopt s entries now).commit_index = s.commit_index ∧
    (appendEntriesAdopt s entries now).sent = s.sent ∧
    (appendEntriesAdopt s entries now).nodes = s.nodes ∧
    (appendEntriesAdopt s entries now).myself = s.myself ∧
    (appendEntriesAdopt s entries now).port = s.port := by
  unfold appendEntriesAdopt
  simp only
  split
  · split <;> simp
  · simp

/-- C9: when the message's term is not stale and `logVerifyAppend` rejects
`(prev_log_index, prev_log_term)`, the log and `commit_index` after the call
are those before it, whatever entries and `leader_commit_index` the message
carries. -/
theorem appendEntries_mismatch_keeps_log (s : ClusterState) (link : ClusterLink)
    (entries : AppendEntries) (now : Int) (h : entries.term ≥ s.current_term)
    (hv : logVerifyAppend s entries.prev_log_index entries.prev_log_term ≠ 0) :
    (clusterProcessAppendEntries s link entries now).log_entries = s.log_entries ∧
    (clusterProcessAppendEntries s link entries now).commit_index = s.commit_index := by
  obtain ⟨f1, f2, _, _, _, _⟩ := appendEntriesAdopt_frame s entries now
  have h1 : ¬ entries.term < s.current_term := by omega
  unfold clusterProcessAppendEntries
  simp only [h1, if_false, logVerifyAppend_adopt, hv, ne_eq, not_false_eq_true, if_true]
  simp [clusterSendResponseAppendEntries, clusterSendMessage, f1, f2]

/-- C9 at a concrete input: `exLeader` keeps its one-entry log and its commit
index 0 on `exMismatch`. -/
theorem appendEntries_mismatch_keeps_log_witness :
    logVerifyAppend exLeader 2 2 ≠ 0 ∧
    (clusterProcessAppendEntries exLeader exLink exMismatch 7).log_entries =
      exLeader.log_entries ∧
    (clusterProcessAppendEntries exLeader exLink exMismatch 7).commit_index = 0 :=
  ⟨by decide, appendEntries_mismatch_keeps_log exLeader exLink exMismatch 7 (by decide)
    (by decide)⟩

/-! ## One vote per term -/

theorem clusterProcessRequestVote_voted_for (s : ClusterState) (link : ClusterLink)
    (vote : RequestVote) (now : Int)
    (ht : (clusterProcessRequestVote s link vote now).current_term = s.current_term)
    (hv : s.voted_for ≠ "") :
    (clusterProcessRequestVote s link vote now).voted_for = s.voted_for := by
  rw [clusterProcessRequestVote_current_term] at ht
  have h2 : ¬ vote.term > s.current_term := by omega
  unfold clusterProcessRequestVote
  by_cases h1 : vote.term < s.current_term
  · simp [h1, clusterSendResponseVote, clusterSendMessage]
  · simp only [h1, h2, if_false]
    by_cases h3 : s.voted_for.length > 0 ∧ s.voted_for ≠ vote.candidateid
    · simp [h3, clusterSendResponseVote, clusterSendMessage]
    · simp only [h3, if_false, requestVoteLogCheck]
      split
      · simp [clusterSendResponseVote, clusterSendMessage]
      · simp only [clusterSendResponseVote, clusterSendMessage]
        by_contra hne
        exact h3 ⟨(string_length_pos _).mpr hv, fun h => hne h.symm⟩

theorem step_voted_for (s s1 : ClusterState) (e : Event) (h : step s e = some s1)
    (ht : s1.current_term = s.current_term) (hv : s.voted_for ≠ "") :
    s1.voted_for = s.voted_for := by
  cases e with
  | requestVote link vote now =>
    simp only [step, Option.some.injEq] at h
    subst h
    exact clusterProcessRequestVote_voted_for s link vote now ht hv
  | responseVote link vote =>
    simp only [step, Option.some.injEq] at h
    subst h
    unfold clusterProcessResponseVote at ht ⊢
    split
    · rfl
    · split
      · next hgt =>
        simp only [*, if_true, if_false] at ht
        omega
      · rfl
  | appendEntries link entries now =>
    simp only [step, Option.some.injEq] at h
    subst h
    by_cases h1 : entries.term < s.current_term
    · unfold clusterProcessAppendEntries
      simp [h1, clusterSendResponseAppendEntries, clusterSendMessage]
    · rw [clusterProcessAppendEntries_current_term] at ht
      have h2 : entries.term = s.current_term := by omega
      rw [(appendEntries_after_adopt s link entries now h1).2.2.1]
      unfold appendEntriesAdopt
      simp only [h2, if_true]
      split <;> rfl
  | responseAppendEntries link entries =>
    simp only [step] at h
    unfold clusterProcessResponseAppendEntries at h
    split at h
    · split at h
      · exact absurd h (by simp)
      · split at h <;>
        · simp only [Option.some.injEq] at h
          subst h
          rfl
    · split at h
      · next hgt =>
        simp only [Option.some.injEq] at h
        subst h
        simp only at ht
        omega
      · split at h
        · exact absurd h (by simp)
        · simp only [Option.some.injEq] at h
          subst h
          rfl
  | cron now rnd connect =>
    simp only [step] at h
    by_cases he : s.election_timeout = 0
    · rw [clusterCron_eq_none s now rnd connect he] at h
      exact absurd h (by simp)
    · rw [clusterCron_eq_some s now rnd connect he] at h
      simp only [Option.some.injEq] at h
      subst h
      have h1 : (cronPrepared s now connect).current_term = s.current_term := by
        rw [cronPrepared_eq]
      have h2 : (cronPrepared s now connect).voted_for = s.voted_for := by
        rw [cronPrepared_eq]
      rw [cronLeader_eq, cronCandidate_eq] at ht ⊢
      simp only at ht ⊢
      by_cases hf : (cronPrepared s now connect).state ≠ .leader ∧
          now - (cronPrepared s now connect).last_activity_time >
            s.election_timeout + Int.tmod rnd s.election_timeout
      · rw [cronElection_eq, if_pos hf] at ht
        simp only at ht
        omega
      · rw [cronElection_eq, if_neg hf]
        exact h2

theorem step_current_term (s s1 : ClusterState) (e : Event) (h : step s e = some s1) :
    s.current_term ≤ s1.current_term := by
  cases e with
  | requestVote link vote now =>
    simp only [step, Option.some.injEq] at h
    subst h
    rw [clusterProcessRequestVote_current_term]
    exact le_max_left _ _
  | responseVote link vote =>
    simp only [step, Option.some.injEq] at h
    subst h
    exact clusterProcessResponseVote_current_term s link vote
  | appendEntries link entries now =>
    simp only [step, Option.some.injEq] at h
    subst h
    rw [clusterProcessAppendEntries_current_term]
    exact le_max_left _ _
  | responseAppendEntries link entries =>
    exact clusterProcessResponseAppendEntries_current_term s s1 link entries h
  | cron now rnd connect =>
    exact clusterCron_current_term s s1 now rnd connect h

theorem changes_const (v : String) (l : List String) (h : ∀ x ∈ l, x = v) : changes l = 0 := by
  induction l with
  | nil => rfl
  | cons a l ih =>
    cases l with
    | nil => rfl
    | cons b rest =>
      have ha : a = v := h a (by simp)
      have hb : b = v := h b (by simp)
      have ih1 := ih (fun x hx => h x (List.mem_cons_of_mem _ hx))
      rw [hb] at ih1
      simp only [changes, ih1, ha, hb, ne_eq, not_true_eq_false, if_false]

theorem run_head (s : ClusterState) (es : List Event) (tr : List ClusterState)
    (h : run s es = some tr) : ∃ rest, tr = s :: rest := by
  cases es with
  | nil =>
    simp only [run, Option.some.injEq] at h
    exact ⟨[], h.symm⟩
  | cons e es =>
    simp only [run] at h
    split at h
    · exact absurd h (by simp)
    · split at h
      · exact absurd h (by simp)
      · next tr1 _ =>
        simp only [Option.some.injEq] at h
        exact ⟨tr1, h.symm⟩

theorem run_voted_for (es : List Event) :
    ∀ (s : ClusterState) (tr : List ClusterState), run s es = some tr →
      (∀ t ∈ tr, t.current_term = s.current_term) →
      changes (tr.map (fun t => t.voted_for)) ≤ 1 ∧
      (s.voted_for ≠ "" → ∀ t ∈ tr, t.voted_for = s.voted_for) := by
  induction es with
  | nil =>
    intro s tr h _
    simp only [run, Option.some.injEq] at h
    subst h
    simp [changes]
  | cons e es ih =>
    intro s tr h hterm
    simp only [run] at h
    split at h
    · exact absurd h (by simp)
    · next s1 hs1 =>
      split at h
      · exact absurd h (by simp)
      · next tr1 htr1 =>
        simp only [Option.some.injEq] at h
        subst h
        obtain ⟨rest, hrest⟩ := run_head s1 es tr1 htr1
        have hs1t : s1.current_term = s.current_term :=
          hterm s1 (by rw [hrest]; simp)
        have hterm1 : ∀ t ∈ tr1, t.current_term = s1.current_term := by
          intro t ht
          rw [hs1t]
          exact hterm t (List.mem_cons_of_mem _ ht)
        obtain ⟨ihc, ihk⟩ := ih s1 tr1 htr1 hterm1
        have hkeep := step_voted_for s s1 e hs1 hs1t
        constructor
        · by_cases hv : s.voted_for = s1.voted_for
          · subst hrest
            simp only [List.map_cons, changes, hv, ne_eq, not_true_eq_false, if_false,
              zero_add] at ihc ⊢
            exact ihc
          · have hs1v : s1.voted_for ≠ "" := by
              intro h0
              by_cases hs : s.voted_for = ""
              · exact hv (hs.trans h0.symm)
              · exact hv (hkeep hs).symm
            have hall := ihk hs1v
            have hz : changes (tr1.map (fun t => t.voted_for)) = 0 :=
              changes_const s1.voted_for _ (by
                intro x hx
                obtain ⟨t, ht, rfl⟩ := List.mem_map.mp hx
                exact hall t ht)
            subst hrest
            simp only [List.map_cons, changes, ne_eq, hv, not_false_eq_true, if_true] at hz ⊢
            omega
        · intro hv t ht
          rcases List.mem_cons.mp ht with rfl | ht
          · rfl
          · have h1 := hkeep hv
            rw [← h1]
            exact ihk (by rw [h1]; exact hv) t ht

/-- C2: `voted_for` changes at most once per term.  Along every run of a
node (any sequence of the four handlers and the cron job that does not fail)
in which `current_term` keeps its value, `voted_for` differs from its
predecessor at most once, and if it is non-empty at the start it is the same
in every state of the run.  In particular, once a RequestVote of a candidate
`A` (with a non-empty identity) has been granted, then after any such run that
is still in the term of that request, a RequestVote of a different candidate
carrying that term is answered with a denial and `voted_for` is still `A`. -/
theorem voted_for_once_per_term :
    (∀ (s : ClusterState) (es : List Event) (tr : List ClusterState),
      run s es = some tr → (∀ t ∈ tr, t.current_term = s.current_term) →
      changes (tr.map (fun t => t.voted_for)) ≤ 1 ∧
      (s.voted_for ≠ "" → ∀ t ∈ tr, t.voted_for = s.voted_for)) ∧
    (∀ (s : ClusterState) (linkA : ClusterLink) (voteA : RequestVote) (nowA : Int)
        (es : List Event) (tr : List ClusterState) (t : ClusterState)
        (linkB : ClusterLink) (voteB : RequestVote) (nowB : Int),
      voteA.term ≥ s.current_term →
      (voteA.term > s.current_term ∨ s.voted_for = "" ∨ s.voted_for = voteA.candidateid) →
      logCurrentIndex s ≤ voteA.last_log_index → logCurrentTerm s ≤ voteA.last_log_term →
      voteA.candidateid ≠ "" →
      run (clusterProcessRequestVote s linkA voteA nowA) es = some tr → t ∈ tr →
      (∀ u ∈ tr, u.current_term = voteA.term) →
      voteB.term = voteA.term → voteB.candidateid ≠ voteA.candidateid →
      clusterProcessRequestVote t linkB voteB nowB = clusterSendResponseVote t linkB false ∧
      (clusterProcessRequestVote t linkB voteB nowB).voted_for = voteA.candidateid) := by
  refine ⟨fun s es tr h hterm => run_voted_for es s tr h hterm, ?_⟩
  intro s linkA voteA nowA es tr t linkB voteB nowB h1 h2 h3 h4 hA hrun ht hterm hB hne
  have hterm0 : (clusterProcessRequestVote s linkA voteA nowA).current_term = voteA.term := by
    rw [clusterProcessRequestVote_current_term]
    omega
  have hvf : (clusterProcessRequestVote s linkA voteA nowA).voted_for = voteA.candidateid := by
    have hlog : ¬ (logCurrentIndex s > voteA.last_log_index ∨
        logCurrentTerm s > voteA.last_log_term) := by omega
    have hlt : ¬ voteA.term < s.current_term := by omega
    unfold clusterProcessRequestVote
    by_cases hgt : voteA.term > s.current_term
    · simp only [hlt, hgt, if_true, if_false, requestVoteLogCheck]
      rw [if_neg (by simpa [logCurrentIndex, logCurrentTerm] using hlog)]
      simp [clusterSendResponseVote, clusterSendMessage]
    · have hdup : ¬ (s.voted_for.length > 0 ∧ s.voted_for ≠ voteA.candidateid) := by
        rintro ⟨hl, hn⟩
        rcases h2 with h | h | h
        · exact hgt h
        · rw [h] at hl
          simp at hl
        · exact hn h
      simp only [hlt, hgt, hdup, if_false, requestVoteLogCheck]
      rw [if_neg hlog]
      simp [clusterSendResponseVote, clusterSendMessage]
  have hkeep := (run_voted_for es _ tr hrun
    (fun u hu => (hterm u hu).trans hterm0.symm)).2 (by rw [hvf]; exact hA) t ht
  rw [hvf] at hkeep
  have htt : t.current_term = voteA.term := hterm t ht
  have hdeny : clusterProcessRequestVote t linkB voteB nowB =
      clusterSendResponseVote t linkB false := by
    unfold clusterProcessRequestVote
    have g1 : ¬ voteB.term < t.current_term := by omega
    have g2 : ¬ voteB.term > t.current_term := by omega
    have g3 : t.voted_for.length > 0 ∧ t.voted_for ≠ voteB.candidateid := by
      rw [hkeep]
      exact ⟨(string_length_pos _).mpr hA, fun h => hne h.symm⟩
    rw [if_neg g1, if_neg g2, if_pos g3]
  refine ⟨hdeny, ?_⟩
  rw [hdeny]
  simpa [clusterSendResponseVote, clusterSendMessage] using hkeep

/-- C2 at concrete inputs: `exState` grants `"B"` its vote for term 1, then
handles a vote response and the RequestVote of `"C"` for term 1: the second
request is denied and `voted_for` is `"B"` throughout. -/
theorem voted_for_once_per_term_witness :
    changes (([clusterProcessRequestVote exState exLink exVoteB 7,
               clusterProcessResponseVote (clusterProcessRequestVote exState exLink exVoteB 7)
                 exLink { term := 0, vote_granted := false }]).map (fun t => t.voted_for)) ≤ 1 ∧
    (clusterProcessRequestVote
      (clusterProcessResponseVote (clusterProcessRequestVote exState exLink exVoteB 7)
        exLink { term := 0, vote_granted := false }) exLink exVoteC 9).voted_for = "B" :=
  ⟨(voted_for_once_per_term.1 (clusterProcessRequestVote exState exLink exVoteB 7)
      [.responseVote exLink { term := 0, vote_granted := false }] _ rfl (by decide)).1,
   (voted_for_once_per_term.2 exState exLink exVoteB 7
      [.responseVote exLink { term := 0, vote_granted := false }] _
      (clusterProcessResponseVote (clusterProcessRequestVote exState exLink exVoteB 7)
        exLink { term := 0, vote_granted := false })
      exLink exVoteC 9 (by decide) (Or.inl (by decide)) (by decide) (by decide) (by decide)
      rfl (by simp) (by decide) rfl (by decide)).2⟩

/-! ## Commit index of the leader -/

/-- C10: the value `clusterUpdateCommitIndex` computes is taken from the
`match_index` fields of all roster nodes, the leader's own record included,
and never from the leader's log.  In `exLeader` the leader and `"B"` hold
entry 1, so the specification's multiset is {1, 1, 0} and its candidate is 1;
the code sorts {0, 1, 0}, the 0 being the never-assigned `match_index` of the
leader's own record, obtains 0, and leaves `commit_index` at 0 although entry
1 is of the current term. -/
theorem commitCandidate_ignores_own_log :
    specCommitCandidate exLeader = 1 ∧
    sortedMatchIndices exLeader = [1, 0, 0] ∧
    commitCandidate exLeader = 0 ∧
    logGetTerm exLeader 1 = exLeader.current_term ∧
    (clusterUpdateCommitIndex exLeader).commit_index = 0 := by
  decide

/-! ## At most one leader per term: the invariant -/

theorem locals_set_get (l : List ClusterState) (i j : Nat) (s s1 : ClusterState)
    (h : l[i]? = some s) : (l.set i s1)[j]? = if i = j then some s1 else l[j]? := by
  have hi : i < l.length := by
    obtain ⟨hi, _⟩ := List.getElem?_eq_some.mp h
    exact hi
  rw [List.getElem?_set]
  simp [hi]

/-- The invariant survives a change of one node's state, of the network and
of the bookkeeping, provided the change respects the listed conditions. -/
theorem ElectionInv.update {g : Cluster} {gh : Ghost} (h : ElectionInv g gh) (i : Nat)
    (s s1 : ClusterState) (net1 : List Packet) (gh1 : Ghost)
    (hs : g.locals[i]? = some s)
    (o_roster : Roster g.locals.length i s1)
    (o_name : s1.name = s.name)
    (o_term : s.current_term ≤ s1.current_term)
    (o_mono : ∀ v T c, gh.vote v T = some c → gh1.vote v T = some c)
    (o_new : ∀ v T c, gh1.vote v T = some c →
      gh.vote v T = some c ∨ (v = i ∧ T = s1.current_term ∧ c < g.locals.length))
    (o_cur : ∀ c sc, gh1.vote i s1.current_term = some c → g.locals[c]? = some sc →
      s1.voted_for = sc.name)
    (o_req : ∀ p ∈ net1, ∀ rv, p.msg.data = .requestvote rv →
      p ∈ g.net ∨ (p.src = i ∧ p.dst ≠ i ∧ rv.candidateid = s.name ∧
        rv.term ≤ s1.current_term))
    (o_grant : ∀ p ∈ net1, ∀ r, p.msg.data = .responsevote r → r.vote_granted = true →
      p ∈ g.net ∨ (p.src = i ∧ p.dst ≠ i ∧ gh1.vote i r.term = some p.dst ∧
        ∃ sd, g.locals[p.dst]? = some sd ∧ r.term ≤ sd.current_term))
    (o_cnt : ∀ c v, c ≠ i → gh1.counted c v = gh.counted c v)
    (o_live : ∀ c v T, c ≠ i → net1.countP (liveFor c v T) ≤ g.net.countP (liveFor c v T))
    (o_live_i : ∀ v, v ≠ i →
      net1.countP (liveFor i v s1.current_term) + (if gh1.counted i v then 1 else 0) ≤ 1)
    (o_counted : ∀ v, gh1.counted i v = true → gh1.vote v s1.current_term = some i)
    (o_tally : s1.state = .candidate →
      s1.votes_granted ≤ (((List.range g.locals.length).countP (gh1.counted i) : Nat) : Int))
    (o_quorum : s1.state = .leader →
      g.locals.length / 2 + 1 ≤
        (List.range g.locals.length).countP (fun v => gh1.vote v s1.current_term == some i)) :
    ElectionInv ⟨g.locals.set i s1, net1⟩ gh1 := by
  have hget : ∀ j, (g.locals.set i s1)[j]? = if i = j then some s1 else g.locals[j]? :=
    fun j => locals_set_get g.locals i j s s1 hs
  have hlen : (g.locals.set i s1).length = g.locals.length := List.length_set _ _ _
  -- the state of a node before the change, given its state after it
  have hold : ∀ (j : Nat) (sj : ClusterState), (g.locals.set i s1)[j]? = some sj →
      ∃ so, g.locals[j]? = some so ∧ sj.name = so.name ∧ so.current_term ≤ sj.current_term ∧
        (j ≠ i → sj = so) ∧ (j = i → sj = s1) := by
    intro j sj hj
    rw [hget] at hj
    by_cases hij : i = j
    · subst hij
      simp only [if_true, Option.some.injEq] at hj
      subst hj
      exact ⟨s, hs, o_name, o_term, fun hne => absurd rfl hne, fun _ => rfl⟩
    · simp only [hij, if_false] at hj
      exact ⟨sj, hj, rfl, le_refl _, fun _ => rfl, fun e => absurd e.symm hij⟩
  -- the state of a node after the change, given its state before it
  have hnew : ∀ (j : Nat) (so : ClusterState), g.locals[j]? = some so →
      ∃ sj, (g.locals.set i s1)[j]? = some sj ∧ sj.name = so.name ∧
        so.current_term ≤ sj.current_term := by
    intro j so hj
    by_cases hij : i = j
    · subst hij
      rw [hs] at hj
      simp only [Option.some.injEq] at hj
      subst hj
      exact ⟨s1, by rw [hget]; simp, o_name, o_term⟩
    · exact ⟨so, by rw [hget]; simp [hij, hj], rfl, le_refl _⟩
  refine ⟨?_, ?_, ?_, ?_, ?_, ?_, ?_, ?_, ?_, ?_⟩
  · intro j sj hj
    simp only [hlen]
    obtain ⟨so, hso, _, _, hne, heq⟩ := hold j sj hj
    by_cases hij : j = i
    · rw [heq hij, hij]
      exact o_roster
    · rw [hne hij]
      exact h.roster j so hso
  · intro a b sa sb ha hb hab
    obtain ⟨oa, hoa, na, _, _, _⟩ := hold a sa ha
    obtain ⟨ob, hob, nb, _, _, _⟩ := hold b sb hb
    exact h.names a b oa ob hoa hob (by rw [← na, ← nb]; exact hab)
  · intro v T c hv
    simp only [hlen]
    rcases o_new v T c hv with hv0 | ⟨rfl, rfl, hc⟩
    · obtain ⟨hc, so, hso, hT⟩ := h.vote_bound v T c hv0
      obtain ⟨sj, hsj, _, hle⟩ := hnew v so hso
      exact ⟨hc, sj, hsj, le_trans hT hle⟩
    · exact ⟨hc, s1, by rw [hget]; simp, le_refl _⟩
  · intro v sv c sc hv hvote hc
    obtain ⟨oc, hoc, nc, _, _, _⟩ := hold c sc hc
    rw [nc]
    obtain ⟨ov, hov, _, _, hne, heq⟩ := hold v sv hv
    by_cases hvi : v = i
    · subst hvi
      rw [heq rfl] at hvote ⊢
      exact o_cur c oc hvote hoc
    · rw [hne hvi] at hvote ⊢
      rcases o_new v _ c hvote with hv0 | ⟨e, _, _⟩
      · exact h.vote_current v ov c oc hov hv0 hoc
      · exact absurd e hvi
  · intro p hp rv hrv
    rcases o_req p hp rv hrv with hp0 | ⟨hsrc, hdst, hcand, hT⟩
    · obtain ⟨hne, so, hso, hcand, hT⟩ := h.request p hp0 rv hrv
      obtain ⟨sj, hsj, hn, hle⟩ := hnew p.src so hso
      exact ⟨hne, sj, hsj, by rw [hn]; exact hcand, le_trans hT hle⟩
    · refine ⟨by rw [hsrc]; exact fun e => hdst e.symm, s1, ?_, ?_, hT⟩
      · rw [hget, hsrc]
        simp
      · rw [o_name]
        exact hcand
  · intro p hp r hr hg
    rcases o_grant p hp r hr hg with hp0 | ⟨hsrc, hdst, hvote, sd, hsd, hT⟩
    · obtain ⟨hne, hvote, so, hso, hT⟩ := h.grant p hp0 r hr hg
      obtain ⟨sj, hsj, _, hle⟩ := hnew p.dst so hso
      exact ⟨hne, o_mono _ _ _ hvote, sj, hsj, le_trans hT hle⟩
    · refine ⟨by rw [hsrc]; exact fun e => hdst e.symm, by rw [hsrc]; exact hvote, ?_⟩
      obtain ⟨sj, hsj, _, hle⟩ := hnew p.dst sd hsd
      exact ⟨sj, hsj, le_trans hT hle⟩
  · intro c v sc hc hvc
    obtain ⟨oc, hoc, _, _, hne, heq⟩ := hold c sc hc
    by_cases hci : c = i
    · subst hci
      rw [heq rfl]
      exact o_live_i v hvc
    · rw [hne hci, o_cnt c v hci]
      exact le_trans (Nat.add_le_add_right (o_live c v _ hci) _) (h.live c v oc hoc hvc)
  · intro c v hcv
    by_cases hci : c = i
    · subst hci
      exact ⟨s1, by rw [hget]; simp, o_counted v hcv⟩
    · rw [o_cnt c v hci] at hcv
      obtain ⟨so, hso, hvote⟩ := h.counted_vote c v hcv
      refine ⟨so, ?_, o_mono _ _ _ hvote⟩
      rw [hget]
      simp [Ne.symm hci, hso]
  · intro c sc hc hcand
    simp only [hlen]
    obtain ⟨oc, hoc, _, _, hne, heq⟩ := hold c sc hc
    by_cases hci : c = i
    · subst hci
      rw [heq rfl] at hcand ⊢
      exact o_tally hcand
    · rw [hne hci] at hcand ⊢
      have hfun : gh1.counted c = gh.counted c := funext (fun v => o_cnt c v hci)
      rw [hfun]
      exact h.tally c oc hoc hcand
  · intro c sc hc hlead
    simp only [hlen]
    obtain ⟨oc, hoc, _, _, hne, heq⟩ := hold c sc hc
    by_cases hci : c = i
    · subst hci
      rw [heq rfl] at hlead ⊢
      exact o_quorum hlead
    · rw [hne hci] at hlead ⊢
      refine le_trans (h.quorum c oc hoc hlead) (List.countP_mono_left ?_)
      intro v _ hv
      simp only [beq_iff_eq] at hv ⊢
      exact o_mono _ _ _ hv

theorem mem_of_mem_remove {α : Type} (l1 l2 : List α) (p q : α) (h : q ∈ l1 ++ l2) :
    q ∈ l1 ++ p :: l2 := by
  rcases List.mem_append.mp h with h | h
  · exact List.mem_append.mpr (Or.inl h)
  · exact List.mem_append.mpr (Or.inr (List.mem_cons_of_mem _ h))

theorem countP_remove {α : Type} (f : α → Bool) (l1 l2 : List α) (p : α) :
    (l1 ++ p :: l2).countP f = (l1 ++ l2).countP f + (if f p = true then 1 else 0) := by
  simp only [List.countP_append, List.countP_cons]
  omega

theorem liveFor_plain (c v : Nat) (T : Int) (p : Packet) (h : plainPacket p) :
    liveFor c v T p = false := by
  unfold liveFor
  rcases hd : p.msg.data with rv | r | e | e
  · exact absurd hd (h.1 rv)
  · simp [h.2 r hd]
  · rfl
  · rfl

theorem countP_plain (c v : Nat) (T : Int) (l : List Packet) (h : ∀ p ∈ l, plainPacket p) :
    l.countP (liveFor c v T) = 0 := by
  rw [List.countP_eq_zero]
  intro p hp
  simp [liveFor_plain c v T p (h p hp)]

/-- The invariant survives the loss of a packet and the arrival of plain
packets in the network. -/
theorem ElectionInv.net {g : Cluster} {gh : Ghost} (h : ElectionInv g gh)
    (base extra : List Packet) (hbase : ∀ p ∈ base, p ∈ g.net)
    (hcount : ∀ c v T, base.countP (liveFor c v T) ≤ g.net.countP (liveFor c v T))
    (hextra : ∀ p ∈ extra, plainPacket p) :
    ElectionInv ⟨g.locals, base ++ extra⟩ gh := by
  refine ⟨h.roster, h.names, h.vote_bound, h.vote_current, ?_, ?_, ?_, h.counted_vote,
    h.tally, h.quorum⟩
  · intro p hp rv hrv
    rcases List.mem_append.mp hp with hp | hp
    · exact h.request p (hbase p hp) rv hrv
    · exact absurd hrv ((hextra p hp).1 rv)
  · intro p hp r hr hg
    rcases List.mem_append.mp hp with hp | hp
    · exact h.grant p (hbase p hp) r hr hg
    · rw [(hextra p hp).2 r hr] at hg
      exact absurd hg (by simp)
  · intro c v s hs hvc
    have h1 := h.live c v s hs hvc
    have h2 := hcount c v s.current_term
    have h3 := countP_plain c v s.current_term extra hextra
    simp only [List.countP_append, h3] at h1 ⊢
    omega

/-- Dropping one packet and adding plain ones. -/
theorem ElectionInv.net_remove {g : Cluster} {gh : Ghost} (h : ElectionInv g gh)
    (l1 l2 extra : List Packet) (p : Packet) (hnet : g.net = l1 ++ p :: l2)
    (hextra : ∀ q ∈ extra, plainPacket q) :
    ElectionInv ⟨g.locals, l1 ++ l2 ++ extra⟩ gh := by
  refine h.net (l1 ++ l2) extra ?_ ?_ hextra
  · intro q hq
    rw [hnet]
    exact mem_of_mem_remove l1 l2 p q hq
  · intro c v T
    rw [hnet, countP_remove]
    omega

/-- No packet in flight can add a vote to a node's count in a term beyond
that node's current term. -/
theorem ElectionInv.live_future {g : Cluster} {gh : Ghost} (h : ElectionInv g gh) (i v : Nat)
    (s : ClusterState) (hs : g.locals[i]? = some s) (T : Int) (hT : s.current_term < T) :
    g.net.countP (liveFor i v T) = 0 := by
  rw [List.countP_eq_zero]
  intro p hp
  unfold liveFor
  rcases hd : p.msg.data with rv | r | e | e
  · simp only [Bool.and_eq_true, beq_iff_eq, not_and]
    rintro ⟨hsrc, _⟩ hterm
    obtain ⟨_, so, hso, _, hle⟩ := h.request p hp rv hd
    rw [hsrc, hs] at hso
    simp only [Option.some.injEq] at hso
    subst hso
    omega
  · simp only [Bool.and_eq_true, beq_iff_eq, not_and]
    rintro ⟨⟨hg, _⟩, hdst⟩ hterm
    obtain ⟨_, _, so, hso, hle⟩ := h.grant p hp r hd hg
    rw [hdst, hs] at hso
    simp only [Option.some.injEq] at hso
    subst hso
    omega
  · simp
  · simp

/-- A node changes nothing the election depends on, or falls back to
follower in its term. -/
theorem ElectionInv.quiet {g : Cluster} {gh : Ghost} (h : ElectionInv g gh) (i : Nat)
    (s s1 : ClusterState) (hs : g.locals[i]? = some s)
    (hroster : Roster g.locals.length i s1) (hname : s1.name = s.name)
    (hterm : s1.current_term = s.current_term) (hvoted : s1.voted_for = s.voted_for)
    (hvotes : s1.votes_granted = s.votes_granted)
    (hstate : s1.state = s.state ∨ s1.state = .follower) :
    ElectionInv ⟨g.locals.set i s1, g.net⟩ gh := by
  have hst : ∀ r, r ≠ Role.follower → s1.state = r → s.state = r := by
    intro r hr h1
    rcases hstate with h2 | h2
    · rw [← h2]
      exact h1
    · rw [h2] at h1
      exact absurd h1.symm hr
  refine h.update i s s1 g.net gh hs hroster hname (le_of_eq hterm.symm) (fun _ _ _ hv => hv)
    (fun _ _ _ hv => Or.inl hv) ?_ (fun p hp _ _ => Or.inl hp) (fun p hp _ _ _ => Or.inl hp)
    (fun _ _ _ => rfl) (fun _ _ _ _ => le_refl _) ?_ ?_ ?_ ?_
  · intro c sc hv hc
    rw [hterm] at hv
    rw [hvoted]
    exact h.vote_current i s c sc hs hv hc
  · intro v hv
    rw [hterm]
    exact h.live i v s hs hv
  · intro v hv
    obtain ⟨so, hso, hvote⟩ := h.counted_vote i v hv
    rw [hs] at hso
    simp only [Option.some.injEq] at hso
    subst hso
    rw [hterm]
    exact hvote
  · intro hc
    rw [hvotes]
    exact h.tally i s hs (hst _ (by decide) hc)
  · intro hl
    rw [hterm]
    exact h.quorum i s hs (hst _ (by decide) hl)

/-- A node adopts a newer term and becomes a follower that has not voted. -/
theorem ElectionInv.adopt {g : Cluster} {gh : Ghost} (h : ElectionInv g gh) (i : Nat)
    (s s1 : ClusterState) (hs : g.locals[i]? = some s)
    (hroster : Roster g.locals.length i s1) (hname : s1.name = s.name)
    (hterm : s.current_term < s1.current_term) (hstate : s1.state = .follower) :
    ∃ gh1, ElectionInv ⟨g.locals.set i s1, g.net⟩ gh1 := by
  have hfresh : ∀ c, gh.vote i s1.current_term ≠ some c := by
    intro c hv
    obtain ⟨_, so, hso, hle⟩ := h.vote_bound i _ c hv
    rw [hs] at hso
    simp only [Option.some.injEq] at hso
    subst hso
    omega
  refine ⟨{ vote := gh.vote, counted := fun c v => if c = i then false else gh.counted c v }, ?_⟩
  refine h.update i s s1 g.net _ hs hroster hname (le_of_lt hterm) (fun _ _ _ hv => hv)
    (fun _ _ _ hv => Or.inl hv) ?_ (fun p hp _ _ => Or.inl hp) (fun p hp _ _ _ => Or.inl hp)
    ?_ (fun _ _ _ _ => le_refl _) ?_ ?_ ?_ ?_
  · intro c sc hv _
    exact absurd hv (hfresh c)
  · intro c v hc
    simp [hc]
  · intro v _
    simp [h.live_future i v s hs s1.current_term hterm]
  · intro v hv
    simp at hv
  · intro hc
    rw [hstate] at hc
    exact absurd hc (by decide)
  · intro hl
    rw [hstate] at hl
    exact absurd hl (by decide)

theorem countP_snoc {α : Type} (f : α → Bool) (l : List α) (q : α) :
    (l ++ [q]).countP f = l.countP f + (if f q = true then 1 else 0) := by
  simp only [List.countP_append, List.countP_cons, List.countP_nil, zero_add]

/-- A node grants its vote: the RequestVote leaves the network, the granted
reply enters it. -/
theorem ElectionInv.grant_vote {g : Cluster} {gh : Ghost} (h : ElectionInv g gh) (i : Nat)
    (s s1 : ClusterState) (l1 l2 : List Packet) (p q : Packet) (rv : RequestVote)
    (hs : g.locals[i]? = some s) (hnet : g.net = l1 ++ p :: l2) (hdst : p.dst = i)
    (hrv : p.msg.data = .requestvote rv) (hT : rv.term = s.current_term)
    (hfree : s.voted_for = "" ∨ s.voted_for = rv.candidateid)
    (hroster : Roster g.locals.length i s1) (hname : s1.name = s.name)
    (hterm : s1.current_term = s.current_term) (hstate : s1.state = s.state)
    (hvotes : s1.votes_granted = s.votes_granted) (hvoted : s1.voted_for = rv.candidateid)
    (hqs : q.src = i) (hqd : q.dst = p.src)
    (hqm : q.msg.data = .responsevote { term := rv.term, vote_granted := true }) :
    ∃ gh1, ElectionInv ⟨g.locals.set i s1, l1 ++ l2 ++ [q]⟩ gh1 := by
  have hp : p ∈ g.net := by
    rw [hnet]
    exact List.mem_append.mpr (Or.inr (List.mem_cons_self _ _))
  obtain ⟨hne, sc, hsc, hcand, hle⟩ := h.request p hp rv hrv
  rw [hdst] at hne
  have hscn : sc.name ≠ "" := (h.roster p.src sc hsc).2.1
  have hcn : p.src < g.locals.length := (List.getElem?_eq_some.mp hsc).1
  -- whoever node `i` has voted for in this term is the sender of the request
  have hsame : ∀ c, gh.vote i rv.term = some c → c = p.src := by
    intro c hv
    obtain ⟨hc, _⟩ := h.vote_bound i _ c hv
    obtain ⟨sc2, hsc2⟩ : ∃ sc2, g.locals[c]? = some sc2 :=
      ⟨g.locals[c], List.getElem?_eq_getElem hc⟩
    rw [hT] at hv
    have h1 := h.vote_current i s c sc2 hs hv hsc2
    have h2 : sc2.name ≠ "" := (h.roster c sc2 hsc2).2.1
    rcases hfree with h3 | h3
    · rw [h3] at h1
      exact absurd h1.symm h2
    · rw [h3, hcand] at h1
      exact h.names c p.src sc2 sc hsc2 hsc h1.symm
  refine ⟨{ vote := fun v T => if v = i ∧ T = rv.term then some p.src else gh.vote v T,
            counted := gh.counted }, ?_⟩
  refine h.update i s s1 (l1 ++ l2 ++ [q]) _ hs hroster hname (le_of_eq hterm.symm)
    ?_ ?_ ?_ ?_ ?_ (fun _ _ _ => rfl) ?_ ?_ ?_ ?_ ?_
  · intro v T c hv
    by_cases hc : v = i ∧ T = rv.term
    · obtain ⟨rfl, rfl⟩ := hc
      simp only [and_self, if_true, Option.some.injEq]
      exact (hsame c hv).symm
    · simp only [hc, if_false]
      exact hv
  · intro v T c hv
    by_cases hc : v = i ∧ T = rv.term
    · simp only [hc, and_self, if_true, Option.some.injEq] at hv
      subst hv
      exact Or.inr ⟨hc.1, by rw [hc.2, hT, hterm], hcn⟩
    · simp only [hc, if_false] at hv
      exact Or.inl hv
  · intro c sc2 hv hc
    simp only [hterm, ← hT, and_self, if_true, Option.some.injEq] at hv
    subst hv
    rw [hsc] at hc
    simp only [Option.some.injEq] at hc
    subst hc
    rw [hvoted, hcand]
  · intro p1 hp1 rv1 hrv1
    rcases List.mem_append.mp hp1 with hp1 | hp1
    · left
      rw [hnet]
      exact mem_of_mem_remove l1 l2 p p1 hp1
    · simp only [List.mem_singleton] at hp1
      subst hp1
      rw [hqm] at hrv1
      exact absurd hrv1 (by simp)
  · intro p1 hp1 r hr hg
    rcases List.mem_append.mp hp1 with hp1 | hp1
    · left
      rw [hnet]
      exact mem_of_mem_remove l1 l2 p p1 hp1
    · simp only [List.mem_singleton] at hp1
      subst hp1
      rw [hqm] at hr
      simp only [ClusterMsgData.responsevote.injEq] at hr
      subst hr
      refine Or.inr ⟨hqs, by rw [hqd]; exact hne, ?_, sc, by rw [hqd]; exact hsc, hle⟩
      simp [hqd]
  · intro c v T hc
    rw [countP_snoc, hnet, countP_remove (liveFor c v T) l1 l2 p]
    have hq : liveFor c v T q = true → liveFor c v T p = true := by
      unfold liveFor
      rw [hqm, hrv]
      simp only [Bool.and_eq_true, beq_iff_eq, Bool.true_and]
      rintro ⟨⟨h1, h2⟩, h3⟩
      exact ⟨⟨by rw [← h2, hqd], by rw [hdst, ← h1, hqs]⟩, h3⟩
    by_cases hq1 : liveFor c v T q = true
    · rw [if_pos hq1, if_pos (hq hq1)]
    · rw [if_neg hq1]
      omega
  · intro v hv
    have h1 := h.live i v s hs hv
    rw [hnet] at h1
    have hq : ¬ liveFor i v s.current_term q = true := by
      unfold liveFor
      rw [hqm]
      simp only [Bool.and_eq_true, beq_iff_eq, Bool.true_and, not_and]
      intro h2
      exact absurd (h2.1.symm.trans hqs) hv
    rw [countP_remove (liveFor i v s.current_term) l1 l2 p] at h1
    rw [hterm, countP_snoc, if_neg hq]
    dsimp only
    omega
  · intro v hv
    obtain ⟨so, hso, hvote⟩ := h.counted_vote i v hv
    rw [hs] at hso
    simp only [Option.some.injEq] at hso
    subst hso
    by_cases hc : v = i ∧ s1.current_term = rv.term
    · rw [hc.1] at hvote
      exact absurd (hsame i (by rw [hT]; exact hvote)).symm hne
    · simp only [hc, if_false]
      rw [hterm]
      exact hvote
  · intro hc
    rw [hvotes]
    exact h.tally i s hs (by rw [← hstate]; exact hc)
  · intro hl
    refine le_trans (h.quorum i s hs (by rw [← hstate]; exact hl)) (List.countP_mono_left ?_)
    intro v _ hv
    simp only [beq_iff_eq] at hv ⊢
    by_cases hc : v = i ∧ s1.current_term = rv.term
    · rw [hc.1] at hv
      exact absurd (hsame i (by rw [hT]; exact hv)).symm hne
    · simp only [hc, if_false]
      rw [hterm]
      exact hv

theorem countP_update_nodup (l : List Nat) (hnd : l.Nodup) (a : Nat) (f : Nat → Bool)
    (hf : f a = false) :
    l.countP (fun v => if v = a then true else f v) =
      l.countP f + (if a ∈ l then 1 else 0) := by
  induction l with
  | nil => simp
  | cons b l ih =>
    obtain ⟨hb, hl⟩ := List.nodup_cons.mp hnd
    rw [List.countP_cons, List.countP_cons, ih hl]
    by_cases hba : b = a
    · subst hba
      simp [hf, hb]
    · have hab : a ≠ b := fun e => hba e.symm
      by_cases hal : a ∈ l
      · simp only [hba, if_false, List.mem_cons, hab, hal, or_true, if_true]
        omega
      · simp [hba, hab, hal]

theorem countP_range_update (n a : Nat) (f : Nat → Bool) (ha : a < n) (hf : f a = false) :
    (List.range n).countP (fun v => if v = a then true else f v) =
      (List.range n).countP f + 1 := by
  rw [countP_update_nodup _ (List.nodup_range n) a f hf]
  simp [ha]

/-- A candidate counts a granted vote, which leaves the network. -/
theorem ElectionInv.count_vote {g : Cluster} {gh : Ghost} (h : ElectionInv g gh) (i : Nat)
    (s s1 : ClusterState) (l1 l2 : List Packet) (p : Packet) (r : ResponseVote)
    (hs : g.locals[i]? = some s) (hnet : g.net = l1 ++ p :: l2) (hdst : p.dst = i)
    (hr : p.msg.data = .responsevote r) (hg : r.vote_granted = true)
    (hT : r.term = s.current_term)
    (hroster : Roster g.locals.length i s1) (hname : s1.name = s.name)
    (hterm : s1.current_term = s.current_term) (hvoted : s1.voted_for = s.voted_for)
    (hstate : s1.state = s.state) (hvotes : s1.votes_granted = s.votes_granted + 1) :
    ∃ gh1, ElectionInv ⟨g.locals.set i s1, l1 ++ l2⟩ gh1 := by
  have hp : p ∈ g.net := by
    rw [hnet]
    exact List.mem_append.mpr (Or.inr (List.mem_cons_self _ _))
  obtain ⟨hne, hvote, _⟩ := h.grant p hp r hr hg
  rw [hdst] at hne hvote
  rw [hT] at hvote
  have hsrc : p.src < g.locals.length := by
    obtain ⟨_, so, hso, _⟩ := h.vote_bound _ _ _ hvote
    exact (List.getElem?_eq_some.mp hso).1
  have hlive : liveFor i p.src s.current_term p = true := by
    unfold liveFor
    rw [hr]
    simp [hg, hdst, hT]
  have hlive0 := h.live i p.src s hs hne
  rw [hnet, countP_remove (liveFor i p.src s.current_term) l1 l2 p, if_pos hlive] at hlive0
  have hnot : gh.counted i p.src = false := by
    by_contra hc
    simp only [Bool.not_eq_false] at hc
    rw [hc] at hlive0
    simp at hlive0
  refine ⟨{ vote := gh.vote,
            counted := fun c v => if c = i ∧ v = p.src then true else gh.counted c v }, ?_⟩
  refine h.update i s s1 (l1 ++ l2) _ hs hroster hname (le_of_eq hterm.symm)
    (fun _ _ _ hv => hv) (fun _ _ _ hv => Or.inl hv) ?_ ?_ ?_ ?_ ?_ ?_ ?_ ?_ ?_
  · intro c sc hv hc
    rw [hterm] at hv
    rw [hvoted]
    exact h.vote_current i s c sc hs hv hc
  · intro q hq _ _
    left
    rw [hnet]
    exact mem_of_mem_remove l1 l2 p q hq
  · intro q hq _ _ _
    left
    rw [hnet]
    exact mem_of_mem_remove l1 l2 p q hq
  · intro c v hc
    simp [hc]
  · intro c v T _
    rw [hnet, countP_remove (liveFor c v T) l1 l2 p]
    omega
  · intro v hv
    rw [hterm]
    by_cases hvp : v = p.src
    · subst hvp
      simp only [and_self, if_true]
      omega
    · have h1 := h.live i v s hs hv
      rw [hnet, countP_remove (liveFor i v s.current_term) l1 l2 p] at h1
      simp only [hvp, and_false, if_false]
      omega
  · intro v hv
    rw [hterm]
    by_cases hvp : v = p.src
    · rw [hvp]
      exact hvote
    · simp only [hvp, and_false, if_false] at hv
      obtain ⟨so, hso, hvote1⟩ := h.counted_vote i v hv
      rw [hs] at hso
      simp only [Option.some.injEq] at hso
      subst hso
      exact hvote1
  · intro hc
    have h1 := h.tally i s hs (by rw [← hstate]; exact hc)
    have h2 : (fun v => if True ∧ v = p.src then true else gh.counted i v) =
        (fun v => if v = p.src then true else gh.counted i v) := by
      funext v
      simp
    simp only [h2]
    rw [countP_range_update _ _ _ hsrc hnot, hvotes]
    push_cast
    omega
  · intro hl
    rw [hterm]
    exact h.quorum i s hs (by rw [← hstate]; exact hl)

/-- A node starts an election: it moves to the next term as a candidate that
has voted for itself, and its RequestVotes, one per peer at most, enter the
network. -/
theorem ElectionInv.elect {g : Cluster} {gh : Ghost} (h : ElectionInv g gh) (i : Nat)
    (s s1 : ClusterState) (rvs : List Packet) (hs : g.locals[i]? = some s)
    (hroster : Roster g.locals.length i s1) (hname : s1.name = s.name)
    (hterm : s1.current_term = s.current_term + 1) (hstate : s1.state = .candidate)
    (hvoted : s1.voted_for = s.name) (hvotes : s1.votes_granted = 1)
    (hrvs : ∀ q ∈ rvs, q.src = i ∧ q.dst ≠ i ∧
      ∃ rv, q.msg.data = .requestvote rv ∧ rv.term = s1.current_term ∧
        rv.candidateid = s.name)
    (hone : ∀ v, rvs.countP (fun q => q.dst == v) ≤ 1) :
    ∃ gh1, ElectionInv ⟨g.locals.set i s1, g.net ++ rvs⟩ gh1 := by
  have hi : i < g.locals.length := (List.getElem?_eq_some.mp hs).1
  have hlt : s.current_term < s1.current_term := by omega
  have hfresh : ∀ c, gh.vote i s1.current_term ≠ some c := by
    intro c hv
    obtain ⟨_, so, hso, hle⟩ := h.vote_bound i _ c hv
    rw [hs] at hso
    simp only [Option.some.injEq] at hso
    subst hso
    omega
  refine ⟨{ vote := fun v T => if v = i ∧ T = s1.current_term then some i else gh.vote v T,
            counted := fun c v => if c = i then decide (v = i) else gh.counted c v }, ?_⟩
  refine h.update i s s1 (g.net ++ rvs) _ hs hroster hname (le_of_lt hlt)
    ?_ ?_ ?_ ?_ ?_ ?_ ?_ ?_ ?_ ?_ ?_
  · intro v T c hv
    by_cases hc : v = i ∧ T = s1.current_term
    · obtain ⟨rfl, rfl⟩ := hc
      exact absurd hv (hfresh c)
    · simp only [hc, if_false]
      exact hv
  · intro v T c hv
    by_cases hc : v = i ∧ T = s1.current_term
    · simp only [hc, and_self, if_true, Option.some.injEq] at hv
      subst hv
      exact Or.inr ⟨hc.1, hc.2, hi⟩
    · simp only [hc, if_false] at hv
      exact Or.inl hv
  · intro c sc hv hc
    simp only [and_self, if_true, Option.some.injEq] at hv
    subst hv
    rw [hs] at hc
    simp only [Option.some.injEq] at hc
    subst hc
    exact hvoted
  · intro q hq rv hrv
    rcases List.mem_append.mp hq with hq | hq
    · exact Or.inl hq
    · obtain ⟨h1, h2, rv1, h3, h4, h5⟩ := hrvs q hq
      rw [h3] at hrv
      simp only [ClusterMsgData.requestvote.injEq] at hrv
      subst hrv
      exact Or.inr ⟨h1, h2, h5, le_of_eq h4⟩
  · intro q hq r hr _
    rcases List.mem_append.mp hq with hq | hq
    · exact Or.inl hq
    · obtain ⟨_, _, rv1, h3, _, _⟩ := hrvs q hq
      rw [h3] at hr
      exact absurd hr (by simp)
  · intro c v hc
    simp [hc]
  · intro c v T hc
    rw [List.countP_append]
    have h0 : rvs.countP (liveFor c v T) = 0 := by
      rw [List.countP_eq_zero]
      intro q hq
      obtain ⟨h1, _, rv1, h3, _, _⟩ := hrvs q hq
      unfold liveFor
      rw [h3]
      simp only [Bool.and_eq_true, beq_iff_eq, not_and]
      intro h4
      exact absurd (h1.symm.trans h4.1) (fun e => hc e.symm)
    omega
  · intro v hv
    rw [List.countP_append, h.live_future i v s hs s1.current_term hlt]
    have h1 : rvs.countP (liveFor i v s1.current_term) ≤ rvs.countP (fun q => q.dst == v) := by
      apply List.countP_mono_left
      intro q hq hl
      obtain ⟨_, _, rv1, h3, _, _⟩ := hrvs q hq
      unfold liveFor at hl
      rw [h3] at hl
      simp only [Bool.and_eq_true, beq_iff_eq] at hl
      simp [hl.1.2]
    have h2 := hone v
    simp only [if_true, decide_eq_true_eq, hv, if_false]
    omega
  · intro v hv
    simp only [if_true, decide_eq_true_eq] at hv
    subst hv
    simp
  · intro _
    rw [hvotes]
    have h1 : 0 < (List.range g.locals.length).countP (fun v => decide (v = i)) := by
      rw [List.countP_pos_iff]
      exact ⟨i, List.mem_range.mpr hi, by simp⟩
    simp only [if_true]
    omega
  · intro hl
    rw [hstate] at hl
    exact absurd hl (by decide)

/-- A candidate that has counted the votes of a quorum becomes the leader. -/
theorem ElectionInv.promote {g : Cluster} {gh : Ghost} (h : ElectionInv g gh) (i : Nat)
    (s s1 : ClusterState) (hs : g.locals[i]? = some s)
    (hroster : Roster g.locals.length i s1) (hname : s1.name = s.name)
    (hterm : s1.current_term = s.current_term) (hvoted : s1.voted_for = s.voted_for)
    (hcand : s.state = .candidate) (hlead : s1.state = .leader)
    (hq : ((g.locals.length / 2 + 1 : Nat) : Int) ≤ s.votes_granted) :
    ElectionInv ⟨g.locals.set i s1, g.net⟩ gh := by
  refine h.update i s s1 g.net gh hs hroster hname (le_of_eq hterm.symm) (fun _ _ _ hv => hv)
    (fun _ _ _ hv => Or.inl hv) ?_ (fun p hp _ _ => Or.inl hp) (fun p hp _ _ _ => Or.inl hp)
    (fun _ _ _ => rfl) (fun _ _ _ _ => le_refl _) ?_ ?_ ?_ ?_
  · intro c sc hv hc
    rw [hterm] at hv
    rw [hvoted]
    exact h.vote_current i s c sc hs hv hc
  · intro v hv
    rw [hterm]
    exact h.live i v s hs hv
  · intro v hv
    obtain ⟨so, hso, hvote⟩ := h.counted_vote i v hv
    rw [hs] at hso
    simp only [Option.some.injEq] at hso
    subst hso
    rw [hterm]
    exact hvote
  · intro hc
    rw [hlead] at hc
    exact absurd hc (by decide)
  · intro _
    have h1 := h.tally i s hs hcand
    have h2 : (List.range g.locals.length).countP (gh.counted i) ≤
        (List.range g.locals.length).countP
          (fun v => gh.vote v s1.current_term == some i) := by
      apply List.countP_mono_left
      intro v _ hv
      obtain ⟨so, hso, hvote⟩ := h.counted_vote i v hv
      rw [hs] at hso
      simp only [Option.some.injEq] at hso
      subst hso
      rw [hterm]
      simp [hvote]
    omega

/-! ## At most one leader per term: what each handler does to the election -/

theorem requestVoteLogCheck_deny (s : ClusterState) (link : ClusterLink) (vote : RequestVote)
    (now : Int)
    (h : logCurrentIndex s > vote.last_log_index ∨ logCurrentTerm s > vote.last_log_term) :
    requestVoteLogCheck s link vote now = clusterSendResponseVote s link false := by
  unfold requestVoteLogCheck
  simp only
  rw [if_pos h]

theorem requestVoteLogCheck_grant (s : ClusterState) (link : ClusterLink) (vote : RequestVote)
    (now : Int)
    (h : ¬ (logCurrentIndex s > vote.last_log_index ∨ logCurrentTerm s > vote.last_log_term)) :
    requestVoteLogCheck s link vote now =
      { clusterSendResponseVote { s with voted_for := vote.candidateid } link true with
        last_activity_time := now } := by
  unfold requestVoteLogCheck
  simp only
  rw [if_neg h]

theorem requestVoteLogCheck_effect (s : ClusterState) (link : ClusterLink)
    (vote : RequestVote) (now : Int) :
    (requestVoteLogCheck s link vote now).nodes = s.nodes ∧
    (requestVoteLogCheck s link vote now).name = s.name ∧
    (requestVoteLogCheck s link vote now).myself = s.myself ∧
    (requestVoteLogCheck s link vote now).votes_granted = s.votes_granted ∧
    (requestVoteLogCheck s link vote now).current_term = s.current_term ∧
    (requestVoteLogCheck s link vote now).state = s.state ∧
    ∃ granted : Bool, ∃ m : ClusterMsg,
      (requestVoteLogCheck s link vote now).sent = s.sent ++ [(link, m)] ∧
      m.data = .responsevote { term := s.current_term, vote_granted := granted } ∧
      (requestVoteLogCheck s link vote now).voted_for =
        if granted then vote.candidateid else s.voted_for := by
  by_cases h : logCurrentIndex s > vote.last_log_index ∨
      logCurrentTerm s > vote.last_log_term
  · rw [requestVoteLogCheck_deny s link vote now h]
    exact ⟨rfl, rfl, rfl, rfl, rfl, rfl, false, _, rfl, rfl, rfl⟩
  · rw [requestVoteLogCheck_grant s link vote now h]
    exact ⟨rfl, rfl, rfl, rfl, rfl, rfl, true, _, rfl, rfl, rfl⟩

theorem clusterProcessRequestVote_effect (s : ClusterState) (link : ClusterLink)
    (vote : RequestVote) (now : Int) :
    (clusterProcessRequestVote s link vote now).nodes = s.nodes ∧
    (clusterProcessRequestVote s link vote now).name = s.name ∧
    (clusterProcessRequestVote s link vote now).myself = s.myself ∧
    (clusterProcessRequestVote s link vote now).votes_granted = s.votes_granted ∧
    ∃ granted : Bool, ∃ m : ClusterMsg,
      (clusterProcessRequestVote s link vote now).sent = s.sent ++ [(link, m)] ∧
      m.data = .responsevote
        { term := (clusterProcessRequestVote s link vote now).current_term,
          vote_granted := granted } ∧
      ((vote.term > s.current_term ∧
        (clusterProcessRequestVote s link vote now).current_term = vote.term ∧
        (clusterProcessRequestVote s link vote now).state = .follower ∧
        (clusterProcessRequestVote s link vote now).voted_for =
          if granted then vote.candidateid else "") ∨
       (vote.term ≤ s.current_term ∧
        (clusterProcessRequestVote s link vote now).current_term = s.current_term ∧
        (clusterProcessRequestVote s link vote now).state = s.state ∧
        (granted = false ∧
            (clusterProcessRequestVote s link vote now).voted_for = s.voted_for ∨
         granted = true ∧ vote.term = s.current_term ∧
            (s.voted_for = "" ∨ s.voted_for = vote.candidateid) ∧
            (clusterProcessRequestVote s link vote now).voted_for = vote.candidateid))) := by
  by_cases h1 : vote.term < s.current_term
  · have hval : clusterProcessRequestVote s link vote now =
        clusterSendResponseVote s link false := by
      unfold clusterProcessRequestVote
      rw [if_pos h1]
    rw [hval]
    exact ⟨rfl, rfl, rfl, rfl, false, _, rfl, rfl,
      Or.inr ⟨by omega, rfl, rfl, Or.inl ⟨rfl, rfl⟩⟩⟩
  · by_cases h2 : vote.term > s.current_term
    · have hval : clusterProcessRequestVote s link vote now =
          requestVoteLogCheck
            { s with state := .follower, current_term := vote.term, leader := "",
                     voted_for := "" } link vote now := by
        unfold clusterProcessRequestVote
        rw [if_neg h1, if_pos h2]
      rw [hval]
      obtain ⟨e1, e2, e3, e4, e5, e6, granted, m, e7, e8, e9⟩ :=
        requestVoteLogCheck_effect
          { s with state := .follower, current_term := vote.term, leader := "",
                   voted_for := "" } link vote now
      refine ⟨e1, e2, e3, e4, granted, m, e7, ?_, Or.inl ⟨h2, e5, e6, e9⟩⟩
      rw [e5]
      exact e8
    · by_cases h3 : s.voted_for.length > 0 ∧ s.voted_for ≠ vote.candidateid
      · have hval : clusterProcessRequestVote s link vote now =
            clusterSendResponseVote s link false := by
          unfold clusterProcessRequestVote
          rw [if_neg h1, if_neg h2, if_pos h3]
        rw [hval]
        exact ⟨rfl, rfl, rfl, rfl, false, _, rfl, rfl,
          Or.inr ⟨by omega, rfl, rfl, Or.inl ⟨rfl, rfl⟩⟩⟩
      · have hval : clusterProcessRequestVote s link vote now =
            requestVoteLogCheck s link vote now := by
          unfold clusterProcessRequestVote
          rw [if_neg h1, if_neg h2, if_neg h3]
        rw [hval]
        obtain ⟨e1, e2, e3, e4, e5, e6, granted, m, e7, e8, e9⟩ :=
          requestVoteLogCheck_effect s link vote now
        refine ⟨e1, e2, e3, e4, granted, m, e7, ?_, Or.inr ⟨by omega, e5, e6, ?_⟩⟩
        · rw [e5]
          exact e8
        · cases granted with
          | false => exact Or.inl ⟨rfl, by simpa using e9⟩
          | true =>
            refine Or.inr ⟨rfl, by omega, ?_, by simpa using e9⟩
            by_cases he : s.voted_for = ""
            · exact Or.inl he
            · refine Or.inr ?_
              by_contra hne
              exact h3 ⟨(string_length_pos _).mpr he, hne⟩

theorem clusterProcessAppendEntries_effect (s : ClusterState) (link : ClusterLink)
    (entries : AppendEntries) (now : Int) :
    (clusterProcessAppendEntries s link entries now).nodes = s.nodes ∧
    (clusterProcessAppendEntries s link entries now).name = s.name ∧
    (clusterProcessAppendEntries s link entries now).myself = s.myself ∧
    (clusterProcessAppendEntries s link entries now).votes_granted = s.votes_granted ∧
    (∃ m : ClusterMsg, ∃ r : ResponseAppendEntries,
      (clusterProcessAppendEntries s link entries now).sent = s.sent ++ [(link, m)] ∧
      m.data = .responseappendentries r) ∧
    ((entries.term > s.current_term ∧
      (clusterProcessAppendEntries s link entries now).current_term = entries.term ∧
      (clusterProcessAppendEntries s link entries now).state = .follower) ∨
     ((clusterProcessAppendEntries s link entries now).current_term = s.current_term ∧
      (clusterProcessAppendEntries s link entries now).voted_for = s.voted_for ∧
      ((clusterProcessAppendEntries s link entries now).state = s.state ∨
       (clusterProcessAppendEntries s link entries now).state = .follower))) := by
  have hframe : (clusterProcessAppendEntries s link entries now).nodes = s.nodes ∧
      (clusterProcessAppendEntries s link entries now).name = s.name ∧
      (clusterProcessAppendEntries s link entries now).myself = s.myself ∧
      (clusterProcessAppendEntries s link entries now).votes_granted = s.votes_granted ∧
      (∃ m : ClusterMsg, ∃ r : ResponseAppendEntries,
        (clusterProcessAppendEntries s link entries now).sent = s.sent ++ [(link, m)] ∧
        m.data = .responseappendentries r) := by
    have ha : (appendEntriesAdopt s entries now).nodes = s.nodes ∧
        (appendEntriesAdopt s entries now).name = s.name ∧
        (appendEntriesAdopt s entries now).myself = s.myself ∧
        (appendEntriesAdopt s entries now).votes_granted = s.votes_granted ∧
        (appendEntriesAdopt s entries now).sent = s.sent := by
      unfold appendEntriesAdopt
      simp only
      split
      · split <;> simp
      · simp
    obtain ⟨a1, a2, a3, a4, a5⟩ := ha
    unfold clusterProcessAppendEntries
    split
    · exact ⟨rfl, rfl, rfl, rfl, _, _, rfl, rfl⟩
    · simp only
      split
      · exact ⟨a1, a2, a3, a4, _, _, by
          simp only [clusterSendResponseAppendEntries, clusterSendMessage, a5]; rfl, rfl⟩
      · split
        · exact ⟨a1, a2, a3, a4, _, _, by
            simp only [clusterSendResponseAppendEntries, clusterSendMessage, logAppendEntries,
              a5]; rfl, rfl⟩
        · split
          · simp only [clusterSendResponseAppendEntries, clusterSendMessage, logAppendEntries,
              logCommitIndex]
            split <;> exact ⟨a1, a2, a3, a4, _, _, by simp only [a5]; rfl, rfl⟩
          · simp only [clusterSendResponseAppendEntries, clusterSendMessage, logAppendEntries,
              logCommitIndex]
            split <;> exact ⟨a1, a2, a3, a4, _, _, by simp only [a5]; rfl, rfl⟩
  obtain ⟨f1, f2, f3, f4, f5⟩ := hframe
  refine ⟨f1, f2, f3, f4, f5, ?_⟩
  by_cases h1 : entries.term < s.current_term
  · right
    unfold clusterProcessAppendEntries
    simp only [h1, if_true]
    exact ⟨rfl, rfl, Or.inl rfl⟩
  · obtain ⟨e1, e2, e3, _, _, _⟩ := appendEntries_after_adopt s link entries now h1
    rw [e1, e2, e3]
    by_cases h2 : entries.term = s.current_term
    · right
      unfold appendEntriesAdopt
      simp only [h2, if_true]
      by_cases hc : s.state = .candidate
      · simp [hc]
      · simp [hc]
    · left
      refine ⟨by omega, ?_, ?_⟩ <;> simp [appendEntriesAdopt, h2]

theorem sameRoster_refl (a : List ClusterNode) : sameRoster a a := by
  refine ⟨rfl, ?_⟩
  intro j x y hx hy
  rw [hx] at hy
  simp only [Option.some.injEq] at hy
  subst hy
  exact ⟨rfl, rfl, fun fd h => Or.inl h⟩

theorem sameRoster_trans (a b c : List ClusterNode) (h1 : sameRoster a b)
    (h2 : sameRoster b c) : sameRoster a c := by
  refine ⟨h2.1.trans h1.1, ?_⟩
  intro j x z hx hz
  have hj : j < b.length := by
    rw [h1.1]
    exact (List.getElem?_eq_some.mp hx).1
  obtain ⟨n1, m1, l1⟩ := h1.2 j x b[j] hx (List.getElem?_eq_getElem hj)
  obtain ⟨n2, m2, l2⟩ := h2.2 j b[j] z (List.getElem?_eq_getElem hj) hz
  refine ⟨n2.trans n1, m2.trans m1, ?_⟩
  intro fd hfd
  rcases l2 fd hfd with h | h
  · exact l1 fd h
  · exact Or.inr h

theorem sameRoster_set (a : List ClusterNode) (i : Nat) (x y : ClusterNode)
    (hx : a[i]? = some x) (hn : y.name = x.name) (hm : y.myself = x.myself)
    (hl : y.link = x.link) : sameRoster a (a.set i y) := by
  refine ⟨List.length_set _ _ _, ?_⟩
  intro j u v hu hv
  rw [List.getElem?_set] at hv
  by_cases hij : i = j
  · subst hij
    have hi : i < a.length := (List.getElem?_eq_some.mp hx).1
    simp only [if_true, hi, Option.some.injEq] at hv
    subst hv
    rw [hx] at hu
    simp only [Option.some.injEq] at hu
    subst hu
    exact ⟨hn, hm, fun fd h => Or.inl (by rw [← hl]; exact h)⟩
  · simp only [hij, if_false] at hv
    rw [hu] at hv
    simp only [Option.some.injEq] at hv
    subst hv
    exact ⟨rfl, rfl, fun fd h => Or.inl h⟩

theorem sameRoster_map (a : List ClusterNode) (f : ClusterNode → ClusterNode)
    (hf : ∀ x, (f x).name = x.name ∧ (f x).myself = x.myself ∧ (f x).link = x.link) :
    sameRoster a (a.map f) := by
  refine ⟨List.length_map _ _, ?_⟩
  intro j x y hx hy
  rw [List.getElem?_map, hx] at hy
  simp only [Option.map_some', Option.some.injEq] at hy
  subst hy
  obtain ⟨h1, h2, h3⟩ := hf x
  exact ⟨h1, h2, fun fd h => Or.inl (by rw [← h3]; exact h)⟩

theorem Roster.same {n i : Nat} {s s1 : ClusterState} (h : Roster n i s)
    (hnodes : sameRoster s.nodes s1.nodes) (hname : s1.name = s.name)
    (hmyself : s1.myself = s.myself) : Roster n i s1 := by
  obtain ⟨h1, h2, h3, h4, h5⟩ := h
  have hx : ∃ x, s.nodes[s.myself]? = some x ∧ x.name = s.name := by
    unfold myselfName at h3
    rcases hm : s.nodes[s.myself]? with _ | x
    · rw [hm] at h3
      exact absurd h3.symm h2
    · rw [hm] at h3
      exact ⟨x, rfl, h3⟩
  obtain ⟨x, hx, hxn⟩ := hx
  have hlen : s.myself < s1.nodes.length := by
    rw [hnodes.1]
    exact (List.getElem?_eq_some.mp hx).1
  refine ⟨hmyself.trans h1, by rw [hname]; exact h2, ?_, hnodes.1.trans h4, ?_⟩
  · unfold myselfName
    rw [hmyself, List.getElem?_eq_getElem hlen, hname, ← hxn]
    exact (hnodes.2 _ x _ hx (List.getElem?_eq_getElem hlen)).1
  · intro j y hy
    have hj : j < s.nodes.length := by
      rw [← hnodes.1]
      exact (List.getElem?_eq_some.mp hy).1
    obtain ⟨n1, m1, l1⟩ := hnodes.2 j _ y (List.getElem?_eq_getElem hj) hy
    obtain ⟨a1, a2⟩ := h5 j _ (List.getElem?_eq_getElem hj)
    refine ⟨by rw [m1]; exact a1, ?_⟩
    intro fd hfd
    rcases l1 fd hfd with h | h
    · exact a2 fd h
    · exact h

theorem Roster.nodes_eq {n i : Nat} {s s1 : ClusterState} (h : Roster n i s)
    (hnodes : s1.nodes = s.nodes) (hname : s1.name = s.name)
    (hmyself : s1.myself = s.myself) : Roster n i s1 :=
  h.same (by rw [hnodes]; exact sameRoster_refl _) hname hmyself

theorem cronConnectNode_same (now : Int) (connect : Nat → Option Int)
    (hconnect : ∀ j fd, connect j = some fd → fd = (j : Int)) (j : Nat) (x : ClusterNode) :
    (cronConnectNode now connect (j, x)).name = x.name ∧
    (cronConnectNode now connect (j, x)).myself = x.myself ∧
    ∀ fd, (cronConnectNode now connect (j, x)).link = some fd →
      x.link = some fd ∨ fd = (j : Int) := by
  unfold cronConnectNode
  split
  · exact ⟨rfl, rfl, fun fd h => Or.inl h⟩
  · split
    · exact ⟨rfl, rfl, fun fd h => Or.inl h⟩
    · split
      · exact ⟨rfl, rfl, fun fd h => Or.inl h⟩
      · next fd1 hc =>
        refine ⟨rfl, rfl, ?_⟩
        intro fd h
        simp only [Option.some.injEq] at h
        subst h
        exact Or.inr (hconnect j _ hc)

theorem cronConnect_sameRoster (s : ClusterState) (now : Int) (connect : Nat → Option Int)
    (hconnect : ∀ j fd, connect j = some fd → fd = (j : Int)) :
    sameRoster s.nodes (cronConnect s now connect).nodes := by
  unfold cronConnect
  refine ⟨by simp, ?_⟩
  intro j x y hx hy
  simp only [List.getElem?_map, List.getElem?_enum, hx, Option.map_some', Option.some.injEq] at hy
  subst hy
  exact cronConnectNode_same now connect hconnect j x

theorem cronPrepared_sameRoster (s : ClusterState) (now : Int) (connect : Nat → Option Int)
    (hconnect : ∀ j fd, connect j = some fd → fd = (j : Int)) :
    sameRoster s.nodes (cronPrepared s now connect).nodes := by
  have h : (cronPrepared s now connect).nodes = (cronConnect s now connect).nodes := by
    unfold cronPrepared
    rw [cronApply_eq]
  rw [h]
  exact cronConnect_sameRoster s now connect hconnect

theorem cronCandidate_sameRoster (s : ClusterState) :
    sameRoster s.nodes (cronCandidate s).nodes := by
  unfold cronCandidate
  split
  · simp only
    apply sameRoster_map
    intro x
    split <;> exact ⟨rfl, rfl, rfl⟩
  · exact sameRoster_refl _

theorem cronHeartbeat_effect (now : Int) (s : ClusterState) (i : Nat) :
    sameRoster s.nodes (cronHeartbeat now s i).nodes ∧
    ∃ aes, (cronHeartbeat now s i).sent = s.sent ++ aes ∧
      ∀ f ∈ aes, ∃ e, f.2.data = ClusterMsgData.appendentries e := by
  unfold cronHeartbeat
  rcases hn : s.nodes[i]? with _ | node
  · exact ⟨sameRoster_refl _, [], by simp, by simp⟩
  · simp only
    by_cases hm : node.myself = true ∨ node.noaddr = true
    · simp only [hm, if_true]
      exact ⟨sameRoster_refl _, [], by simp, by simp⟩
    · simp only [hm, if_false]
      rcases hl : node.link with _ | fd
      · exact ⟨sameRoster_refl _, [], by simp, by simp⟩
      · simp only
        by_cases ht : now - node.last_activity_time > s.heartbeat_interval
        · simp only [ht, if_true, clusterSendAppendEntriesTo, clusterSendMessage,
            List.set_set]
          refine ⟨sameRoster_set _ _ _ _ hn rfl rfl hl.symm, _, rfl, ?_⟩
          intro f hf
          simp only [List.mem_singleton] at hf
          subst hf
          exact ⟨_, rfl⟩
        · simp only [ht, if_false]
          exact ⟨sameRoster_refl _, [], by simp, by simp⟩

theorem cronHeartbeat_foldl_effect (now : Int) (l : List Nat) (s : ClusterState) :
    sameRoster s.nodes (l.foldl (cronHeartbeat now) s).nodes ∧
    ∃ aes, (l.foldl (cronHeartbeat now) s).sent = s.sent ++ aes ∧
      ∀ f ∈ aes, ∃ e, f.2.data = ClusterMsgData.appendentries e := by
  induction l generalizing s with
  | nil => exact ⟨sameRoster_refl _, [], by simp, by simp⟩
  | cons i l ih =>
    simp only [List.foldl_cons]
    obtain ⟨r1, a1, s1, p1⟩ := cronHeartbeat_effect now s i
    obtain ⟨r2, a2, s2, p2⟩ := ih (cronHeartbeat now s i)
    refine ⟨sameRoster_trans _ _ _ r1 r2, a1 ++ a2, ?_, ?_⟩
    · rw [s2, s1, List.append_assoc]
    · intro f hf
      rcases List.mem_append.mp hf with h | h
      · exact p1 f h
      · exact p2 f h

theorem cronLeader_effect (s : ClusterState) (now : Int) :
    sameRoster s.nodes (cronLeader s now).nodes ∧
    ∃ aes, (cronLeader s now).sent = s.sent ++ aes ∧
      ∀ f ∈ aes, ∃ e, f.2.data = ClusterMsgData.appendentries e := by
  unfold cronLeader
  split
  · have h1 : (clusterUpdateCommitIndex s).nodes = s.nodes := by
      rw [clusterUpdateCommitIndex_eq]
    have h2 : (clusterUpdateCommitIndex s).sent = s.sent := by
      rw [clusterUpdateCommitIndex_eq]
    have h := cronHeartbeat_foldl_effect now (List.range s.nodes.length)
      (clusterUpdateCommitIndex s)
    rw [h1, h2] at h
    exact h
  · exact ⟨sameRoster_refl _, [], by simp, by simp⟩

theorem clusterBroadcastMessage_sent_aux (msg : ClusterMsg) (l : List (Nat × ClusterNode))
    (s : ClusterState) :
    (l.foldl
      (fun acc p =>
        match p.2.link with
        | none => acc
        | some fd => if p.2.myself then acc else clusterSendMessage acc ⟨fd, some p.1⟩ msg)
      s).sent = s.sent ++ broadcastFrames l msg := by
  induction l generalizing s with
  | nil => simp [broadcastFrames]
  | cons p l ih =>
    simp only [List.foldl_cons]
    rw [ih]
    unfold broadcastFrames
    rcases hl : p.2.link with _ | fd
    · simp [hl]
    · by_cases hm : p.2.myself = true
      · simp [hl, hm]
      · simp [hl, hm, clusterSendMessage]

theorem clusterBroadcastMessage_sent (s : ClusterState) (msg : ClusterMsg) :
    (clusterBroadcastMessage s msg).sent = s.sent ++ broadcastFrames s.nodes.enum msg :=
  clusterBroadcastMessage_sent_aux msg s.nodes.enum s

theorem countP_filterMap_le {α β : Type} (F : α → Option β) (g : β → Bool) (k : α → Bool)
    (l : List α) (h : ∀ x ∈ l, ∀ y, F x = some y → g y = true → k x = true) :
    (l.filterMap F).countP g ≤ l.countP k := by
  induction l with
  | nil => simp
  | cons a l ih =>
    have ih1 := ih (fun x hx => h x (List.mem_cons_of_mem _ hx))
    rw [List.countP_cons]
    rcases hF : F a with _ | y
    · rw [List.filterMap_cons_none hF]
      omega
    · rw [List.filterMap_cons_some hF, List.countP_cons]
      by_cases hg : g y = true
      · rw [if_pos hg, if_pos (h a (List.mem_cons_self _ _) y hF hg)]
        omega
      · rw [if_neg hg]
        omega

theorem countP_enumFrom_fst (v : Nat) (l : List ClusterNode) (k : Nat) :
    (List.enumFrom k l).countP (fun p => p.1 == v) ≤ 1 ∧
    (v < k → (List.enumFrom k l).countP (fun p => p.1 == v) = 0) := by
  induction l generalizing k with
  | nil => simp
  | cons a l ih =>
    obtain ⟨h1, h2⟩ := ih (k + 1)
    rw [List.enumFrom_cons, List.countP_cons]
    by_cases hk : k = v
    · subst hk
      have h3 := h2 (Nat.lt_succ_self _)
      simp only [beq_self_eq_true, if_true]
      constructor
      · omega
      · intro hlt
        omega
    · have hkv : ¬ ((k == v) = true) := by simpa using hk
      simp only [hkv, if_false, add_zero]
      exact ⟨h1, fun hlt => h2 (by omega)⟩

theorem broadcastFrames_roster (n i : Nat) (s : ClusterState) (msg : ClusterMsg)
    (h : Roster n i s) :
    (∀ f ∈ broadcastFrames s.nodes.enum msg, f.2 = msg ∧ f.1.fd.toNat ≠ i) ∧
    ∀ v, (broadcastFrames s.nodes.enum msg).countP (fun f => f.1.fd.toNat == v) ≤ 1 := by
  obtain ⟨_, _, _, _, h5⟩ := h
  have key : ∀ x ∈ s.nodes.enum, ∀ f,
      (match x.2.link with
        | none => none
        | some fd => if x.2.myself then none else some ((⟨fd, some x.1⟩ : ClusterLink), msg))
        = some f →
      f.2 = msg ∧ f.1.fd.toNat = x.1 ∧ x.1 ≠ i := by
    intro x hx f hf
    obtain ⟨j, node⟩ := x
    obtain ⟨hj, hnode⟩ := List.mem_enum hx
    obtain ⟨a1, a2⟩ := h5 j node (by rw [hnode]; exact List.getElem?_eq_getElem hj)
    simp only at hf
    rcases hl : node.link with _ | fd
    · rw [hl] at hf
      exact absurd hf (by simp)
    · rw [hl] at hf
      by_cases hm : node.myself = true
      · simp [hm] at hf
      · simp only [hm, Bool.false_eq_true, if_false, Option.some.injEq] at hf
        subst hf
        have hfd := a2 fd hl
        refine ⟨rfl, by simp [hfd], ?_⟩
        intro hji
        exact hm (a1.mpr hji)
  constructor
  · intro f hf
    unfold broadcastFrames at hf
    obtain ⟨x, hx, hFx⟩ := List.mem_filterMap.mp hf
    obtain ⟨k1, k2, k3⟩ := key x hx f hFx
    exact ⟨k1, by rw [k2]; exact k3⟩
  · intro v
    unfold broadcastFrames
    refine le_trans (countP_filterMap_le _ _ (fun p => p.1 == v) _ ?_)
      (countP_enumFrom_fst v s.nodes 0).1
    intro x hx f hFx hg
    obtain ⟨_, k2, _⟩ := key x hx f hFx
    simp only [beq_iff_eq] at hg ⊢
    rw [← k2]
    exact hg

theorem cronElection_effect (n i : Nat) (s : ClusterState) (now election_timeout : Int)
    (h : Roster n i s) :
    cronElection s now election_timeout = s ∨
    ((cronElection s now election_timeout).nodes = s.nodes ∧
     (cronElection s now election_timeout).name = s.name ∧
     (cronElection s now election_timeout).myself = s.myself ∧
     (cronElection s now election_timeout).current_term = s.current_term + 1 ∧
     (cronElection s now election_timeout).state = .candidate ∧
     (cronElection s now election_timeout).voted_for = s.name ∧
     (cronElection s now election_timeout).votes_granted = 1 ∧
     ∃ frames, (cronElection s now election_timeout).sent = s.sent ++ frames ∧
       (∀ f ∈ frames, f.1.fd.toNat ≠ i ∧
         ∃ rv, f.2.data = ClusterMsgData.requestvote rv ∧ rv.term = s.current_term + 1 ∧
           rv.candidateid = s.name) ∧
       ∀ v, frames.countP (fun f => f.1.fd.toNat == v) ≤ 1) := by
  by_cases hf : s.state ≠ .leader ∧ now - s.last_activity_time > election_timeout
  · right
    have hsent : (cronElection s now election_timeout).sent =
        s.sent ++ broadcastFrames s.nodes.enum
          { sender := myselfName s, port := s.port,
            data := .requestvote
              { term := s.current_term + 1, candidateid := myselfName s,
                last_log_index := logCurrentIndex s, last_log_term := logCurrentTerm s } } := by
      unfold cronElection
      rw [if_pos hf]
      unfold clusterSendRequestVote
      simp only
      rw [clusterBroadcastMessage_sent]
      rfl
    obtain ⟨b1, b2⟩ := broadcastFrames_roster n i s
      { sender := myselfName s, port := s.port,
        data := .requestvote
          { term := s.current_term + 1, candidateid := myselfName s,
            last_log_index := logCurrentIndex s, last_log_term := logCurrentTerm s } } h
    rw [cronElection_eq, if_pos hf]
    refine ⟨rfl, rfl, rfl, rfl, rfl, rfl, rfl, _, hsent, ?_, b2⟩
    intro f hfm
    obtain ⟨c1, c2⟩ := b1 f hfm
    refine ⟨c2, _, by rw [c1], rfl, ?_⟩
    exact h.2.2.1
  · left
    unfold cronElection
    rw [if_neg hf]

theorem newPackets_of_sent (i : Nat) (s s1 : ClusterState)
    (frames : List (ClusterLink × ClusterMsg)) (h : s1.sent = s.sent ++ frames) :
    newPackets i s s1 =
      frames.map (fun f => { src := i, dst := f.1.fd.toNat, msg := f.2 }) := by
  unfold newPackets
  rw [h, List.drop_left]

theorem linkNode_some (s : ClusterState) (link : ClusterLink) (i : Nat) (node : ClusterNode)
    (h : linkNode s link = some (i, node)) : s.nodes[i]? = some node := by
  unfold linkNode at h
  split at h
  · exact absurd h (by simp)
  · split at h
    · exact absurd h (by simp)
    · next j _ node1 hn =>
      simp only [Option.some.injEq, Prod.mk.injEq] at h
      obtain ⟨rfl, rfl⟩ := h
      exact hn

theorem clusterProcessResponseAppendEntries_effect (s s1 : ClusterState) (link : ClusterLink)
    (entries : ResponseAppendEntries)
    (h : clusterProcessResponseAppendEntries s link entries = some s1) :
    s1.name = s.name ∧ s1.myself = s.myself ∧ sameRoster s.nodes s1.nodes ∧
    s1.sent = s.sent ∧ s1.votes_granted = s.votes_granted ∧
    ((s.current_term < s1.current_term ∧ s1.state = .follower) ∨
     (s1.current_term = s.current_term ∧ s1.voted_for = s.voted_for ∧ s1.state = s.state)) := by
  unfold clusterProcessResponseAppendEntries at h
  split at h
  · split at h
    · exact absurd h (by simp)
    · next i node hl =>
      have hn := linkNode_some s link i node hl
      split at h
      · simp only [Option.some.injEq] at h
        subst h
        exact ⟨rfl, rfl, sameRoster_set _ _ _ _ hn rfl rfl rfl, rfl, rfl,
          Or.inr ⟨rfl, rfl, rfl⟩⟩
      · simp only [Option.some.injEq] at h
        subst h
        exact ⟨rfl, rfl, sameRoster_refl _, rfl, rfl, Or.inr ⟨rfl, rfl, rfl⟩⟩
  · split at h
    · next hgt =>
      simp only [Option.some.injEq] at h
      subst h
      exact ⟨rfl, rfl, sameRoster_refl _, rfl, rfl, Or.inl ⟨hgt, rfl⟩⟩
    · split at h
      · exact absurd h (by simp)
      · next i node hl =>
        have hn := linkNode_some s link i node hl
        simp only [Option.some.injEq] at h
        subst h
        exact ⟨rfl, rfl, sameRoster_set _ _ _ _ hn rfl rfl rfl, rfl, rfl,
          Or.inr ⟨rfl, rfl, rfl⟩⟩

/-- Delivering a packet keeps the invariant. -/
theorem deliver_safe (g : Cluster) (gh : Ghost) (h : ElectionInv g gh) (l1 l2 : List Packet)
    (p : Packet) (s s1 : ClusterState) (link : ClusterLink) (now : Int)
    (hnet : g.net = l1 ++ p :: l2) (hs : g.locals[p.dst]? = some s)
    (hlink : link.fd = (p.src : Int))
    (hstep : step s (packetEvent p link now) = some s1) :
    ∃ gh1, ElectionInv ⟨g.locals.set p.dst s1, l1 ++ l2 ++ newPackets p.dst s s1⟩ gh1 := by
  have hroster := h.roster p.dst s hs
  have hi : p.dst < g.locals.length := (List.getElem?_eq_some.mp hs).1
  have hfd : link.fd.toNat = p.src := by
    rw [hlink]
    simp
  unfold packetEvent at hstep
  rcases hd : p.msg.data with rv | r | e | e
  · -- RequestVote
    rw [hd] at hstep
    simp only [step, Option.some.injEq] at hstep
    obtain ⟨e1, e2, e3, e4, granted, m, e5, e6, e7⟩ :=
      clusterProcessRequestVote_effect s link rv now
    rw [hstep] at e1 e2 e3 e4 e5 e6 e7
    have hr1 : Roster g.locals.length p.dst s1 := hroster.nodes_eq e1 e2 e3
    rw [newPackets_of_sent p.dst s s1 _ e5]
    simp only [List.map_cons, List.map_nil, hfd]
    rcases e7 with ⟨hgt, ht, hst, hvf⟩ | ⟨hle, ht, hst, hvf⟩
    · cases granted with
      | false =>
        have hplain : ∀ q ∈ [({ src := p.dst, dst := p.src, msg := m } : Packet)],
            plainPacket q := by
          intro q hq
          simp only [List.mem_singleton] at hq
          subst hq
          refine ⟨fun rv1 hx => ?_, fun r1 hx => ?_⟩
          · rw [e6] at hx
            exact absurd hx (by simp)
          · rw [e6] at hx
            simp only [ClusterMsgData.responsevote.injEq] at hx
            rw [← hx]
        exact (h.net_remove l1 l2 _ p hnet hplain).adopt p.dst s s1 hs hr1 e2
          (by rw [ht]; exact hgt) hst
      | true =>
        obtain ⟨gh1, h1⟩ := h.adopt p.dst s
          { s with state := .follower, current_term := rv.term, leader := "", voted_for := "" }
          hs (hroster.nodes_eq rfl rfl rfl) rfl hgt rfl
        have hs1 : (g.locals.set p.dst
            { s with state := .follower, current_term := rv.term, leader := "",
                     voted_for := "" })[p.dst]? = some
            { s with state := .follower, current_term := rv.term, leader := "",
                     voted_for := "" } := by
          rw [locals_set_get g.locals p.dst p.dst s _ hs]
          simp
        obtain ⟨gh2, h2⟩ := h1.grant_vote p.dst _ s1 l1 l2 p
          { src := p.dst, dst := p.src, msg := m } rv hs1 hnet rfl hd rfl (Or.inl rfl)
          (by simp only [List.length_set]; exact hr1) e2 ht hst e4 (by simpa using hvf)
          rfl rfl (by rw [e6, ht])
        simp only [List.set_set] at h2
        exact ⟨gh2, h2⟩
    · rcases hvf with ⟨rfl, hvf⟩ | ⟨rfl, hT, hfree, hvf⟩
      · have hplain : ∀ q ∈ [({ src := p.dst, dst := p.src, msg := m } : Packet)],
            plainPacket q := by
          intro q hq
          simp only [List.mem_singleton] at hq
          subst hq
          refine ⟨fun rv1 hx => ?_, fun r1 hx => ?_⟩
          · rw [e6] at hx
            exact absurd hx (by simp)
          · rw [e6] at hx
            simp only [ClusterMsgData.responsevote.injEq] at hx
            rw [← hx]
        exact ⟨gh, (h.net_remove l1 l2 _ p hnet hplain).quiet p.dst s s1 hs hr1 e2 ht hvf e4
          (Or.inl hst)⟩
      · exact h.grant_vote p.dst s s1 l1 l2 p { src := p.dst, dst := p.src, msg := m } rv hs hnet
          rfl hd hT hfree hr1 e2 ht hst e4 hvf rfl rfl (by rw [e6, ht, hT])
  · -- RequestVoteResponse
    rw [hd] at hstep
    simp only [step, Option.some.injEq] at hstep
    have hsent : s1.sent = s.sent ++ [] := by
      rw [← hstep]
      unfold clusterProcessResponseVote
      split
      · simp
      · split <;> simp
    rw [newPackets_of_sent p.dst s s1 _ hsent]
    simp only [List.map_nil, List.append_nil]
    unfold clusterProcessResponseVote at hstep
    by_cases hc : r.vote_granted = true ∧ r.term = s.current_term
    · rw [if_pos hc] at hstep
      subst hstep
      exact h.count_vote p.dst s _ l1 l2 p r hs hnet rfl hd hc.1 hc.2
        (hroster.nodes_eq rfl rfl rfl) rfl rfl rfl rfl rfl
    · rw [if_neg hc] at hstep
      have h0 := h.net_remove l1 l2 [] p hnet (by simp)
      simp only [List.append_nil] at h0
      by_cases hgt : r.term > s.current_term
      · rw [if_pos hgt] at hstep
        subst hstep
        exact h0.adopt p.dst s _ hs (hroster.nodes_eq rfl rfl rfl) rfl hgt rfl
      · rw [if_neg hgt] at hstep
        subst hstep
        exact ⟨gh, h0.quiet p.dst s s hs hroster rfl rfl rfl rfl (Or.inl rfl)⟩
  · -- AppendEntries
    rw [hd] at hstep
    simp only [step, Option.some.injEq] at hstep
    obtain ⟨e1, e2, e3, e4, ⟨m, r, e5, e6⟩, e7⟩ := clusterProcessAppendEntries_effect s link e now
    rw [hstep] at e1 e2 e3 e4 e5 e7
    have hr1 : Roster g.locals.length p.dst s1 := hroster.nodes_eq e1 e2 e3
    rw [newPackets_of_sent p.dst s s1 _ e5]
    simp only [List.map_cons, List.map_nil, hfd]
    have hplain : ∀ q ∈ [({ src := p.dst, dst := p.src, msg := m } : Packet)],
        plainPacket q := by
      intro q hq
      simp only [List.mem_singleton] at hq
      subst hq
      refine ⟨fun rv1 hx => ?_, fun r1 hx => ?_⟩
      · rw [e6] at hx
        exact absurd hx (by simp)
      · rw [e6] at hx
        exact absurd hx (by simp)
    have h0 := h.net_remove l1 l2 _ p hnet hplain
    rcases e7 with ⟨hgt, ht, hst⟩ | ⟨ht, hvf, hst⟩
    · exact h0.adopt p.dst s s1 hs hr1 e2 (by rw [ht]; exact hgt) hst
    · exact ⟨gh, h0.quiet p.dst s s1 hs hr1 e2 ht hvf e4 hst⟩
  · -- AppendEntriesResponse
    rw [hd] at hstep
    simp only [step] at hstep
    obtain ⟨e1, e2, e3, e4, e5, e6⟩ :=
      clusterProcessResponseAppendEntries_effect s s1 link e hstep
    have hr1 : Roster g.locals.length p.dst s1 := hroster.same e3 e1 e2
    rw [newPackets_of_sent p.dst s s1 [] (by rw [e4]; simp)]
    simp only [List.map_nil, List.append_nil]
    have h0 := h.net_remove l1 l2 [] p hnet (by simp)
    simp only [List.append_nil] at h0
    rcases e6 with ⟨hgt, hst⟩ | ⟨ht, hvf, hst⟩
    · exact h0.adopt p.dst s s1 hs hr1 e1 hgt hst
    · exact ⟨gh, h0.quiet p.dst s s1 hs hr1 e1 ht hvf e5 (Or.inl hst)⟩

theorem cronElection_safe (g : Cluster) (gh : Ghost) (h : ElectionInv g gh) (i : Nat)
    (s : ClusterState) (now election_timeout : Int) (hs : g.locals[i]? = some s) :
    ∃ gh1 frames,
      ElectionInv ⟨g.locals.set i (cronElection s now election_timeout),
        g.net ++ frames.map (fun f => { src := i, dst := f.1.fd.toNat, msg := f.2 })⟩ gh1 ∧
      (cronElection s now election_timeout).sent = s.sent ++ frames := by
  have hroster := h.roster i s hs
  rcases cronElection_effect g.locals.length i s now election_timeout hroster with
    he | ⟨e1, e2, e3, e4, e5, e6, e7, frames, e8, e9, e10⟩
  · refine ⟨gh, [], ?_, by rw [he]; simp⟩
    rw [he]
    simp only [List.map_nil, List.append_nil]
    exact h.quiet i s s hs hroster rfl rfl rfl rfl (Or.inl rfl)
  · obtain ⟨gh1, h1⟩ := h.elect i s (cronElection s now election_timeout)
      (frames.map (fun f => { src := i, dst := f.1.fd.toNat, msg := f.2 })) hs
      (hroster.nodes_eq e1 e2 e3) e2 e4 e5 e6 e7
      (by
        intro q hq
        obtain ⟨f, hf, rfl⟩ := List.mem_map.mp hq
        obtain ⟨c1, rv, c2, c3, c4⟩ := e9 f hf
        exact ⟨rfl, c1, rv, c2, by rw [c3, e4], c4⟩)
      (by
        intro v
        rw [List.countP_map]
        exact e10 v)
    exact ⟨gh1, frames, h1, e8⟩

theorem cronCandidate_safe (g : Cluster) (gh : Ghost) (h : ElectionInv g gh) (i : Nat)
    (s : ClusterState) (hs : g.locals[i]? = some s) :
    ElectionInv ⟨g.locals.set i (cronCandidate s), g.net⟩ gh := by
  have hroster := h.roster i s hs
  have hr1 : Roster g.locals.length i (cronCandidate s) :=
    hroster.same (cronCandidate_sameRoster s) (by rw [cronCandidate_eq])
      (by rw [cronCandidate_eq])
  by_cases hc : s.state = .candidate ∧ s.votes_granted ≥ (quorumSize s : Int)
  · have hst : (cronCandidate s).state = .leader := by
      unfold cronCandidate
      rw [if_pos hc]
    refine h.promote i s _ hs hr1 (by rw [cronCandidate_eq]) (by rw [cronCandidate_eq])
      (by rw [cronCandidate_eq]) hc.1 hst ?_
    have hq := hc.2
    unfold quorumSize at hq
    rw [hroster.2.2.2.1] at hq
    exact hq
  · have he : cronCandidate s = s := by
      unfold cronCandidate
      rw [if_neg hc]
    rw [he]
    exact h.quiet i s s hs hroster rfl rfl rfl rfl (Or.inl rfl)

theorem cronLeader_safe (g : Cluster) (gh : Ghost) (h : ElectionInv g gh) (i : Nat)
    (s : ClusterState) (now : Int) (hs : g.locals[i]? = some s) :
    ∃ aes,
      ElectionInv ⟨g.locals.set i (cronLeader s now),
        g.net ++ aes.map (fun f => { src := i, dst := f.1.fd.toNat, msg := f.2 })⟩ gh ∧
      (cronLeader s now).sent = s.sent ++ aes := by
  have hroster := h.roster i s hs
  obtain ⟨r1, aes, a1, a2⟩ := cronLeader_effect s now
  have hr1 : Roster g.locals.length i (cronLeader s now) :=
    hroster.same r1 (by rw [cronLeader_eq]) (by rw [cronLeader_eq])
  refine ⟨aes, ?_, a1⟩
  have h0 := h.net g.net (aes.map (fun f => { src := i, dst := f.1.fd.toNat, msg := f.2 }))
    (fun _ hp => hp) (fun _ _ _ => le_refl _)
    (by
      intro q hq
      obtain ⟨f, hf, rfl⟩ := List.mem_map.mp hq
      obtain ⟨e, he⟩ := a2 f hf
      refine ⟨fun rv hx => ?_, fun r hx => ?_⟩
      · rw [he] at hx
        exact absurd hx (by simp)
      · rw [he] at hx
        exact absurd hx (by simp))
  exact h0.quiet i s _ hs hr1 (by rw [cronLeader_eq]) (by rw [cronLeader_eq])
    (by rw [cronLeader_eq]) (by rw [cronLeader_eq]) (Or.inl (by rw [cronLeader_eq]))

/-- A run of a node's cron job keeps the invariant. -/
theorem tick_safe (g : Cluster) (gh : Ghost) (h : ElectionInv g gh) (i : Nat)
    (s s1 : ClusterState) (now rnd : Int) (connect : Nat → Option Int)
    (hs : g.locals[i]? = some s) (hconnect : ∀ j fd, connect j = some fd → fd = (j : Int))
    (hstep : step s (.cron now rnd connect) = some s1) :
    ∃ gh1, ElectionInv ⟨g.locals.set i s1, g.net ++ newPackets i s s1⟩ gh1 := by
  simp only [step] at hstep
  by_cases he : s.election_timeout = 0
  · rw [clusterCron_eq_none s now rnd connect he] at hstep
    exact absurd hstep (by simp)
  · rw [clusterCron_eq_some s now rnd connect he] at hstep
    simp only [Option.some.injEq] at hstep
    have hroster := h.roster i s hs
    have hi : i < g.locals.length := (List.getElem?_eq_some.mp hs).1
    have hget : ∀ (l : List ClusterState) (a : ClusterState), i < l.length →
        (l.set i a)[i]? = some a := by
      intro l a hl
      rw [List.getElem?_set]
      simp [hl]
    -- connect and apply
    have hrp : Roster g.locals.length i (cronPrepared s now connect) :=
      hroster.same (cronPrepared_sameRoster s now connect hconnect) (by rw [cronPrepared_eq])
        (by rw [cronPrepared_eq])
    have h1 := h.quiet i s (cronPrepared s now connect) hs hrp (by rw [cronPrepared_eq])
      (by rw [cronPrepared_eq]) (by rw [cronPrepared_eq]) (by rw [cronPrepared_eq])
      (Or.inl (by rw [cronPrepared_eq]))
    have hsent1 : (cronPrepared s now connect).sent = s.sent := by rw [cronPrepared_eq]
    -- election
    obtain ⟨gh2, frames, h2, hsent2⟩ := cronElection_safe _ gh h1 i (cronPrepared s now connect)
      now (s.election_timeout + Int.tmod rnd s.election_timeout) (hget _ _ hi)
    simp only [List.set_set] at h2
    -- candidate
    have h3 := cronCandidate_safe _ gh2 h2 i _ (hget _ _ hi)
    simp only [List.set_set] at h3
    have hsent3 : (cronCandidate (cronElection (cronPrepared s now connect) now
        (s.election_timeout + Int.tmod rnd s.election_timeout))).sent =
        (cronElection (cronPrepared s now connect) now
          (s.election_timeout + Int.tmod rnd s.election_timeout)).sent := by
      rw [cronCandidate_eq]
    -- leader
    obtain ⟨aes, h4, hsent4⟩ := cronLeader_safe _ gh2 h3 i _ now (hget _ _ hi)
    simp only [List.set_set] at h4
    rw [hstep] at h4 hsent4
    have hsent : s1.sent = s.sent ++ (frames ++ aes) := by
      rw [hsent4, hsent3, hsent2, hsent1, List.append_assoc]
    rw [newPackets_of_sent i s s1 _ hsent, List.map_append, ← List.append_assoc]
    exact ⟨gh2, h4⟩

/-- Every step of the cluster keeps the invariant. -/
theorem step_safe (g g1 : Cluster) (h : ∃ gh, ElectionInv g gh) (hstep : ClusterStep g g1) :
    ∃ gh1, ElectionInv g1 gh1 := by
  obtain ⟨gh, h⟩ := h
  cases hstep with
  | deliver l1 l2 p s s1 link now hnet hs hlink hst =>
    exact deliver_safe g gh h l1 l2 p s s1 link now hnet hs hlink hst
  | tick i s s1 now rnd connect hs hconnect hst =>
    exact tick_safe g gh h i s s1 now rnd connect hs hconnect hst
  | lose l1 l2 p hnet =>
    have h0 := h.net_remove l1 l2 [] p hnet (by simp)
    simp only [List.append_nil] at h0
    exact ⟨gh, h0⟩

theorem init_safe (g : Cluster) (h : ClusterInit g) : ∃ gh, ElectionInv g gh := by
  obtain ⟨hnet, hnodes, hnames⟩ := h
  refine ⟨{ vote := fun _ _ => none, counted := fun _ _ => false }, ?_⟩
  refine ⟨fun i s hs => (hnodes i s hs).1, hnames, ?_, ?_, ?_, ?_, ?_, ?_, ?_, ?_⟩
  · intro v T c hv
    exact absurd hv (by simp)
  · intro v sv c sc _ hv
    exact absurd hv (by simp)
  · intro p hp
    rw [hnet] at hp
    exact absurd hp (by simp)
  · intro p hp
    rw [hnet] at hp
    exact absurd hp (by simp)
  · intro c v s _ _
    rw [hnet]
    simp
  · intro c v hcv
    exact absurd hcv (by simp)
  · intro c s hs hc
    rw [(hnodes c s hs).2] at hc
    exact absurd hc (by decide)
  · intro c s hs hc
    rw [(hnodes c s hs).2] at hc
    exact absurd hc (by decide)

theorem reachable_safe (g : Cluster) (h : Reachable g) : ∃ gh, ElectionInv g gh := by
  induction h with
  | init g hg => exact init_safe g hg
  | step g g1 _ hstep ih => exact step_safe g g1 ih hstep

theorem two_quorums_meet (n : Nat) (f : Nat → Option Nat) (a b : Nat) (hab : a ≠ b)
    (ha : n / 2 + 1 ≤ (List.range n).countP (fun v => f v == some a))
    (hb : n / 2 + 1 ≤ (List.range n).countP (fun v => f v == some b)) : False := by
  have hsum : (List.range n).countP (fun v => f v == some a) +
      (List.range n).countP (fun v => f v == some b) ≤ (List.range n).length := by
    generalize List.range n = l
    induction l with
    | nil => simp
    | cons x l ih =>
      rw [List.countP_cons, List.countP_cons, List.length_cons]
      by_cases h1 : (f x == some a) = true
      · have h2 : ¬ ((f x == some b) = true) := by
          simp only [beq_iff_eq] at h1 ⊢
          rw [h1]
          simp only [Option.some.injEq]
          exact hab
        rw [if_pos h1, if_neg h2]
        omega
      · rw [if_neg h1]
        by_cases h2 : (f x == some b) = true
        · rw [if_pos h2]
          omega
        · rw [if_neg h2]
          omega
  rw [List.length_range] at hsum
  omega

/-! ## At most one leader per term -/

theorem exStart_roster (i : Nat) (name : String) (hi : i < 3) (hname : name ≠ "")
    (hn : (["A", "B", "C"] : List String)[i]? = some name) :
    Roster 3 i (exStart i name) := by
  refine ⟨rfl, hname, ?_, rfl, ?_⟩
  · have h3 : i = 0 ∨ i = 1 ∨ i = 2 := by omega
    rcases h3 with rfl | rfl | rfl <;>
    · simp only [List.getElem?_cons_zero, List.getElem?_cons_succ, Option.some.injEq] at hn
      subst hn
      rfl
  · intro j node hj
    have hj3 : j < 3 := (List.getElem?_eq_some.mp hj).1
    have h3 : j = 0 ∨ j = 1 ∨ j = 2 := by omega
    rcases h3 with rfl | rfl | rfl <;>
    · simp only [exStart, List.getElem?_cons_zero, List.getElem?_cons_succ,
        Option.some.injEq] at hj
      subst hj
      refine ⟨?_, fun fd h => absurd h (by simp [exNode])⟩
      simp only [exNode, beq_iff_eq]
      omega

theorem exCluster0_init : ClusterInit exCluster0 := by
  have hloc : ∀ (i : Nat) (s : ClusterState), exCluster0.locals[i]? = some s →
      i < 3 ∧ ∃ name, (["A", "B", "C"] : List String)[i]? = some name ∧ s = exStart i name := by
    intro i s h
    have hi : i < 3 := (List.getElem?_eq_some.mp h).1
    refine ⟨hi, ?_⟩
    have h3 : i = 0 ∨ i = 1 ∨ i = 2 := by omega
    rcases h3 with rfl | rfl | rfl <;>
    · simp only [exCluster0, List.getElem?_cons_zero, List.getElem?_cons_succ,
        Option.some.injEq] at h
      exact ⟨_, rfl, h.symm⟩
  refine ⟨rfl, ?_, ?_⟩
  · intro i s h
    obtain ⟨hi, name, hn, rfl⟩ := hloc i s h
    refine ⟨exStart_roster i name hi ?_ hn, rfl⟩
    have h3 : i = 0 ∨ i = 1 ∨ i = 2 := by omega
    rcases h3 with rfl | rfl | rfl <;>
    · simp only [List.getElem?_cons_zero, List.getElem?_cons_succ, Option.some.injEq] at hn
      subst hn
      decide
  · intro i j si sj hi hj hname
    obtain ⟨hi3, ni, hni, rfl⟩ := hloc i si hi
    obtain ⟨hj3, nj, hnj, rfl⟩ := hloc j sj hj
    have hnn : ni = nj := hname
    subst hnn
    have h3 : i = 0 ∨ i = 1 ∨ i = 2 := by omega
    have h4 : j = 0 ∨ j = 1 ∨ j = 2 := by omega
    rcases h3 with rfl | rfl | rfl <;> rcases h4 with rfl | rfl | rfl <;>
      first
      | rfl
      | (simp only [List.getElem?_cons_zero, List.getElem?_cons_succ,
          Option.some.injEq] at hni hnj
         subst hni
         exact absurd hnj (by decide))

set_option maxRecDepth 100000 in
theorem exCluster4_reachable : Reachable exCluster4 := by
  have r0 : Reachable exCluster0 := .init _ exCluster0_init
  have r1 : Reachable exCluster1 :=
    .step _ _ r0 (.tick exCluster0 0 (exStart 0 "A") exA1 1000 7 (fun j => some (j : Int)) rfl
      (fun j fd h => by simp only [Option.some.injEq] at h; exact h.symm) (by decide))
  have r2 : Reachable exCluster2 :=
    .step _ _ r1 (.deliver exCluster1 [] [exRequestAC] exRequestAB (exStart 1 "B") exB2
      { fd := 0, node := none } 1001 (by decide) (by decide) rfl (by decide))
  have r3 : Reachable exCluster3 :=
    .step _ _ r2 (.deliver exCluster2 [exRequestAC] [] exGrantBA exA1 exA3
      { fd := 1, node := some 1 } 1001 (by decide) (by decide) rfl (by decide))
  exact .step _ _ r3 (.tick exCluster3 0 exA3 exA4 1002 7 (fun j => some (j : Int)) rfl
    (fun j fd h => by simp only [Option.some.injEq] at h; exact h.symm) (by decide))

/-- C3: in every state of the cluster reachable from a start in which all
nodes of the fixed roster are followers with pairwise distinct, non-empty
identities, by steps in which a node runs its cron job or handles a frame in
flight (a frame is handled at most once, frames may be lost, any
interleaving), two nodes that are both leaders with the same `current_term`
are the same node. -/
theorem at_most_one_leader_per_term (g : Cluster) (h : Reachable g) (i j : Nat)
    (si sj : ClusterState) (hi : g.locals[i]? = some si) (hj : g.locals[j]? = some sj)
    (hli : si.state = .leader) (hlj : sj.state = .leader)
    (hterm : si.current_term = sj.current_term) : i = j := by
  obtain ⟨gh, inv⟩ := reachable_safe g h
  by_contra hij
  have qi := inv.quorum i si hi hli
  have qj := inv.quorum j sj hj hlj
  rw [← hterm] at qj
  exact two_quorums_meet g.locals.length (fun v => gh.vote v si.current_term) i j hij qi qj

set_option maxRecDepth 100000 in
/-- C3 at a concrete input: the cluster `A, B, C` after `A` has timed out,
`B` has granted its vote and `A` has counted it is reachable, and `A` is its
leader of term 1. -/
theorem at_most_one_leader_per_term_witness :
    Reachable exCluster4 ∧ exCluster4.locals[0]? = some exA4 ∧ exA4.state = .leader ∧
    exA4.current_term = 1 ∧ (0 : Nat) = 0 :=
  ⟨exCluster4_reachable, rfl, by decide, by decide,
   at_most_one_leader_per_term exCluster4 exCluster4_reachable 0 0 exA4 exA4 rfl rfl
     (by decide) (by decide) rfl⟩

/-! ## Commit index, replies to AppendEntries and to RequestVote -/

/-- Claim C11: `clusterUpdateCommitIndex` sets `commit_index` to the candidate `N` (the
quorum-th largest `match_index`) exactly when `N` is above the current
`commit_index` and the entry at `N` has the current term, and leaves the state
alone otherwise; so `commit_index` never decreases, and when it changes the
entry at the new value has the current term. -/
theorem updateCommitIndex_guard (s : ClusterState) :
    (commitCandidate s > s.commit_index ∧ logGetTerm s (commitCandidate s) = s.current_term →
      clusterUpdateCommitIndex s = { s with commit_index := commitCandidate s }) ∧
    (¬ (commitCandidate s > s.commit_index ∧
        logGetTerm s (commitCandidate s) = s.current_term) →
      clusterUpdateCommitIndex s = s) ∧
    s.commit_index ≤ (clusterUpdateCommitIndex s).commit_index ∧
    ((clusterUpdateCommitIndex s).commit_index ≠ s.commit_index →
      logGetTerm s (clusterUpdateCommitIndex s).commit_index = s.current_term) := by
  unfold clusterUpdateCommitIndex
  by_cases h : commitCandidate s > s.commit_index ∧
      s.current_term = logGetTerm s (commitCandidate s)
  · rw [if_pos h]
    refine ⟨fun _ => rfl, fun hn => absurd ⟨h.1, h.2.symm⟩ hn, ?_, fun _ => h.2.symm⟩
    exact le_of_lt h.1
  · rw [if_neg h]
    refine ⟨fun hc => absurd ⟨hc.1, hc.2.symm⟩ h, fun _ => rfl, le_refl _, ?_⟩
    intro hne
    exact absurd rfl hne

/-- The guard of claim C11 at `exLeaderAll`: the candidate 1 is above the
commit index 0 and entry 1 has the current term 2, so the commit index
becomes 1. -/
theorem updateCommitIndex_guard_witness :
    commitCandidate exLeaderAll > exLeaderAll.commit_index ∧
    logGetTerm exLeaderAll (commitCandidate exLeaderAll) = exLeaderAll.current_term ∧
    clusterUpdateCommitIndex exLeaderAll = { exLeaderAll with commit_index := 1 } :=
  ⟨by decide, by decide, (updateCommitIndex_guard exLeaderAll).1 ⟨by decide, by decide⟩⟩

/-- Claim C12: on an AppendEntriesResponse with `ok` true from a link bound to roster
node `i`, the handler returns, and it sets that node's `next_index` to
`last_sent_entry.index + 1` and its `match_index` to `last_sent_entry.index`
when the node has a `last_sent_entry`, and changes nothing when it has none; the
records of all other nodes, and every field of the state other than `nodes`,
are unchanged. -/
theorem responseAppendEntries_success (s : ClusterState) (link : ClusterLink)
    (entries : ResponseAppendEntries) (i : Nat) (node : ClusterNode)
    (hok : entries.ok = true) (hl : linkNode s link = some (i, node)) :
    ∃ s1, clusterProcessResponseAppendEntries s link entries = some s1 ∧
      s1 = { s with nodes := s1.nodes } ∧
      (∀ e, node.last_sent_entry = some e →
        s1.nodes[i]? = some { node with next_index := e.index + 1, match_index := e.index }) ∧
      (node.last_sent_entry = none → s1 = s) ∧
      (∀ j, j ≠ i → s1.nodes[j]? = s.nodes[j]?) := by
  have hn := linkNode_some s link i node hl
  have hi : i < s.nodes.length := by
    rcases Nat.lt_or_ge i s.nodes.length with h | h
    · exact h
    · rw [List.getElem?_eq_none h] at hn
      exact absurd hn (by simp)
  rcases hs : node.last_sent_entry with _ | e
  · have hval : clusterProcessResponseAppendEntries s link entries = some s := by
      unfold clusterProcessResponseAppendEntries
      rw [if_pos hok, hl]
      simp only [hs]
    refine ⟨s, hval, rfl, ?_, fun _ => rfl, fun _ _ => rfl⟩
    intro e he
    exact absurd he (by simp)
  · have hval : clusterProcessResponseAppendEntries s link entries =
        some { s with
          nodes := s.nodes.set i
            { node with next_index := e.index + 1, match_index := e.index } } := by
      unfold clusterProcessResponseAppendEntries
      rw [if_pos hok, hl]
      simp only [hs]
    refine ⟨_, hval, rfl, ?_, ?_, ?_⟩
    · intro e1 he1
      simp only [Option.some.injEq] at he1
      subst he1
      simp [List.getElem?_set, hi, hs]
    · intro hnone
      exact absurd hnone (by simp)
    · intro j hj
      simp only [List.getElem?_set]
      rw [if_neg (fun h => hj h.symm)]

/-- The hypotheses of claim C12 at `exLeaderSent`, whose node `"C"` has entry 1
as `last_sent_entry`: the reply moves its cursors to 2 and 1. -/
theorem responseAppendEntries_success_witness :
    ∃ s1, clusterProcessResponseAppendEntries exLeaderSent exLinkC
        { term := 2, index := 1, commit_index := 0, ok := true } = some s1 ∧
      (s1.nodes[2]?).map (fun n => (n.next_index, n.match_index)) = some (2, 1) := by
  obtain ⟨s1, h1, _, h2, _, _⟩ :=
    responseAppendEntries_success exLeaderSent exLinkC
      { term := 2, index := 1, commit_index := 0, ok := true } 2
      { exNode "C" false with
        link := some 5, next_index := 1, match_index := 0,
        last_sent_entry :=
          some { index := 1, term := 2, commandName := "SET", command := "SET x 1" } }
      rfl rfl
  refine ⟨s1, h1, ?_⟩
  rw [h2 _ rfl]
  rfl

/-- Claim C13, the code at the failing input: the leader `exLeader` holds
`next_index = 1` for `"C"`; an AppendEntriesResponse with `ok` false and the
leader's own term leaves `match_index`, `current_term` and the role alone
but sets that `next_index` to 0, where `max(1, next_index - 1)` is 1. -/
theorem responseAppendEntries_next_index_below_one :
    ∃ s1, clusterProcessResponseAppendEntries exLeader exLinkC
        { term := 2, index := 0, commit_index := 0, ok := false } = some s1 ∧
      (exLeader.nodes[2]?).map (fun n => n.next_index) = some 1 ∧
      (s1.nodes[2]?).map (fun n => n.next_index) = some 0 ∧
      max (1 : Int) (1 - 1) = 1 ∧
      (s1.nodes[2]?).map (fun n => n.match_index) =
        (exLeader.nodes[2]?).map (fun n => n.match_index) ∧
      s1.current_term = exLeader.current_term ∧ s1.state = exLeader.state :=
  ⟨_, rfl, by decide, by decide, by decide, by decide, by decide, by decide⟩

/-- Claim C14: on a RequestVoteResponse, when the vote is granted and its term is
the current term the handler adds one to `votes_granted` and changes nothing
else; otherwise, when its term is above the current term, the handler sets
the role to Follower, `current_term` to that term, and clears `leader` and
`voted_for`, changing nothing else (`votes_granted` included); otherwise the
state is unchanged. -/
theorem responseVote_cases (s : ClusterState) (link : ClusterLink) (vote : ResponseVote) :
    (vote.vote_granted = true ∧ vote.term = s.current_term →
      clusterProcessResponseVote s link vote =
        { s with votes_granted := s.votes_granted + 1 }) ∧
    (¬ (vote.vote_granted = true ∧ vote.term = s.current_term) →
      vote.term > s.current_term →
      clusterProcessResponseVote s link vote =
        { s with state := .follower, current_term := vote.term, leader := "",
                 voted_for := "" }) ∧
    (¬ (vote.vote_granted = true ∧ vote.term = s.current_term) →
      ¬ vote.term > s.current_term →
      clusterProcessResponseVote s link vote = s) := by
  unfold clusterProcessResponseVote
  refine ⟨fun h => ?_, fun h1 h2 => ?_, fun h1 h2 => ?_⟩
  · rw [if_pos h]
  · rw [if_neg h1, if_pos h2]
  · rw [if_neg h1, if_neg h2]

/-- The three cases of claim C14 at the candidate `exA1` of term 1: a granted
vote of term 1 is counted, a reply of term 5 makes it a follower of term 5,
and a refusal of term 1 changes nothing. -/
theorem responseVote_cases_witness :
    (clusterProcessResponseVote exA1 exLink { term := 1, vote_granted := true }).votes_granted
      = exA1.votes_granted + 1 ∧
    (clusterProcessResponseVote exA1 exLink { term := 5, vote_granted := true }).state
      = .follower ∧
    clusterProcessResponseVote exA1 exLink { term := 1, vote_granted := false } = exA1 := by
  refine ⟨?_, ?_, ?_⟩
  · rw [(responseVote_cases exA1 exLink { term := 1, vote_granted := true }).1
      ⟨rfl, by decide⟩]
  · rw [(responseVote_cases exA1 exLink { term := 5, vote_granted := true }).2.1
      (by decide) (by decide)]
  · exact (responseVote_cases exA1 exLink { term := 1, vote_granted := false }).2.2
      (by decide) (by decide)

/-! ## The apply loop of the tick -/

theorem cronApplyLoop_spec (fuel : Nat) (s : ClusterState)
    (hle : s.last_applied ≤ s.commit_index)
    (hf : (s.commit_index - s.last_applied).toNat ≤ fuel) :
    (cronApplyLoop fuel s).applied =
      s.applied ++ (List.range (s.commit_index - s.last_applied).toNat).map
        (fun (k : Nat) => s.last_applied + 1 + (k : Int)) ∧
    (cronApplyLoop fuel s).last_applied = s.commit_index ∧
    (cronApplyLoop fuel s).commit_index = s.commit_index := by
  induction fuel generalizing s with
  | zero =>
    have h0 : (s.commit_index - s.last_applied).toNat = 0 := by omega
    have he : s.last_applied = s.commit_index := by omega
    unfold cronApplyLoop
    rw [h0]
    simp [he]
  | succ n ih =>
    unfold cronApplyLoop
    by_cases h : s.commit_index > s.last_applied
    · rw [if_pos h]
      have hs := ih (logApply { s with last_applied := s.last_applied + 1 } (s.last_applied + 1))
        (by simp only [logApply]; omega) (by simp only [logApply]; omega)
      simp only [logApply] at hs
      obtain ⟨m, hm⟩ : ∃ m, (s.commit_index - s.last_applied).toNat = m + 1 :=
        ⟨(s.commit_index - s.last_applied).toNat - 1, by omega⟩
      have hm1 : (s.commit_index - (s.last_applied + 1)).toNat = m := by omega
      rw [hm1] at hs
      rw [hm]
      refine ⟨?_, hs.2.1, hs.2.2⟩
      simp only [logApply]
      rw [hs.1, List.range_succ_eq_map, List.append_assoc]
      congr 1
      simp only [List.map_cons, List.map_map, List.singleton_append, Nat.cast_zero, add_zero,
        List.cons.injEq, true_and]
      apply List.map_congr_left
      intro k _
      simp only [Function.comp_apply, Nat.cast_succ]
      omega
    · rw [if_neg h]
      have h0 : (s.commit_index - s.last_applied).toNat = 0 := by omega
      have he : s.last_applied = s.commit_index := by omega
      rw [h0]
      simp [he]

theorem cronApplyLoop_stable (fuel : Nat) (s : ClusterState)
    (hf : (s.commit_index - s.last_applied).toNat ≤ fuel) :
    cronApplyLoop fuel s = cronApply s := by
  unfold cronApply
  induction fuel generalizing s with
  | zero =>
    have h0 : (s.commit_index - s.last_applied).toNat = 0 := by omega
    rw [h0]
  | succ n ih =>
    by_cases h : s.commit_index > s.last_applied
    · obtain ⟨m, hm⟩ : ∃ m, (s.commit_index - s.last_applied).toNat = m + 1 :=
        ⟨(s.commit_index - s.last_applied).toNat - 1, by omega⟩
      have hm1 : (s.commit_index - (s.last_applied + 1)).toNat = m := by omega
      rw [hm]
      unfold cronApplyLoop
      rw [if_pos h, if_pos h]
      have hs := ih (logApply { s with last_applied := s.last_applied + 1 } (s.last_applied + 1))
        (by simp only [logApply]; omega)
      simp only [logApply] at hs
      rw [hm1] at hs
      simp only [logApply]
      exact hs
    · have h0 : (s.commit_index - s.last_applied).toNat = 0 := by omega
      rw [h0]
      unfold cronApplyLoop
      rw [if_neg h]

/-- Claim C19: for a state with `last_applied ≤ commit_index`, the apply loop of the
tick (run after the connection loop, which touches none of these fields)
calls the applicator on `last_applied + 1, …, commit_index` in ascending
order, once each, and on nothing else; it ends with
`last_applied = commit_index`, its loop condition false; with
`commit_index = last_applied` it changes nothing; and it terminates: any
number of iterations allowed from `commit_index - last_applied` on gives the
same final state. -/
theorem cron_apply_loop (s : ClusterState) (now : Int) (connect : Nat → Option Int)
    (h : s.last_applied ≤ s.commit_index) :
    (cronPrepared s now connect).applied =
      s.applied ++ (List.range (s.commit_index - s.last_applied).toNat).map
        (fun (k : Nat) => s.last_applied + 1 + (k : Int)) ∧
    (cronPrepared s now connect).last_applied = s.commit_index ∧
    (cronPrepared s now connect).commit_index = s.commit_index ∧
    ¬ ((cronPrepared s now connect).commit_index > (cronPrepared s now connect).last_applied) ∧
    (s.commit_index = s.last_applied →
      cronPrepared s now connect = cronConnect s now connect) ∧
    (∀ fuel, (s.commit_index - s.last_applied).toNat ≤ fuel →
      cronApplyLoop fuel (cronConnect s now connect) = cronPrepared s now connect) := by
  have hs := cronApplyLoop_spec (s.commit_index - s.last_applied).toNat
    (cronConnect s now connect) h (le_refl _)
  have hp : cronPrepared s now connect =
      cronApplyLoop (s.commit_index - s.last_applied).toNat (cronConnect s now connect) := rfl
  rw [← hp] at hs
  refine ⟨hs.1, hs.2.1, hs.2.2, ?_, ?_, ?_⟩
  · rw [hs.2.1, hs.2.2]
    exact lt_irrefl _
  · intro he
    rw [hp, he]
    simp [cronApplyLoop]
  · intro fuel hf
    exact cronApplyLoop_stable fuel (cronConnect s now connect) hf

/-- The hypothesis of claim C19 at `exToApply`, with `last_applied = 1` and
`commit_index = 4`: the tick applies 2, 3 and 4. -/
theorem cron_apply_loop_witness :
    exToApply.last_applied ≤ exToApply.commit_index ∧
    (cronPrepared exToApply 0 (fun _ => none)).applied = [2, 3, 4] ∧
    (cronPrepared exToApply 0 (fun _ => none)).last_applied = 4 :=
  ⟨by decide, (cron_apply_loop exToApply 0 (fun _ => none) (by decide)).1.trans (by decide),
    (cron_apply_loop exToApply 0 (fun _ => none) (by decide)).2.1⟩

/-! ## Client commands -/

theorem logLastIndex_concat (log : List LogEntry) (e : LogEntry) :
    logLastIndex (log ++ [e]) = e.index := by
  simp [logLastIndex, List.getLast?_concat]

theorem logLastTerm_concat (log : List LogEntry) (e : LogEntry) :
    logLastTerm (log ++ [e]) = e.term := by
  simp [logLastTerm, List.getLast?_concat]

/-- What `clusterProcessCommand` does, in any role: one entry is appended; with
a roster of size 1 the commit index is raised to the new last index when it is
below it; otherwise the client is recorded under the index of the entry. -/
theorem clusterProcessCommand_effect (s : ClusterState) (c : PrezClient) :
    (s.nodes.length = 1 →
      clusterProcessCommand s c =
        { s with log_entries := s.log_entries ++ [commandEntry s c],
                 commit_index := max s.commit_index (logCurrentIndex s + 1) }) ∧
    (s.nodes.length ≠ 1 →
      clusterProcessCommand s c =
        { s with log_entries := s.log_entries ++ [commandEntry s c],
                 proc_clients := s.proc_clients ++ [(logCurrentIndex s + 1, c.id)] }) := by
  refine ⟨fun h1 => ?_, fun h1 => ?_⟩
  · have hl : (logWriteEntry s (commandEntry s c)).nodes.length = 1 := h1
    unfold clusterProcessCommand
    simp only
    rw [if_pos hl]
    have hc : logCurrentIndex (logWriteEntry s (commandEntry s c)) = logCurrentIndex s + 1 := by
      simp only [logCurrentIndex, logWriteEntry, logLastIndex_concat, commandEntry]
    unfold logCommitIndex
    rw [hc, min_self]
    by_cases hgt : logCurrentIndex s + 1 > (logWriteEntry s (commandEntry s c)).commit_index
    · rw [if_pos hgt]
      have hgt1 : s.commit_index < logCurrentIndex s + 1 := hgt
      simp only [logWriteEntry, max_eq_right (le_of_lt hgt1)]
    · rw [if_neg hgt]
      have hgt1 : ¬ s.commit_index < logCurrentIndex s + 1 := hgt
      simp only [logWriteEntry, max_eq_left (not_lt.mp hgt1)]
  · have hl : ¬ (logWriteEntry s (commandEntry s c)).nodes.length = 1 := h1
    unfold clusterProcessCommand
    simp only
    rw [if_neg hl]
    rfl

/-- Claim C17, counterexample: `exState` is a follower with an empty log, and
`clusterProcessCommand` on it appends entry 1 and records the client in the
pending table: the log and the pending table are not left unchanged. -/
theorem command_accepted_by_follower :
    exState.state ≠ .leader ∧
    (clusterProcessCommand exState exClient).log_entries =
      [{ index := 1, term := 0, commandName := "SET", command := "SET x 1\n" }] ∧
    (clusterProcessCommand exState exClient).log_entries ≠ exState.log_entries ∧
    (clusterProcessCommand exState exClient).proc_clients = [(1, 11)] ∧
    (clusterProcessCommand exState exClient).proc_clients ≠ exState.proc_clients :=
  ⟨by decide, by decide, by decide, by decide, by decide⟩

/-- Claim C17, amended: for a state with role other than Leader
`clusterProcessCommand` does not reject the command; it does what it does for
a leader (the role is not read): it appends one entry with index
`log.current_index + 1` and term `current_term`; with a roster of size 1 it
raises `commit_index` to the new `log.current_index` when it is below it and
leaves the pending table alone; otherwise it records the client under the
index of the entry and leaves `commit_index` alone.  The role itself is
unchanged. -/
theorem command_ignores_role (s : ClusterState) (c : PrezClient)
    (_hs : s.state ≠ .leader) :
    clusterProcessCommand s c =
      { clusterProcessCommand { s with state := .leader } c with state := s.state } ∧
    (clusterProcessCommand s c).log_entries =
      s.log_entries ++ [{ index := logCurrentIndex s + 1, term := s.current_term,
                          commandName := c.cmdName,
                          command := String.intercalate " " c.argv ++ "\n" }] ∧
    (clusterProcessCommand s c).state = s.state ∧
    (s.nodes.length = 1 →
      (clusterProcessCommand s c).commit_index = max s.commit_index (logCurrentIndex s + 1) ∧
      (clusterProcessCommand s c).proc_clients = s.proc_clients) ∧
    (s.nodes.length ≠ 1 →
      (clusterProcessCommand s c).commit_index = s.commit_index ∧
      (clusterProcessCommand s c).proc_clients =
        s.proc_clients ++ [(logCurrentIndex s + 1, c.id)]) := by
  by_cases h1 : s.nodes.length = 1
  · have hl : ({ s with state := Role.leader } : ClusterState).nodes.length = 1 := h1
    rw [(clusterProcessCommand_effect s c).1 h1, (clusterProcessCommand_effect _ c).1 hl]
    exact ⟨rfl, rfl, rfl, fun _ => ⟨rfl, rfl⟩, fun h => absurd h1 h⟩
  · have hl : ({ s with state := Role.leader } : ClusterState).nodes.length ≠ 1 := h1
    rw [(clusterProcessCommand_effect s c).2 h1, (clusterProcessCommand_effect _ c).2 hl]
    exact ⟨rfl, rfl, rfl, fun h => absurd h h1, fun _ => ⟨rfl, rfl⟩⟩

/-- The hypothesis of the amended claim C17 at the follower `exState`: the
command is appended as entry 1. -/
theorem command_ignores_role_witness :
    exState.state ≠ .leader ∧
    (clusterProcessCommand exState exClient).log_entries =
      exState.log_entries ++ [{ index := logCurrentIndex exState + 1,
                                term := exState.current_term, commandName := "SET",
                                command := "SET x 1\n" }] :=
  ⟨by decide, (command_ignores_role exState exClient (by decide)).2.1⟩

/-- Claim C18: for a leader state (with `commit_index ≤ log.current_index`) and a
client command, `clusterProcessCommand` appends exactly one entry, with index
the previous `log.current_index + 1` and term `current_term`; then with a
roster of size 1 `commit_index` becomes the new `log.current_index` and the
pending table is unchanged, and otherwise the client is stored in the pending
table under the index of the entry and `commit_index` is unchanged. -/
theorem command_of_leader (s : ClusterState) (c : PrezClient)
    (_hs : s.state = .leader) (hinv : s.commit_index ≤ logCurrentIndex s) :
    (∃ e, (clusterProcessCommand s c).log_entries = s.log_entries ++ [e] ∧
      e.index = logCurrentIndex s + 1 ∧ e.term = s.current_term ∧
      e.commandName = c.cmdName) ∧
    logCurrentIndex (clusterProcessCommand s c) = logCurrentIndex s + 1 ∧
    (s.nodes.length = 1 →
      (clusterProcessCommand s c).commit_index = logCurrentIndex (clusterProcessCommand s c) ∧
      (clusterProcessCommand s c).proc_clients = s.proc_clients) ∧
    (s.nodes.length ≠ 1 →
      (clusterProcessCommand s c).proc_clients =
        s.proc_clients ++ [(logCurrentIndex s + 1, c.id)] ∧
      (clusterProcessCommand s c).commit_index = s.commit_index) := by
  by_cases h1 : s.nodes.length = 1
  · rw [(clusterProcessCommand_effect s c).1 h1]
    refine ⟨⟨commandEntry s c, rfl, rfl, rfl, rfl⟩, ?_, fun _ => ⟨?_, rfl⟩, fun h => absurd h1 h⟩
    · simp only [logCurrentIndex, logLastIndex_concat, commandEntry]
    · simp only [logCurrentIndex, logLastIndex_concat, commandEntry]
      have h2 : s.commit_index ≤ logLastIndex s.log_entries := hinv
      exact max_eq_right (by omega)
  · rw [(clusterProcessCommand_effect s c).2 h1]
    refine ⟨⟨commandEntry s c, rfl, rfl, rfl, rfl⟩, ?_, fun h => absurd h h1, fun _ => ⟨rfl, rfl⟩⟩
    simp only [logCurrentIndex, logLastIndex_concat, commandEntry]

/-- The hypotheses of claim C18 at the leader `exLeader`, whose log ends at
index 1 and whose roster has three nodes: the command becomes entry 2 and the
client is recorded under 2. -/
theorem command_of_leader_witness :
    exLeader.state = .leader ∧ exLeader.commit_index ≤ logCurrentIndex exLeader ∧
    logCurrentIndex (clusterProcessCommand exLeader exClient) = 2 ∧
    (clusterProcessCommand exLeader exClient).proc_clients = [(2, 11)] :=
  ⟨by decide, by decide,
    (command_of_leader exLeader exClient (by decide) (by decide)).2.1.trans (by decide),
    by decide⟩

/-! ## The election step of the tick -/

theorem cronPrepared_nodes_length (s : ClusterState) (now : Int) (connect : Nat → Option Int) :
    (cronPrepared s now connect).nodes.length = s.nodes.length := by
  have h : (cronPrepared s now connect).nodes = (cronConnect s now connect).nodes := by
    unfold cronPrepared
    rw [cronApply_eq]
  rw [h]
  simp [cronConnect]

/-- The election step when it fires: the state it leaves. -/
theorem cronElection_fires (s : ClusterState) (now election_timeout : Int)
    (h : s.state ≠ .leader ∧ now - s.last_activity_time > election_timeout) :
    cronElection s now election_timeout =
      { s with last_activity_time := now, state := .candidate, leader := "",
               voted_for := s.name, votes_granted := 1,
               current_term := s.current_term + 1,
               sent := s.sent ++ broadcastFrames s.nodes.enum
                 { sender := myselfName s, port := s.port,
                   data := .requestvote
                     { term := s.current_term + 1, candidateid := myselfName s,
                       last_log_index := logCurrentIndex s,
                       last_log_term := logCurrentTerm s } },
               stats_bus_messages_sent :=
                 (cronElection s now election_timeout).stats_bus_messages_sent } := by
  have hs : (cronElection s now election_timeout).sent =
      s.sent ++ broadcastFrames s.nodes.enum
        { sender := myselfName s, port := s.port,
          data := .requestvote
            { term := s.current_term + 1, candidateid := myselfName s,
              last_log_index := logCurrentIndex s,
              last_log_term := logCurrentTerm s } } := by
    unfold cronElection
    rw [if_pos h]
    unfold clusterSendRequestVote
    simp only
    rw [clusterBroadcastMessage_sent]
    rfl
  have he := cronElection_eq s now election_timeout
  rw [if_pos h] at he
  rw [hs] at he
  exact he

/-- Claim C15: in a roster with `quorumSize > 1`, a tick (which fails only where
`election_timeout` is 0) starts an election exactly when the role is not
Leader and `now - last_activity_time` is above the randomized timeout
`election_timeout + random() % election_timeout`.  When it does, afterwards
`current_term` is the old value plus 1, the role is Candidate,
`voted_for` is this node, `votes_granted` is 1, `leader` is empty,
`last_activity_time` is `now`, and the frames queued are the broadcast of one
RequestVote with the new term and the log's current index and term.  When it
does not, `current_term`, `voted_for` and `votes_granted` are unchanged and
no RequestVote is queued. -/
theorem cron_election (s : ClusterState) (now rnd : Int) (connect : Nat → Option Int)
    (hq : quorumSize s > 1) :
    match clusterCron s now rnd connect with
    | none => s.election_timeout = 0
    | some s1 =>
      (s.state ≠ .leader ∧
        now - s.last_activity_time > s.election_timeout + Int.tmod rnd s.election_timeout →
        s1.current_term = s.current_term + 1 ∧ s1.state = .candidate ∧
        s1.voted_for = s.name ∧ s1.votes_granted = 1 ∧ s1.leader = "" ∧
        s1.last_activity_time = now ∧
        s1.sent = s.sent ++ broadcastFrames (cronPrepared s now connect).nodes.enum
          { sender := myselfName (cronPrepared s now connect), port := s.port,
            data := .requestvote
              { term := s1.current_term,
                candidateid := myselfName (cronPrepared s now connect),
                last_log_index := logCurrentIndex s,
                last_log_term := logCurrentTerm s } }) ∧
      (¬ (s.state ≠ .leader ∧
          now - s.last_activity_time > s.election_timeout + Int.tmod rnd s.election_timeout) →
        s1.current_term = s.current_term ∧ s1.voted_for = s.voted_for ∧
        s1.votes_granted = s.votes_granted ∧
        ∃ aes, s1.sent = s.sent ++ aes ∧
          ∀ f ∈ aes, ∃ e, f.2.data = ClusterMsgData.appendentries e) := by
  by_cases he : s.election_timeout = 0
  · rw [clusterCron_eq_none s now rnd connect he]
    exact he
  · rw [clusterCron_eq_some s now rnd connect he]
    have hsp := cronPrepared_eq s now connect
    have hst : (cronPrepared s now connect).state = s.state := by rw [hsp]
    have hla : (cronPrepared s now connect).last_activity_time = s.last_activity_time := by
      rw [hsp]
    have hct : (cronPrepared s now connect).current_term = s.current_term := by rw [hsp]
    have hvf : (cronPrepared s now connect).voted_for = s.voted_for := by rw [hsp]
    have hvg : (cronPrepared s now connect).votes_granted = s.votes_granted := by rw [hsp]
    have hnm : (cronPrepared s now connect).name = s.name := by rw [hsp]
    have hpt : (cronPrepared s now connect).port = s.port := by rw [hsp]
    have hsn : (cronPrepared s now connect).sent = s.sent := by rw [hsp]
    have hli : logCurrentIndex (cronPrepared s now connect) = logCurrentIndex s := by
      unfold logCurrentIndex
      rw [hsp]
    have hlt : logCurrentTerm (cronPrepared s now connect) = logCurrentTerm s := by
      unfold logCurrentTerm
      rw [hsp]
    have hlen := cronPrepared_nodes_length s now connect
    refine ⟨fun hf => ?_, fun hf => ?_⟩
    · have hf1 : (cronPrepared s now connect).state ≠ .leader ∧
          now - (cronPrepared s now connect).last_activity_time >
            s.election_timeout + Int.tmod rnd s.election_timeout := by
        rw [hst, hla]
        exact hf
      have hel := cronElection_fires (cronPrepared s now connect) now _ hf1
      generalize cronElection (cronPrepared s now connect) now
        (s.election_timeout + Int.tmod rnd s.election_timeout) = se at hel
      have hq1 : ¬ (se.state = .candidate ∧ se.votes_granted ≥ (quorumSize se : Int)) := by
        have h1 : se.votes_granted = 1 := by rw [hel]
        have h2 : se.nodes = (cronPrepared s now connect).nodes := by rw [hel]
        have h3 : quorumSize se = quorumSize s := by
          unfold quorumSize
          rw [h2, hlen]
        rw [h1, h3]
        intro hc
        have := hc.2
        omega
      have hcand : cronCandidate se = se := by
        unfold cronCandidate
        rw [if_neg hq1]
      have hnl : ¬ se.state = .leader := by
        rw [hel]
        simp
      have hlead : cronLeader se now = se := by
        unfold cronLeader
        rw [if_neg hnl]
      rw [hcand, hlead, hel]
      simp only [hct, hnm, hpt, hsn, hli, hlt]
      exact ⟨trivial, trivial, trivial, trivial, trivial, trivial, trivial⟩
    · have hf1 : ¬ ((cronPrepared s now connect).state ≠ .leader ∧
          now - (cronPrepared s now connect).last_activity_time >
            s.election_timeout + Int.tmod rnd s.election_timeout) := by
        rw [hst, hla]
        exact hf
      have hel : cronElection (cronPrepared s now connect) now
          (s.election_timeout + Int.tmod rnd s.election_timeout) =
            cronPrepared s now connect := by
        unfold cronElection
        rw [if_neg hf1]
      rw [hel]
      have hc := cronCandidate_eq (cronPrepared s now connect)
      have hcs : (cronCandidate (cronPrepared s now connect)).sent = s.sent := by
        rw [hc]
        exact hsn
      obtain ⟨_, aes, hs1, hs2⟩ := cronLeader_effect (cronCandidate (cronPrepared s now connect)) now
      rw [hcs] at hs1
      refine ⟨?_, ?_, ?_, aes, hs1, hs2⟩
      · rw [cronLeader_eq, hc]
        exact hct
      · rw [cronLeader_eq, hc]
        exact hvf
      · rw [cronLeader_eq, hc]
        exact hvg

set_option maxRecDepth 100000 in
/-- The hypothesis of claim C15 at node `A` of the roster `A, B, C` (quorum 2):
at time 1000 its tick starts the election of term 1. -/
theorem cron_election_witness :
    quorumSize (exStart 0 "A") > 1 ∧
    clusterCron (exStart 0 "A") 1000 7 (fun j => some (j : Int)) = some exA1 ∧
    exA1.current_term = (exStart 0 "A").current_term + 1 ∧ exA1.state = .candidate ∧
    exA1.voted_for = "A" ∧ exA1.votes_granted = 1 := by
  have hc : clusterCron (exStart 0 "A") 1000 7 (fun j => some (j : Int)) = some exA1 := rfl
  have h := cron_election (exStart 0 "A") 1000 7 (fun j => some (j : Int)) (by decide)
  rw [hc] at h
  have h1 := h.1 ⟨by decide, by decide⟩
  exact ⟨by decide, hc, h1.1, h1.2.1, h1.2.2.1, h1.2.2.2.1⟩

/-! ## The candidate step of the tick -/

theorem cronHeartbeat_cursors (now : Int) (s : ClusterState) (i : Nat) (j : Nat)
    (n1 : ClusterNode) (h : (cronHeartbeat now s i).nodes[j]? = some n1) :
    ∃ n0, s.nodes[j]? = some n0 ∧ n1.myself = n0.myself ∧ n1.noaddr = n0.noaddr ∧
      n1.next_index = n0.next_index ∧ n1.match_index = n0.match_index := by
  unfold cronHeartbeat at h
  rcases hn : s.nodes[i]? with _ | node
  · rw [hn] at h
    exact ⟨n1, h, rfl, rfl, rfl, rfl⟩
  · rw [hn] at h
    simp only at h
    by_cases hm : node.myself = true ∨ node.noaddr = true
    · rw [if_pos hm] at h
      exact ⟨n1, h, rfl, rfl, rfl, rfl⟩
    · rw [if_neg hm] at h
      rcases hl : node.link with _ | fd
      · rw [hl] at h
        exact ⟨n1, h, rfl, rfl, rfl, rfl⟩
      · rw [hl] at h
        simp only at h
        by_cases ht : now - node.last_activity_time > s.heartbeat_interval
        · rw [if_pos ht] at h
          simp only [clusterSendAppendEntriesTo, clusterSendMessage, List.set_set,
            List.getElem?_set] at h
          by_cases hij : i = j
          · subst hij
            have hi : i < s.nodes.length := by
              rcases Nat.lt_or_ge i s.nodes.length with h2 | h2
              · exact h2
              · rw [List.getElem?_eq_none h2] at hn
                exact absurd hn (by simp)
            simp only [if_true, hi, Option.some.injEq] at h
            subst h
            exact ⟨node, hn, rfl, rfl, rfl, rfl⟩
          · rw [if_neg hij] at h
            exact ⟨n1, h, rfl, rfl, rfl, rfl⟩
        · rw [if_neg ht] at h
          exact ⟨n1, h, rfl, rfl, rfl, rfl⟩

theorem cronHeartbeat_foldl_cursors (now : Int) (l : List Nat) (s : ClusterState) (j : Nat)
    (n1 : ClusterNode) (h : (l.foldl (cronHeartbeat now) s).nodes[j]? = some n1) :
    ∃ n0, s.nodes[j]? = some n0 ∧ n1.myself = n0.myself ∧ n1.noaddr = n0.noaddr ∧
      n1.next_index = n0.next_index ∧ n1.match_index = n0.match_index := by
  induction l generalizing s with
  | nil => exact ⟨n1, h, rfl, rfl, rfl, rfl⟩
  | cons i l ih =>
    simp only [List.foldl_cons] at h
    obtain ⟨n2, h2, a2, b2, c2, d2⟩ := ih (cronHeartbeat now s i) h
    obtain ⟨n0, h0, a0, b0, c0, d0⟩ := cronHeartbeat_cursors now s i j n2 h2
    exact ⟨n0, h0, a2.trans a0, b2.trans b0, c2.trans c0, d2.trans d0⟩

theorem cronLeader_cursors (s : ClusterState) (now : Int) (j : Nat)
    (n1 : ClusterNode) (h : (cronLeader s now).nodes[j]? = some n1) :
    ∃ n0, s.nodes[j]? = some n0 ∧ n1.myself = n0.myself ∧ n1.noaddr = n0.noaddr ∧
      n1.next_index = n0.next_index ∧ n1.match_index = n0.match_index := by
  unfold cronLeader at h
  by_cases hs : s.state = .leader
  · rw [if_pos hs] at h
    have h1 : (clusterUpdateCommitIndex s).nodes = s.nodes := by
      rw [clusterUpdateCommitIndex_eq]
    have h2 := cronHeartbeat_foldl_cursors now _ _ j n1 h
    rw [h1] at h2
    exact h2
  · rw [if_neg hs] at h
    exact ⟨n1, h, rfl, rfl, rfl, rfl⟩

theorem cronElected_frame (s : ClusterState) (now rnd : Int) (connect : Nat → Option Int) :
    (cronElected s now rnd connect).name = s.name ∧
    (cronElected s now rnd connect).log_entries = s.log_entries ∧
    (cronElected s now rnd connect).nodes.length = s.nodes.length ∧
    ((cronElected s now rnd connect).state = .leader ↔ s.state = .leader) := by
  have hsp := cronPrepared_eq s now connect
  have hst : (cronPrepared s now connect).state = s.state := by rw [hsp]
  have hnm : (cronPrepared s now connect).name = s.name := by rw [hsp]
  have hlg : (cronPrepared s now connect).log_entries = s.log_entries := by rw [hsp]
  have hlen := cronPrepared_nodes_length s now connect
  unfold cronElected
  rw [cronElection_eq]
  by_cases hf : (cronPrepared s now connect).state ≠ .leader ∧
      now - (cronPrepared s now connect).last_activity_time >
        s.election_timeout + Int.tmod rnd s.election_timeout
  · rw [if_pos hf]
    refine ⟨hnm, hlg, hlen, ?_⟩
    have h1 : s.state ≠ .leader := by
      rw [← hst]
      exact hf.1
    simp [h1]
  · rw [if_neg hf]
    exact ⟨hnm, hlg, hlen, by rw [hst]⟩

/-- The candidate step when it fires: the role, the leader and the cursors it
leaves. -/
theorem cronCandidate_fires (s : ClusterState)
    (h : s.state = .candidate ∧ s.votes_granted ≥ (quorumSize s : Int)) :
    (cronCandidate s).state = .leader ∧ (cronCandidate s).leader = s.name ∧
    (cronCandidate s).current_term = s.current_term ∧
    ∀ (j : Nat) (n1 : ClusterNode), (cronCandidate s).nodes[j]? = some n1 →
      ∃ n0, s.nodes[j]? = some n0 ∧ n1.myself = n0.myself ∧ n1.noaddr = n0.noaddr ∧
        (n0.myself = false → n0.noaddr = false →
          n1.next_index = logCurrentIndex s + 1 ∧ n1.match_index = 0) ∧
        (n0.myself = true ∨ n0.noaddr = true → n1 = n0) := by
  unfold cronCandidate
  rw [if_pos h]
  refine ⟨rfl, rfl, rfl, ?_⟩
  intro j n1 hj
  simp only [List.getElem?_map] at hj
  rcases hn : s.nodes[j]? with _ | n0
  · rw [hn] at hj
    exact absurd hj (by simp)
  · rw [hn] at hj
    simp only [Option.map_some', Option.some.injEq] at hj
    refine ⟨n0, rfl, ?_⟩
    by_cases hm : n0.myself = true ∨ n0.noaddr = true
    · rw [if_pos hm] at hj
      subst hj
      refine ⟨rfl, rfl, ?_, fun _ => rfl⟩
      intro h1 h2
      rcases hm with hm | hm
      · rw [h1] at hm
        exact absurd hm (by simp)
      · rw [h2] at hm
        exact absurd hm (by simp)
    · rw [if_neg hm] at hj
      subst hj
      exact ⟨rfl, rfl, fun _ _ => ⟨rfl, rfl⟩, fun h1 => absurd h1 hm⟩

set_option maxRecDepth 100000 in
/-- Claim C16, counterexample: `exCandidateNoaddr` is a candidate with 2 votes in a
roster of 3 whose node `"B"`, not itself, is flagged `PREZ_NODE_NOADDR` and
has cursors 7 and 3.  Its tick makes it the leader, and `"B"` keeps these
cursors, where `log.current_index + 1` is 1. -/
theorem leader_keeps_noaddr_cursors :
    exCandidateNoaddr.state = .candidate ∧
    (∃ s1, clusterCron exCandidateNoaddr 1002 7 (fun _ => none) = some s1 ∧
      s1.state = .leader ∧
      (s1.nodes[1]?).map (fun n => (n.myself, n.next_index, n.match_index)) =
        some (false, 7, 3)) ∧
    logCurrentIndex exCandidateNoaddr + 1 = 1 :=
  ⟨by decide, ⟨_, rfl, by decide, by decide⟩, by decide⟩

/-- Claim C16, amended: a tick (which fails only where `election_timeout` is 0)
changes the role to Leader exactly when, after its election step, the role is
Candidate and `votes_granted ≥ quorumSize`; then `current_term` is the one the
election step left, `leader` is this node, and every roster node that is
neither this node nor flagged `PREZ_NODE_NOADDR` has
`next_index = log.current_index + 1` and `match_index = 0`.  None of the four
message handlers sets the role to Leader. -/
theorem cron_becomes_leader (s : ClusterState) (now rnd : Int) (connect : Nat → Option Int)
    (link : ClusterLink) (vote : RequestVote) (rvote : ResponseVote)
    (entries : AppendEntries) (rentries : ResponseAppendEntries) :
    (match clusterCron s now rnd connect with
     | none => s.election_timeout = 0
     | some s1 =>
       ((s.state ≠ .leader ∧ s1.state = .leader) ↔
         ((cronElected s now rnd connect).state = .candidate ∧
          (cronElected s now rnd connect).votes_granted ≥ (quorumSize s : Int))) ∧
       ((cronElected s now rnd connect).state = .candidate ∧
          (cronElected s now rnd connect).votes_granted ≥ (quorumSize s : Int) →
         s1.current_term = (cronElected s now rnd connect).current_term ∧
         s1.leader = s.name ∧
         ∀ (j : Nat) (n1 : ClusterNode), s1.nodes[j]? = some n1 →
           n1.myself = false → n1.noaddr = false →
           n1.next_index = logCurrentIndex s + 1 ∧ n1.match_index = 0)) ∧
    ((clusterProcessRequestVote s link vote now).state = .leader → s.state = .leader) ∧
    ((clusterProcessResponseVote s link rvote).state = .leader → s.state = .leader) ∧
    ((clusterProcessAppendEntries s link entries now).state = .leader → s.state = .leader) ∧
    (∀ s1, clusterProcessResponseAppendEntries s link rentries = some s1 →
      s1.state = .leader → s.state = .leader) := by
  refine ⟨?_, ?_, ?_, ?_, ?_⟩
  · by_cases he : s.election_timeout = 0
    · rw [clusterCron_eq_none s now rnd connect he]
      exact he
    · rw [clusterCron_eq_some s now rnd connect he]
      have hse : cronElection (cronPrepared s now connect) now
          (s.election_timeout + Int.tmod rnd s.election_timeout) =
            cronElected s now rnd connect := rfl
      rw [hse]
      obtain ⟨hnm, hlg, hlen, hld⟩ := cronElected_frame s now rnd connect
      have hq : quorumSize (cronElected s now rnd connect) = quorumSize s := by
        unfold quorumSize
        rw [hlen]
      have hli : logCurrentIndex (cronElected s now rnd connect) = logCurrentIndex s := by
        unfold logCurrentIndex
        rw [hlg]
      generalize cronElected s now rnd connect = se at hnm hlg hlen hld hq hli
      have hst : (cronLeader (cronCandidate se) now).state = (cronCandidate se).state := by
        rw [cronLeader_eq]
      have hct : (cronLeader (cronCandidate se) now).current_term =
          (cronCandidate se).current_term := by
        rw [cronLeader_eq]
      have hle : (cronLeader (cronCandidate se) now).leader = (cronCandidate se).leader := by
        rw [cronLeader_eq]
      refine ⟨⟨fun h => ?_, fun h => ?_⟩, fun h => ?_⟩
      · by_contra hc
        have hc1 : ¬ (se.state = .candidate ∧ se.votes_granted ≥ (quorumSize se : Int)) := by
          rw [hq]
          exact hc
        have hcand : cronCandidate se = se := by
          unfold cronCandidate
          rw [if_neg hc1]
        have h2 := h.2
        rw [hst, hcand] at h2
        exact h.1 (hld.mp h2)
      · have h1 : se.state = .candidate ∧ se.votes_granted ≥ (quorumSize se : Int) := by
          rw [hq]
          exact h
        refine ⟨fun hs => ?_, ?_⟩
        · have h2 := hld.mpr hs
          rw [h.1] at h2
          exact absurd h2 (by decide)
        · rw [hst]
          exact (cronCandidate_fires se h1).1
      · have h1 : se.state = .candidate ∧ se.votes_granted ≥ (quorumSize se : Int) := by
          rw [hq]
          exact h
        obtain ⟨_, f2, f3, f4⟩ := cronCandidate_fires se h1
        refine ⟨by rw [hct, f3], by rw [hle, f2, hnm], ?_⟩
        intro j n1 hj hm hn
        obtain ⟨n2, h2, a2, b2, c2, d2⟩ := cronLeader_cursors (cronCandidate se) now j n1 hj
        obtain ⟨n0, _, a0, b0, hcur, _⟩ := f4 j n2 h2
        have hm0 : n0.myself = false := by rw [← a0, ← a2, hm]
        have hn0 : n0.noaddr = false := by rw [← b0, ← b2, hn]
        have hc := hcur hm0 hn0
        rw [c2, d2, hc.1, hc.2, hli]
        exact ⟨rfl, rfl⟩
  · intro h
    obtain ⟨_, _, _, _, _, _, _, _, hc⟩ := clusterProcessRequestVote_effect s link vote now
    rcases hc with ⟨_, _, hf, _⟩ | ⟨_, _, hs, _⟩
    · rw [hf] at h
      exact absurd h (by decide)
    · rw [← hs]
      exact h
  · intro h
    unfold clusterProcessResponseVote at h
    split at h
    · exact h
    · split at h
      · exact Role.noConfusion h
      · exact h
  · intro h
    obtain ⟨_, _, _, _, _, hc⟩ := clusterProcessAppendEntries_effect s link entries now
    rcases hc with ⟨_, _, hf⟩ | ⟨_, _, hs | hf⟩
    · rw [hf] at h
      exact absurd h (by decide)
    · rw [← hs]
      exact h
    · rw [hf] at h
      exact absurd h (by decide)
  · intro s1 h1 h
    obtain ⟨_, _, _, _, _, hc⟩ := clusterProcessResponseAppendEntries_effect s s1 link rentries h1
    rcases hc with ⟨_, hf⟩ | ⟨_, _, hs⟩
    · rw [hf] at h
      exact absurd h (by decide)
    · rw [← hs]
      exact h

set_option maxRecDepth 100000 in
/-- The amended claim C16 at node `A` of the roster `A, B, C` once it has
counted the vote of `B`: its tick at time 1002 makes it the leader of term 1,
with cursors 1 and 0 for `B`. -/
theorem cron_becomes_leader_witness :
    clusterCron exA3 1002 7 (fun j => some (j : Int)) = some exA4 ∧
    exA3.state ≠ .leader ∧ exA4.state = .leader ∧ exA4.leader = "A" ∧
    (∀ n1, exA4.nodes[1]? = some n1 → n1.myself = false → n1.noaddr = false →
      n1.next_index = logCurrentIndex exA3 + 1 ∧ n1.match_index = 0) := by
  have hc : clusterCron exA3 1002 7 (fun j => some (j : Int)) = some exA4 := rfl
  have h := (cron_becomes_leader exA3 1002 7 (fun j => some (j : Int)) exLink
    { term := 0, candidateid := "", last_log_index := 0, last_log_term := 0 }
    { term := 0, vote_granted := false } exHeartbeat
    { term := 0, index := 0, commit_index := 0, ok := false }).1
  rw [hc] at h
  have hcond : (cronElected exA3 1002 7 (fun j => some (j : Int))).state = .candidate ∧
      (cronElected exA3 1002 7 (fun j => some (j : Int))).votes_granted ≥
        (quorumSize exA3 : Int) := ⟨by decide, by decide⟩
  have h1 := h.1.mpr hcond
  have h2 := h.2 hcond
  exact ⟨hc, h1.1, h1.2, h2.2.1, fun n1 hn => h2.2.2 1 n1 hn⟩

/-! ## The ordering of the three indices -/

theorem getElem?_some_lt {α : Type} (l : List α) (k : Nat) (a : α) (h : l[k]? = some a) :
    k < l.length := by
  rcases Nat.lt_or_ge k l.length with h1 | h1
  · exact h1
  · rw [List.getElem?_eq_none h1] at h
    exact absurd h (by simp)

theorem logContiguous_lastIndex (log : List LogEntry) (h : logContiguous log) :
    logLastIndex log = (log.length : Int) := by
  unfold logLastIndex
  rw [List.getLast?_eq_getElem?]
  rcases he : log[log.length - 1]? with _ | e
  · simp only
    rcases Nat.eq_zero_or_pos log.length with h0 | h0
    · rw [h0]
      rfl
    · rw [List.getElem?_eq_none_iff] at he
      omega
  · simp only
    have h1 := h _ e he
    have h2 := getElem?_some_lt log _ e he
    rw [h1]
    omega

theorem logContiguous_find (log : List LogEntry) (h : logContiguous log) (N : Int)
    (e : LogEntry) (hf : log.find? (fun o => o.index == N) = some e) :
    1 ≤ N ∧ N ≤ (log.length : Int) := by
  have hm := List.mem_of_find?_eq_some hf
  have hp := List.find?_some hf
  simp only [beq_iff_eq] at hp
  obtain ⟨k, hk⟩ := List.mem_iff_getElem?.mp hm
  have h1 := h k e hk
  have h2 := getElem?_some_lt log k e hk
  omega

theorem logContiguous_mono (l1 l2 : List LogEntry) (hp : l1 <+: l2)
    (h : logContiguous l2) : logContiguous l1 := by
  obtain ⟨t, rfl⟩ := hp
  intro k e hk
  apply h k e
  rw [List.getElem?_append_left (getElem?_some_lt l1 k e hk)]
  exact hk

theorem logContiguous_concat (log : List LogEntry) (e : LogEntry) (h : logContiguous log)
    (he : e.index = logLastIndex log + 1) : logContiguous (log ++ [e]) := by
  rw [logContiguous_lastIndex log h] at he
  intro k x hk
  rcases Nat.lt_or_ge k log.length with h1 | h1
  · rw [List.getElem?_append_left h1] at hk
    exact h k x hk
  · have h2 := getElem?_some_lt _ k x hk
    simp only [List.length_append, List.length_singleton] at h2
    have h3 : k = log.length := by omega
    subst h3
    rw [List.getElem?_concat_length] at hk
    simp only [Option.some.injEq] at hk
    subst hk
    exact he

theorem logAppend_contiguous (log : List LogEntry) (e : LogEntry) (h : logContiguous log) :
    logContiguous (logAppend log e).2 := by
  unfold logAppend
  split
  · next hc => exact logContiguous_concat log e h hc.1
  · exact h

theorem logAppendEntry_contiguous (log : List LogEntry) (e : LogEntry)
    (h : logContiguous log) : logContiguous (logAppendEntry log e).2 := by
  unfold logAppendEntry
  split
  · split
    · exact h
    · exact logAppend_contiguous _ e
        (logContiguous_mono _ log (List.takeWhile_prefix _) h)
  · exact logAppend_contiguous log e h

theorem logAppendBatch_contiguous (es : List LogEntry) (log : List LogEntry)
    (h : logContiguous log) : logContiguous (logAppendBatch log es).2 := by
  induction es generalizing log with
  | nil => exact h
  | cons e es ih =>
    unfold logAppendBatch
    split
    · exact logAppendEntry_contiguous log e h
    · exact ih _ (logAppendEntry_contiguous log e h)

theorem LogInv_of_fields (s r : ClusterState) (h : LogInv s)
    (hlog : r.log_entries = s.log_entries) (hc : r.commit_index = s.commit_index)
    (hla : r.last_applied = s.last_applied) (ht : s.current_term ≤ r.current_term) :
    LogInv r := by
  obtain ⟨⟨h1, h2⟩, h3, h4⟩ := h
  refine ⟨⟨?_, ?_⟩, ?_, le_trans h4 ht⟩
  · rw [hla, hc]
    exact h1
  · unfold logCurrentIndex
    rw [hc, hlog]
    exact h2
  · rw [hlog]
    exact h3

theorem clusterUpdateCommitIndex_inv (s : ClusterState) (h : LogInv s) :
    LogInv (clusterUpdateCommitIndex s) := by
  obtain ⟨⟨h1, h2⟩, h3, h4⟩ := h
  unfold clusterUpdateCommitIndex
  split
  · next hc =>
    refine ⟨⟨le_trans h1 (le_of_lt hc.1), ?_⟩, h3, h4⟩
    show commitCandidate s ≤ logLastIndex s.log_entries
    rw [logContiguous_lastIndex _ h3]
    have ht := hc.2
    unfold logGetTerm at ht
    by_cases h0 : commitCandidate s = 0
    · rw [h0]
      exact Int.ofNat_nonneg _
    · rw [if_neg h0] at ht
      rcases hf : s.log_entries.find? (fun e => e.index == commitCandidate s) with _ | e
      · rw [hf] at ht
        simp only at ht
        omega
      · exact (logContiguous_find _ h3 _ e hf).2
  · exact ⟨⟨h1, h2⟩, h3, h4⟩

theorem clusterProcessCommand_inv (s : ClusterState) (c : PrezClient) (h : LogInv s) :
    LogInv (clusterProcessCommand s c) := by
  obtain ⟨⟨h1, h2⟩, h3, h4⟩ := h
  have hcont : logContiguous (s.log_entries ++ [commandEntry s c]) :=
    logContiguous_concat _ _ h3 rfl
  have hcur : logLastIndex (s.log_entries ++ [commandEntry s c]) = logCurrentIndex s + 1 := by
    rw [logLastIndex_concat]
    rfl
  by_cases hn : s.nodes.length = 1
  · rw [(clusterProcessCommand_effect s c).1 hn]
    refine ⟨⟨?_, ?_⟩, hcont, h4⟩
    · exact le_trans h1 (le_max_left _ _)
    · show max s.commit_index (logCurrentIndex s + 1) ≤
        logLastIndex (s.log_entries ++ [commandEntry s c])
      rw [hcur]
      exact max_le (by omega) (le_refl _)
  · rw [(clusterProcessCommand_effect s c).2 hn]
    refine ⟨⟨h1, ?_⟩, hcont, h4⟩
    show s.commit_index ≤ logLastIndex (s.log_entries ++ [commandEntry s c])
    rw [hcur]
    omega

theorem clusterProcessRequestVote_indices (s : ClusterState) (link : ClusterLink)
    (vote : RequestVote) (now : Int) :
    (clusterProcessRequestVote s link vote now).log_entries = s.log_entries ∧
    (clusterProcessRequestVote s link vote now).commit_index = s.commit_index ∧
    (clusterProcessRequestVote s link vote now).last_applied = s.last_applied := by
  unfold clusterProcessRequestVote requestVoteLogCheck clusterSendResponseVote
    clusterSendMessage
  simp only
  split
  · exact ⟨rfl, rfl, rfl⟩
  · split
    · split <;> exact ⟨rfl, rfl, rfl⟩
    · split
      · exact ⟨rfl, rfl, rfl⟩
      · split <;> exact ⟨rfl, rfl, rfl⟩

theorem logCommitIndex_indices (s : ClusterState) (index : Int) :
    (logCommitIndex s index).2.log_entries = s.log_entries ∧
    (logCommitIndex s index).2.last_applied = s.last_applied ∧
    (logCommitIndex s index).2.current_term = s.current_term ∧
    s.commit_index ≤ (logCommitIndex s index).2.commit_index ∧
    (s.commit_index ≤ logCurrentIndex s →
      (logCommitIndex s index).2.commit_index ≤ logCurrentIndex s) := by
  unfold logCommitIndex
  split
  · next h => exact ⟨rfl, rfl, rfl, le_of_lt h, fun _ => min_le_right _ _⟩
  · exact ⟨rfl, rfl, rfl, le_refl _, id⟩

theorem appendEntriesAdopt_last_applied (s : ClusterState) (entries : AppendEntries)
    (now : Int) : (appendEntriesAdopt s entries now).last_applied = s.last_applied := by
  unfold appendEntriesAdopt
  simp only
  split
  · split <;> rfl
  · rfl

/-- What `clusterProcessAppendEntries` does to the three indices: `last_applied`
is unchanged, `commit_index` does not decrease, a contiguous log stays
contiguous, and `commit_index` is at most the log's new last index whenever
the old `commit_index` is. -/
theorem clusterProcessAppendEntries_indices (s : ClusterState) (link : ClusterLink)
    (entries : AppendEntries) (now : Int) :
    (clusterProcessAppendEntries s link entries now).last_applied = s.last_applied ∧
    s.commit_index ≤ (clusterProcessAppendEntries s link entries now).commit_index ∧
    (logContiguous s.log_entries →
      logContiguous (clusterProcessAppendEntries s link entries now).log_entries) ∧
    (s.commit_index ≤ logCurrentIndex (clusterProcessAppendEntries s link entries now) →
      (clusterProcessAppendEntries s link entries now).commit_index ≤
        logCurrentIndex (clusterProcessAppendEntries s link entries now)) := by
  obtain ⟨alog, acommit, _⟩ := appendEntriesAdopt_frame s entries now
  have ala := appendEntriesAdopt_last_applied s entries now
  have hbatch : logContiguous s.log_entries →
      logContiguous (logAppendEntries (appendEntriesAdopt s entries now) entries).2.log_entries := by
    intro h
    show logContiguous (logAppendBatch (appendEntriesAdopt s entries now).log_entries
      entries.log_entries).2
    rw [alog]
    exact logAppendBatch_contiguous _ _ h
  have hc2 : (logAppendEntries (appendEntriesAdopt s entries now) entries).2.commit_index =
      s.commit_index := acommit
  have hl2 : (logAppendEntries (appendEntriesAdopt s entries now) entries).2.last_applied =
      s.last_applied := ala
  obtain ⟨c1, c2, _, c4, c5⟩ := logCommitIndex_indices
    (logAppendEntries (appendEntriesAdopt s entries now) entries).2 entries.leader_commit_index
  have hfinal :
      (logCommitIndex (logAppendEntries (appendEntriesAdopt s entries now) entries).2
        entries.leader_commit_index).2.last_applied = s.last_applied ∧
      s.commit_index ≤
        (logCommitIndex (logAppendEntries (appendEntriesAdopt s entries now) entries).2
          entries.leader_commit_index).2.commit_index ∧
      (logContiguous s.log_entries →
        logContiguous
          (logCommitIndex (logAppendEntries (appendEntriesAdopt s entries now) entries).2
            entries.leader_commit_index).2.log_entries) ∧
      (s.commit_index ≤ logCurrentIndex
          (logCommitIndex (logAppendEntries (appendEntriesAdopt s entries now) entries).2
            entries.leader_commit_index).2 →
        (logCommitIndex (logAppendEntries (appendEntriesAdopt s entries now) entries).2
          entries.leader_commit_index).2.commit_index ≤
        logCurrentIndex
          (logCommitIndex (logAppendEntries (appendEntriesAdopt s entries now) entries).2
            entries.leader_commit_index).2) := by
    refine ⟨c2.trans hl2, ?_, ?_, ?_⟩
    · rw [← hc2]
      exact c4
    · intro h
      rw [c1]
      exact hbatch h
    · unfold logCurrentIndex
      rw [c1]
      intro h
      exact c5 (by rw [hc2]; exact h)
  unfold clusterProcessAppendEntries
  split
  · exact ⟨rfl, le_refl _, id, id⟩
  · simp only
    split
    · refine ⟨ala, le_of_eq acommit.symm, ?_, ?_⟩
      · intro h
        show logContiguous (appendEntriesAdopt s entries now).log_entries
        rw [alog]
        exact h
      · intro h
        show (appendEntriesAdopt s entries now).commit_index ≤ _
        rw [acommit]
        exact h
    · split
      · refine ⟨hl2, le_of_eq hc2.symm, hbatch, ?_⟩
        intro h
        show (logAppendEntries (appendEntriesAdopt s entries now) entries).2.commit_index ≤ _
        rw [hc2]
        exact h
      · split
        · exact hfinal
        · exact hfinal

theorem cronPrepared_inv (s : ClusterState) (now : Int) (connect : Nat → Option Int)
    (h : LogInv s) : LogInv (cronPrepared s now connect) := by
  obtain ⟨⟨h1, h2⟩, h3, h4⟩ := h
  have hs := cronApplyLoop_spec (s.commit_index - s.last_applied).toNat
    (cronConnect s now connect) h1 (le_refl _)
  have hp : cronPrepared s now connect =
      cronApplyLoop (s.commit_index - s.last_applied).toNat (cronConnect s now connect) := rfl
  rw [← hp] at hs
  have hsp := cronPrepared_eq s now connect
  have hlog : (cronPrepared s now connect).log_entries = s.log_entries := by rw [hsp]
  have hct : (cronPrepared s now connect).current_term = s.current_term := by rw [hsp]
  refine ⟨⟨?_, ?_⟩, ?_, ?_⟩
  · rw [hs.2.1, hs.2.2]
  · unfold logCurrentIndex
    rw [hs.2.2, hlog]
    exact h2
  · rw [hlog]
    exact h3
  · rw [hct]
    exact h4

theorem cronElection_inv (s : ClusterState) (now election_timeout : Int) (h : LogInv s) :
    LogInv (cronElection s now election_timeout) := by
  have ht := cronElection_current_term s now election_timeout
  have he := cronElection_eq s now election_timeout
  by_cases hf : s.state ≠ .leader ∧ now - s.last_activity_time > election_timeout
  · rw [if_pos hf] at he
    exact LogInv_of_fields s _ h (by rw [he]) (by rw [he]) (by rw [he]) ht
  · rw [if_neg hf] at he
    rw [he]
    exact h

theorem cronCandidate_inv (s : ClusterState) (h : LogInv s) : LogInv (cronCandidate s) := by
  have he := cronCandidate_eq s
  exact LogInv_of_fields s _ h (by rw [he]) (by rw [he]) (by rw [he])
    (le_of_eq (by rw [he]))

theorem cronLeader_inv (s : ClusterState) (now : Int) (h : LogInv s) :
    LogInv (cronLeader s now) := by
  unfold cronLeader
  by_cases hs : s.state = .leader
  · rw [if_pos hs]
    have he := cronHeartbeat_foldl_eq now (List.range s.nodes.length)
      (clusterUpdateCommitIndex s)
    exact LogInv_of_fields (clusterUpdateCommitIndex s) _ (clusterUpdateCommitIndex_inv s h)
      (by rw [he]) (by rw [he]) (by rw [he]) (le_of_eq (by rw [he]))
  · rw [if_neg hs]
    exact h

theorem clusterProcessResponseVote_inv (s : ClusterState) (link : ClusterLink)
    (vote : ResponseVote) (h : LogInv s) : LogInv (clusterProcessResponseVote s link vote) := by
  have ht := clusterProcessResponseVote_current_term s link vote
  refine LogInv_of_fields s _ h ?_ ?_ ?_ ht
  all_goals
    unfold clusterProcessResponseVote
    split_ifs <;> rfl

theorem clusterProcessResponseAppendEntries_inv (s s1 : ClusterState) (link : ClusterLink)
    (entries : ResponseAppendEntries) (h : LogInv s)
    (h1 : clusterProcessResponseAppendEntries s link entries = some s1) : LogInv s1 := by
  have ht := clusterProcessResponseAppendEntries_current_term s s1 link entries h1
  unfold clusterProcessResponseAppendEntries at h1
  split at h1
  · split at h1
    · exact absurd h1 (by simp)
    · split at h1
      · simp only [Option.some.injEq] at h1
        subst h1
        exact LogInv_of_fields s _ h rfl rfl rfl ht
      · simp only [Option.some.injEq] at h1
        subst h1
        exact h
  · split at h1
    · simp only [Option.some.injEq] at h1
      subst h1
      exact LogInv_of_fields s _ h rfl rfl rfl ht
    · split at h1
      · exact absurd h1 (by simp)
      · simp only [Option.some.injEq] at h1
        subst h1
        exact LogInv_of_fields s _ h rfl rfl rfl ht

theorem exFollower_inv : LogInv exFollower := by
  refine ⟨⟨by decide, by decide⟩, ?_, by decide⟩
  intro k e hk
  match k with
  | 0 =>
    simp only [exFollower, List.getElem?_cons_zero, Option.some.injEq] at hk
    subst hk
    rfl
  | 1 =>
    simp only [exFollower, List.getElem?_cons_succ, List.getElem?_cons_zero,
      Option.some.injEq] at hk
    subst hk
    rfl
  | k + 2 =>
    simp [exFollower] at hk

/-- Claim C20, counterexample: the follower `exFollower` has entries 1 and 2 of term 1,
both committed and applied, so `last_applied ≤ commit_index ≤
log.current_index` holds.  The AppendEntries `exConflict` of term 2 carries,
for index 1, an entry of term 2: the log is cut back to index 1 and
`commit_index` stays 2, above `log.current_index`. -/
theorem appendEntries_truncates_below_commit :
    exFollower.last_applied ≤ exFollower.commit_index ∧
    exFollower.commit_index ≤ logCurrentIndex exFollower ∧
    (clusterProcessAppendEntries exFollower exLink exConflict 7).commit_index = 2 ∧
    logCurrentIndex (clusterProcessAppendEntries exFollower exLink exConflict 7) = 1 ∧
    ¬ ((clusterProcessAppendEntries exFollower exLink exConflict 7).commit_index ≤
        logCurrentIndex (clusterProcessAppendEntries exFollower exLink exConflict 7)) :=
  ⟨by decide, by decide, by decide, by decide, by decide⟩

/-- Claim C20, amended: `last_applied ≤ commit_index ≤ log.current_index`, taken
together with contiguous log indices and a non-negative `current_term`, holds
in the state `clusterInit` sets up (for a contiguous loaded log whose last
term is not negative) and is preserved by `clusterProcessCommand`, by the
handlers of RequestVote, RequestVoteResponse and AppendEntriesResponse, by
`clusterUpdateCommitIndex` and by `clusterCron` (the last two handlers
returning unless the link is bound to no node, the tick unless
`election_timeout` is 0).  `clusterProcessAppendEntries` keeps
`last_applied ≤ commit_index`, contiguity and the sign of the term, and keeps
`commit_index ≤ log.current_index` whenever the log it leaves still reaches
the old `commit_index`. -/
theorem log_indices_invariant (s : ClusterState) (c : PrezClient) (link : ClusterLink)
    (vote : RequestVote) (rvote : ResponseVote) (entries : AppendEntries)
    (rentries : ResponseAppendEntries) (now rnd : Int) (connect : Nat → Option Int)
    (name : String) (port : Int) (myself : Nat) (nodes : List ClusterNode)
    (log : List LogEntry) (election_timeout heartbeat_interval max_entries : Int)
    (hlog : logContiguous log) (hterm : 0 ≤ logLastTerm log) (h : LogInv s) :
    LogInv (clusterInit name port myself nodes log now election_timeout heartbeat_interval
      max_entries) ∧
    LogInv (clusterProcessCommand s c) ∧
    LogInv (clusterProcessRequestVote s link vote now) ∧
    LogInv (clusterProcessResponseVote s link rvote) ∧
    (match clusterProcessResponseAppendEntries s link rentries with
     | some s1 => LogInv s1
     | none => linkNode s link = none) ∧
    LogInv (clusterUpdateCommitIndex s) ∧
    (match clusterCron s now rnd connect with
     | some s1 => LogInv s1
     | none => s.election_timeout = 0) ∧
    (clusterProcessAppendEntries s link entries now).last_applied ≤
      (clusterProcessAppendEntries s link entries now).commit_index ∧
    logContiguous (clusterProcessAppendEntries s link entries now).log_entries ∧
    0 ≤ (clusterProcessAppendEntries s link entries now).current_term ∧
    (s.commit_index ≤ logCurrentIndex (clusterProcessAppendEntries s link entries now) →
      LogInv (clusterProcessAppendEntries s link entries now)) := by
  obtain ⟨a1, a2, a3, a4⟩ := clusterProcessAppendEntries_indices s link entries now
  have aterm : 0 ≤ (clusterProcessAppendEntries s link entries now).current_term := by
    rw [clusterProcessAppendEntries_current_term]
    exact le_trans h.2.2 (le_max_left _ _)
  have ala : (clusterProcessAppendEntries s link entries now).last_applied ≤
      (clusterProcessAppendEntries s link entries now).commit_index := by
    rw [a1]
    exact le_trans h.1.1 a2
  refine ⟨?_, clusterProcessCommand_inv s c h, ?_, clusterProcessResponseVote_inv s link rvote h,
    ?_, clusterUpdateCommitIndex_inv s h, ?_, ala, a3 h.2.1, aterm, ?_⟩
  · refine ⟨⟨le_refl _, ?_⟩, hlog, hterm⟩
    show (0 : Int) ≤ logLastIndex log
    rw [logContiguous_lastIndex log hlog]
    exact Int.ofNat_nonneg _
  · obtain ⟨r1, r2, r3⟩ := clusterProcessRequestVote_indices s link vote now
    refine LogInv_of_fields s _ h r1 r2 r3 ?_
    rw [clusterProcessRequestVote_current_term]
    exact le_max_left _ _
  · rcases hr : clusterProcessResponseAppendEntries s link rentries with _ | s1
    · exact responseAppendEntries_none_linkNode s link rentries hr
    · exact clusterProcessResponseAppendEntries_inv s s1 link rentries h hr
  · by_cases he : s.election_timeout = 0
    · rw [clusterCron_eq_none s now rnd connect he]
      exact he
    · rw [clusterCron_eq_some s now rnd connect he]
      exact cronLeader_inv _ now
        (cronCandidate_inv _ (cronElection_inv _ now _ (cronPrepared_inv s now connect h)))
  · intro hc
    exact ⟨⟨ala, a4 hc⟩, a3 h.2.1, aterm⟩

/-- The hypotheses of the amended claim C20 at the follower `exFollower` and
its log: the invariant holds there and after a client command. -/
theorem log_indices_invariant_witness :
    logContiguous exFollower.log_entries ∧ 0 ≤ logLastTerm exFollower.log_entries ∧
    LogInv exFollower ∧ LogInv (clusterProcessCommand exFollower exClient) ∧
    LogInv (clusterInit "A" 7000 0 exFollower.nodes exFollower.log_entries 0 150 50 16) :=
  ⟨exFollower_inv.2.1, by decide, exFollower_inv,
    (log_indices_invariant exFollower exClient exLink
      { term := 0, candidateid := "", last_log_index := 0, last_log_term := 0 }
      { term := 0, vote_granted := false } exConflict
      { term := 0, index := 0, commit_index := 0, ok := false } 7 7 (fun _ => none)
      "A" 7000 0 exFollower.nodes exFollower.log_entries 150 50 16
      exFollower_inv.2.1 (by decide) exFollower_inv).2.1,
    (log_indices_invariant exFollower exClient exLink
      { term := 0, candidateid := "", last_log_index := 0, last_log_term := 0 }
      { term := 0, vote_granted := false } exConflict
      { term := 0, index := 0, commit_index := 0, ok := false } 0 7 (fun _ => none)
      "A" 7000 0 exFollower.nodes exFollower.log_entries 150 50 16
      exFollower_inv.2.1 (by decide) exFollower_inv).1⟩

/-! ## The log check and the repeated grant of a vote -/

/-- The three exits of `clusterProcessRequestVote`: denied before the log check,
denied by the log check, granted. -/
theorem clusterProcessRequestVote_cases (s : ClusterState) (link : ClusterLink)
    (vote : RequestVote) (now : Int) :
    (¬ (¬ vote.term < s.current_term ∧
        (vote.term > s.current_term ∨
          ¬ (s.voted_for.length > 0 ∧ s.voted_for ≠ vote.candidateid))) →
      clusterProcessRequestVote s link vote now = clusterSendResponseVote s link false) ∧
    (¬ vote.term < s.current_term →
      (vote.term > s.current_term ∨
        ¬ (s.voted_for.length > 0 ∧ s.voted_for ≠ vote.candidateid)) →
      (logCurrentIndex s > vote.last_log_index ∨ logCurrentTerm s > vote.last_log_term) →
      clusterProcessRequestVote s link vote now =
        clusterSendResponseVote (requestVoteAdopt s vote) link false) ∧
    (¬ vote.term < s.current_term →
      (vote.term > s.current_term ∨
        ¬ (s.voted_for.length > 0 ∧ s.voted_for ≠ vote.candidateid)) →
      ¬ (logCurrentIndex s > vote.last_log_index ∨ logCurrentTerm s > vote.last_log_term) →
      clusterProcessRequestVote s link vote now =
        { clusterSendResponseVote
            { requestVoteAdopt s vote with voted_for := vote.candidateid } link true with
          last_activity_time := now }) := by
  refine ⟨fun h => ?_, fun h1 h2 h3 => ?_, fun h1 h2 h3 => ?_⟩
  · unfold clusterProcessRequestVote
    by_cases h1 : vote.term < s.current_term
    · rw [if_pos h1]
    · rw [if_neg h1]
      by_cases h2 : vote.term > s.current_term
      · exact absurd ⟨h1, Or.inl h2⟩ h
      · rw [if_neg h2]
        by_cases h3 : s.voted_for.length > 0 ∧ s.voted_for ≠ vote.candidateid
        · rw [if_pos h3]
        · exact absurd ⟨h1, Or.inr h3⟩ h
  · unfold clusterProcessRequestVote requestVoteAdopt
    rw [if_neg h1]
    by_cases h4 : vote.term > s.current_term
    · rw [if_pos h4, if_pos h4]
      exact requestVoteLogCheck_deny _ link vote now h3
    · rw [if_neg h4, if_neg h4]
      rcases h2 with h2 | h2
      · exact absurd h2 h4
      · rw [if_neg h2]
        exact requestVoteLogCheck_deny _ link vote now h3
  · unfold clusterProcessRequestVote requestVoteAdopt
    rw [if_neg h1]
    by_cases h4 : vote.term > s.current_term
    · rw [if_pos h4, if_pos h4]
      exact requestVoteLogCheck_grant _ link vote now h3
    · rw [if_neg h4, if_neg h4]
      rcases h2 with h2 | h2
      · exact absurd h2 h4
      · rw [if_neg h2]
        exact requestVoteLogCheck_grant _ link vote now h3

theorem requestVoteAdopt_current_term (s : ClusterState) (vote : RequestVote)
    (h : ¬ vote.term < s.current_term) :
    (requestVoteAdopt s vote).current_term = vote.term := by
  unfold requestVoteAdopt
  by_cases h4 : vote.term > s.current_term
  · rw [if_pos h4]
  · rw [if_neg h4]
    omega

theorem requestVoteAdopt_frame (s : ClusterState) (vote : RequestVote) :
    (requestVoteAdopt s vote).sent = s.sent ∧
    (requestVoteAdopt s vote).last_activity_time = s.last_activity_time ∧
    (requestVoteAdopt s vote).port = s.port ∧
    myselfName (requestVoteAdopt s vote) = myselfName s := by
  unfold requestVoteAdopt
  split <;> exact ⟨rfl, rfl, rfl, rfl⟩

set_option maxRecDepth 100000 in
/-- Claim C23, counterexample: the receiver `exLongLog` has current term 2 and a
log that ends at index 5 with term 1.  The RequestVote `exVoteNewer` has term
3, so the term and `voted_for` checks pass, and a log that ends at index 3
with term 2: the candidate's last log term is higher and its last log index
is lower.  The reply denies the vote. -/
theorem requestVote_newer_log_term_denied :
    ¬ exVoteNewer.term < exLongLog.current_term ∧
    logCurrentTerm exLongLog < exVoteNewer.last_log_term ∧
    exVoteNewer.last_log_index < logCurrentIndex exLongLog ∧
    (clusterProcessRequestVote exLongLog exLink exVoteNewer 9).sent =
      [(exLink, { sender := "A", port := 7000,
                  data := .responsevote { term := 3, vote_granted := false } })] :=
  ⟨by decide, by decide, by decide, by decide⟩

/-- Claim C23, amended: for every RequestVote whose term and `voted_for` checks
pass, `clusterProcessRequestVote` sends one reply, and the reply denies the vote
exactly when the receiver's last log index is higher than
`msg.last_log_index` or the receiver's last log term is higher than
`msg.last_log_term`.  A candidate whose last log term is higher than the
receiver's is therefore denied when its last log index is lower. -/
theorem requestVote_log_check (s : ClusterState) (link : ClusterLink) (vote : RequestVote)
    (now : Int) (h1 : ¬ vote.term < s.current_term)
    (h2 : vote.term > s.current_term ∨
      ¬ (s.voted_for.length > 0 ∧ s.voted_for ≠ vote.candidateid)) :
    ∃ granted : Bool,
      (clusterProcessRequestVote s link vote now).sent =
        s.sent ++ [(link,
          { sender := myselfName s, port := s.port,
            data := .responsevote { term := vote.term, vote_granted := granted } })] ∧
      (granted = false ↔
        (logCurrentIndex s > vote.last_log_index ∨
          logCurrentTerm s > vote.last_log_term)) ∧
      (logCurrentTerm s < vote.last_log_term → vote.last_log_index < logCurrentIndex s →
        granted = false) := by
  obtain ⟨_, c2, c3⟩ := clusterProcessRequestVote_cases s link vote now
  obtain ⟨f1, _, f3, f4⟩ := requestVoteAdopt_frame s vote
  have ht := requestVoteAdopt_current_term s vote h1
  by_cases h3 : logCurrentIndex s > vote.last_log_index ∨
      logCurrentTerm s > vote.last_log_term
  · refine ⟨false, ?_, ?_, fun _ _ => rfl⟩
    · rw [c2 h1 h2 h3]
      simp only [clusterSendResponseVote, clusterSendMessage, clusterBuildMessageHdr, f1, f3,
        f4, ht]
    · exact ⟨fun _ => h3, fun _ => rfl⟩
  · refine ⟨true, ?_, ?_, ?_⟩
    · rw [c3 h1 h2 h3]
      simp only [clusterSendResponseVote, clusterSendMessage, clusterBuildMessageHdr]
      have f5 : myselfName { requestVoteAdopt s vote with voted_for := vote.candidateid } =
          myselfName s := f4
      rw [f5, f1, f3, ht]
    · exact ⟨fun h => absurd h (by decide), fun h => absurd h h3⟩
    · intro _ hi
      exact absurd (Or.inl hi) h3

set_option maxRecDepth 100000 in
/-- The hypotheses of the amended claim C23 at `exLongLog` and `exVoteNewer`: the
checks pass and the vote is denied. -/
theorem requestVote_log_check_witness :
    ¬ exVoteNewer.term < exLongLog.current_term ∧
    (exVoteNewer.term > exLongLog.current_term ∨
      ¬ (exLongLog.voted_for.length > 0 ∧ exLongLog.voted_for ≠ exVoteNewer.candidateid)) ∧
    ∃ granted : Bool,
      (clusterProcessRequestVote exLongLog exLink exVoteNewer 9).sent =
        exLongLog.sent ++ [(exLink,
          { sender := myselfName exLongLog, port := exLongLog.port,
            data := .responsevote { term := exVoteNewer.term, vote_granted := granted } })] ∧
      granted = false := by
  obtain ⟨g, h1, _, h3⟩ :=
    requestVote_log_check exLongLog exLink exVoteNewer 9 (by decide) (Or.inl (by decide))
  exact ⟨by decide, Or.inl (by decide), g, h1, h3 (by decide) (by decide)⟩

set_option maxRecDepth 100000 in
/-- Claim C24, counterexample: `exGranted` is the follower that granted the
RequestVote `exVoteB` of term 1 at time 5, so `voted_for` is `"B"`,
`current_term` is 1 and `last_activity_time` is 5.  The same RequestVote
delivered again at time 9 is granted again, and `last_activity_time`, a field
of the consensus state, becomes 9. -/
theorem regrant_moves_clock :
    exGranted.voted_for = exVoteB.candidateid ∧ exGranted.current_term = exVoteB.term ∧
    exGranted.last_activity_time = 5 ∧
    (clusterProcessRequestVote exGranted exLink exVoteB 9).sent =
      exGranted.sent ++ [(exLink,
        { sender := "B", port := 7000,
          data := .responsevote { term := 1, vote_granted := true } })] ∧
    (clusterProcessRequestVote exGranted exLink exVoteB 9).last_activity_time = 9 ∧
    (clusterProcessRequestVote exGranted exLink exVoteB 9).last_activity_time ≠
      exGranted.last_activity_time :=
  ⟨by decide, by decide, by decide, by decide, by decide, by decide⟩

/-- Claim C24, amended: in a state with `voted_for = C` and `current_term = T` that
results from granting the RequestVote of `C` (so that, the log being
unchanged, the log check passes again), processing the same RequestVote of
term `T` again replies `vote_granted = true` and leaves the consensus state as
it was except for `last_activity_time`, which becomes the time of the second
delivery; apart from it only the reply queued on the link and the counter of
frames sent change. -/
theorem requestVote_regrant (s : ClusterState) (link : ClusterLink) (vote : RequestVote)
    (now : Int) (hv : s.voted_for = vote.candidateid) (ht : s.current_term = vote.term)
    (hlog : ¬ (logCurrentIndex s > vote.last_log_index ∨
      logCurrentTerm s > vote.last_log_term)) :
    clusterProcessRequestVote s link vote now =
      { s with last_activity_time := now,
               sent := s.sent ++ [(link,
                 { sender := myselfName s, port := s.port,
                   data := .responsevote { term := s.current_term, vote_granted := true } })],
               stats_bus_messages_sent := s.stats_bus_messages_sent + 1 } := by
  have h1 : ¬ vote.term < s.current_term := by omega
  have h4 : ¬ vote.term > s.current_term := by omega
  have h2 : vote.term > s.current_term ∨
      ¬ (s.voted_for.length > 0 ∧ s.voted_for ≠ vote.candidateid) :=
    Or.inr (fun h => h.2 hv)
  rw [(clusterProcessRequestVote_cases s link vote now).2.2 h1 h2 hlog]
  have ha : requestVoteAdopt s vote = s := by
    unfold requestVoteAdopt
    rw [if_neg h4]
  rw [ha, ← hv]
  cases s
  rfl

set_option maxRecDepth 100000 in
/-- The hypotheses of the amended claim C24 at `exGranted` and `exVoteB`: the
second delivery, at time 9, changes `last_activity_time` and nothing else of
the consensus state. -/
theorem requestVote_regrant_witness :
    exGranted.voted_for = exVoteB.candidateid ∧ exGranted.current_term = exVoteB.term ∧
    (clusterProcessRequestVote exGranted exLink exVoteB 9).voted_for = exGranted.voted_for ∧
    (clusterProcessRequestVote exGranted exLink exVoteB 9).current_term =
      exGranted.current_term ∧
    (clusterProcessRequestVote exGranted exLink exVoteB 9).last_activity_time = 9 := by
  have h := requestVote_regrant exGranted exLink exVoteB 9 (by decide) (by decide) (by decide)
  rw [h]
  exact ⟨by decide, by decide, rfl, rfl, rfl⟩

/-! ## The election timeout and the clock of the last activity -/

/-- The tick without its election step: what the candidate and leader steps
leave of the fields an election writes. -/
theorem cronLeader_cronCandidate_frame (s : ClusterState) (now : Int) :
    (cronLeader (cronCandidate s) now).current_term = s.current_term ∧
    (cronLeader (cronCandidate s) now).voted_for = s.voted_for ∧
    (cronLeader (cronCandidate s) now).votes_granted = s.votes_granted ∧
    (cronLeader (cronCandidate s) now).last_activity_time = s.last_activity_time := by
  have hc := cronCandidate_eq s
  refine ⟨?_, ?_, ?_, ?_⟩ <;>
  · rw [cronLeader_eq, hc]

/-- Claim C28: for a base `election_timeout > 0` and a value `r ≥ 0` of the random
source, the timeout the tick compares against,
`election_timeout + r % election_timeout`, lies in
`[election_timeout, 2 * election_timeout)`; so while
`now - last_activity_time ≤ election_timeout` the election step of the tick
does nothing, and the tick leaves `current_term`, `voted_for` and
`votes_granted` as they are. -/
theorem election_timeout_band (s : ClusterState) (now rnd : Int)
    (connect : Nat → Option Int) (het : 0 < s.election_timeout) (hr : 0 ≤ rnd) :
    s.election_timeout ≤ s.election_timeout + Int.tmod rnd s.election_timeout ∧
    s.election_timeout + Int.tmod rnd s.election_timeout < 2 * s.election_timeout ∧
    (now - s.last_activity_time ≤ s.election_timeout →
      cronElected s now rnd connect = cronPrepared s now connect ∧
      ∃ s1, clusterCron s now rnd connect = some s1 ∧
        s1.current_term = s.current_term ∧ s1.voted_for = s.voted_for ∧
        s1.votes_granted = s.votes_granted ∧
        s1.last_activity_time = s.last_activity_time) := by
  have h1 : 0 ≤ Int.tmod rnd s.election_timeout := Int.tmod_nonneg _ hr
  have h2 : Int.tmod rnd s.election_timeout < s.election_timeout :=
    Int.tmod_lt_of_pos _ het
  refine ⟨by omega, by omega, ?_⟩
  intro hq
  have hsp := cronPrepared_eq s now connect
  have hla : (cronPrepared s now connect).last_activity_time = s.last_activity_time := by
    rw [hsp]
  have hct : (cronPrepared s now connect).current_term = s.current_term := by rw [hsp]
  have hvf : (cronPrepared s now connect).voted_for = s.voted_for := by rw [hsp]
  have hvg : (cronPrepared s now connect).votes_granted = s.votes_granted := by rw [hsp]
  have hel : cronElected s now rnd connect = cronPrepared s now connect := by
    unfold cronElected cronElection
    rw [if_neg]
    rw [hla]
    intro hc
    have := hc.2
    omega
  refine ⟨hel, _, clusterCron_eq_some s now rnd connect (by omega), ?_⟩
  have hse : cronElection (cronPrepared s now connect) now
      (s.election_timeout + Int.tmod rnd s.election_timeout) =
        cronElected s now rnd connect := rfl
  rw [hse, hel]
  obtain ⟨a, b, c, d⟩ := cronLeader_cronCandidate_frame (cronPrepared s now connect) now
  exact ⟨a.trans hct, b.trans hvf, c.trans hvg, d.trans hla⟩

set_option maxRecDepth 100000 in
/-- The hypotheses of claim C28 at node `A` of the roster `A, B, C` with the random
value 7: the timeout is in the band, and at a time within `election_timeout`
of the last activity the tick starts no election. -/
theorem election_timeout_band_witness :
    0 < (exStart 0 "A").election_timeout ∧
    (exStart 0 "A").election_timeout ≤
      (exStart 0 "A").election_timeout + Int.tmod 7 (exStart 0 "A").election_timeout ∧
    ∃ s1, clusterCron (exStart 0 "A") 1 7 (fun _ => none) = some s1 ∧
      s1.current_term = (exStart 0 "A").current_term := by
  have h := election_timeout_band (exStart 0 "A") 1 7 (fun _ => none) (by decide) (by decide)
  obtain ⟨_, s1, h1, h2, _⟩ := h.2.2 (by decide)
  exact ⟨by decide, h.1, s1, h1, h2⟩

/-! ## Terms on outbound frames -/

theorem clusterSendResponseAppendEntries_sent_term (x s : ClusterState) (h : x.sent = s.sent)
    (link : ClusterLink) (ok : Bool) :
    ∃ m : ClusterMsg,
      (clusterSendResponseAppendEntries x link ok).sent = s.sent ++ [(link, m)] ∧
      msgTerm m.data = (clusterSendResponseAppendEntries x link ok).current_term := by
  refine ⟨clusterBuildMessageHdr x
    (.responseappendentries
      { term := x.current_term, index := logCurrentIndex x,
        commit_index := x.commit_index, ok := ok }), ?_, rfl⟩
  simp only [clusterSendResponseAppendEntries, clusterSendMessage, h]

theorem logCommitIndex_sent (s : ClusterState) (index : Int) :
    (logCommitIndex s index).2.sent = s.sent := by
  unfold logCommitIndex
  split <;> rfl

theorem clusterProcessAppendEntries_sent_term (s : ClusterState) (link : ClusterLink)
    (entries : AppendEntries) (now : Int) :
    ∃ m : ClusterMsg,
      (clusterProcessAppendEntries s link entries now).sent = s.sent ++ [(link, m)] ∧
      msgTerm m.data = (clusterProcessAppendEntries s link entries now).current_term := by
  have ha : (appendEntriesAdopt s entries now).sent = s.sent :=
    (appendEntriesAdopt_frame s entries now).2.2.1
  have hb : (logAppendEntries (appendEntriesAdopt s entries now) entries).2.sent = s.sent := ha
  have hc : (logCommitIndex (logAppendEntries (appendEntriesAdopt s entries now) entries).2
      entries.leader_commit_index).2.sent = s.sent := by
    rw [logCommitIndex_sent]
    exact hb
  unfold clusterProcessAppendEntries
  split
  · exact clusterSendResponseAppendEntries_sent_term s s rfl link false
  · simp only
    split
    · exact clusterSendResponseAppendEntries_sent_term _ s ha link false
    · split
      · exact clusterSendResponseAppendEntries_sent_term _ s hb link false
      · split
        · exact clusterSendResponseAppendEntries_sent_term _ s hc link false
        · exact clusterSendResponseAppendEntries_sent_term _ s hc link true

theorem cronHeartbeat_sent_term (now : Int) (s : ClusterState) (i : Nat) :
    (cronHeartbeat now s i).current_term = s.current_term ∧
    ∃ aes, (cronHeartbeat now s i).sent = s.sent ++ aes ∧
      ∀ f ∈ aes, msgTerm f.2.data = s.current_term := by
  refine ⟨by rw [cronHeartbeat_eq], ?_⟩
  unfold cronHeartbeat
  rcases hn : s.nodes[i]? with _ | node
  · exact ⟨[], by simp, by simp⟩
  · simp only
    by_cases hm : node.myself = true ∨ node.noaddr = true
    · simp only [hm, if_true]
      exact ⟨[], by simp, by simp⟩
    · simp only [hm, if_false]
      rcases hl : node.link with _ | fd
      · exact ⟨[], by simp, by simp⟩
      · simp only
        by_cases ht : now - node.last_activity_time > s.heartbeat_interval
        · simp only [ht, if_true, clusterSendAppendEntriesTo, clusterSendMessage,
            List.set_set]
          refine ⟨_, rfl, ?_⟩
          intro f hf
          simp only [List.mem_singleton] at hf
          subst hf
          rfl
        · simp only [ht, if_false]
          exact ⟨[], by simp, by simp⟩

theorem cronHeartbeat_foldl_sent_term (now : Int) (l : List Nat) (s : ClusterState) :
    (l.foldl (cronHeartbeat now) s).current_term = s.current_term ∧
    ∃ aes, (l.foldl (cronHeartbeat now) s).sent = s.sent ++ aes ∧
      ∀ f ∈ aes, msgTerm f.2.data = s.current_term := by
  induction l generalizing s with
  | nil => exact ⟨rfl, [], by simp, by simp⟩
  | cons i l ih =>
    simp only [List.foldl_cons]
    obtain ⟨t1, a1, s1, p1⟩ := cronHeartbeat_sent_term now s i
    obtain ⟨t2, a2, s2, p2⟩ := ih (cronHeartbeat now s i)
    refine ⟨t2.trans t1, a1 ++ a2, ?_, ?_⟩
    · rw [s2, s1, List.append_assoc]
    · intro f hf
      rcases List.mem_append.mp hf with h | h
      · exact p1 f h
      · rw [p2 f h, t1]

theorem cronLeader_sent_term (s : ClusterState) (now : Int) :
    (cronLeader s now).current_term = s.current_term ∧
    ∃ aes, (cronLeader s now).sent = s.sent ++ aes ∧
      ∀ f ∈ aes, msgTerm f.2.data = s.current_term := by
  unfold cronLeader
  split
  · have h1 : (clusterUpdateCommitIndex s).current_term = s.current_term := by
      rw [clusterUpdateCommitIndex_eq]
    have h2 : (clusterUpdateCommitIndex s).sent = s.sent := by
      rw [clusterUpdateCommitIndex_eq]
    have h := cronHeartbeat_foldl_sent_term now (List.range s.nodes.length)
      (clusterUpdateCommitIndex s)
    rw [h1, h2] at h
    exact h
  · exact ⟨rfl, [], by simp, by simp⟩

theorem cronElection_sent_term (s : ClusterState) (now election_timeout : Int) :
    ∃ rvs, (cronElection s now election_timeout).sent = s.sent ++ rvs ∧
      ∀ f ∈ rvs, msgTerm f.2.data = (cronElection s now election_timeout).current_term := by
  by_cases hf : s.state ≠ .leader ∧ now - s.last_activity_time > election_timeout
  · have h := cronElection_fires s now election_timeout hf
    refine ⟨_, by rw [h], ?_⟩
    intro f hm
    have hct : (cronElection s now election_timeout).current_term = s.current_term + 1 := by
      rw [h]
    rw [hct]
    unfold broadcastFrames at hm
    simp only [List.mem_filterMap] at hm
    obtain ⟨p, _, hp⟩ := hm
    split at hp
    · exact absurd hp (by simp)
    · split at hp
      · exact absurd hp (by simp)
      · simp only [Option.some.injEq] at hp
        subst hp
        rfl
  · have h : cronElection s now election_timeout = s := by
      unfold cronElection
      rw [if_neg hf]
    rw [h]
    exact ⟨[], by simp, by simp⟩

theorem clusterCron_sent_term (s s1 : ClusterState) (now rnd : Int)
    (connect : Nat → Option Int) (h : clusterCron s now rnd connect = some s1) :
    ∃ new, s1.sent = s.sent ++ new ∧ ∀ f ∈ new, msgTerm f.2.data = s1.current_term := by
  by_cases he : s.election_timeout = 0
  · rw [clusterCron_eq_none s now rnd connect he] at h
    exact absurd h (by simp)
  · rw [clusterCron_eq_some s now rnd connect he] at h
    simp only [Option.some.injEq] at h
    subst h
    have hsp : (cronPrepared s now connect).sent = s.sent := by rw [cronPrepared_eq]
    obtain ⟨rvs, e1, e2⟩ := cronElection_sent_term (cronPrepared s now connect) now
      (s.election_timeout + Int.tmod rnd s.election_timeout)
    generalize cronElection (cronPrepared s now connect) now
      (s.election_timeout + Int.tmod rnd s.election_timeout) = se at e1 e2
    have hc := cronCandidate_eq se
    have hcs : (cronCandidate se).sent = se.sent := by rw [hc]
    have hct : (cronCandidate se).current_term = se.current_term := by rw [hc]
    obtain ⟨t3, aes, e3, e4⟩ := cronLeader_sent_term (cronCandidate se) now
    refine ⟨rvs ++ aes, ?_, ?_⟩
    · rw [e3, hcs, e1, hsp, List.append_assoc]
    · intro f hf
      rw [t3, hct]
      rcases List.mem_append.mp hf with h | h
      · exact e2 f h
      · rw [e4 f h, hct]

/-- Every frame a step queues carries the term the node has after the step:
no step changes `current_term` after it has queued a frame. -/
theorem step_sent_term (s s1 : ClusterState) (e : Event) (h : step s e = some s1) :
    ∃ new, s1.sent = s.sent ++ new ∧ ∀ f ∈ new, msgTerm f.2.data = s1.current_term := by
  cases e with
  | requestVote link vote now =>
    simp only [step, Option.some.injEq] at h
    subst h
    obtain ⟨_, _, _, _, g, m, hs, hd, _⟩ := clusterProcessRequestVote_effect s link vote now
    refine ⟨[(link, m)], hs, ?_⟩
    intro f hf
    simp only [List.mem_singleton] at hf
    subst hf
    rw [hd]
    rfl
  | responseVote link vote =>
    simp only [step, Option.some.injEq] at h
    subst h
    refine ⟨[], ?_, by simp⟩
    unfold clusterProcessResponseVote
    split_ifs <;> simp
  | appendEntries link entries now =>
    simp only [step, Option.some.injEq] at h
    subst h
    obtain ⟨m, hs, hd⟩ := clusterProcessAppendEntries_sent_term s link entries now
    refine ⟨[(link, m)], hs, ?_⟩
    intro f hf
    simp only [List.mem_singleton] at hf
    subst hf
    exact hd
  | responseAppendEntries link entries =>
    simp only [step] at h
    obtain ⟨_, _, _, hs, _⟩ := clusterProcessResponseAppendEntries_effect s s1 link entries h
    exact ⟨[], by simp [hs], by simp⟩
  | cron now rnd connect =>
    simp only [step] at h
    exact clusterCron_sent_term s s1 now rnd connect h

/-- Along a run, every frame queued after a state carries a term that is at
least the `current_term` of that state and at most the one of the last
state. -/
theorem run_sent_term (es : List Event) :
    ∀ (s : ClusterState) (tr : List ClusterState) (last : ClusterState),
      run s es = some tr → tr.getLast? = some last →
      s.current_term ≤ last.current_term ∧
      ∃ new, last.sent = s.sent ++ new ∧
        ∀ f ∈ new, s.current_term ≤ msgTerm f.2.data ∧
          msgTerm f.2.data ≤ last.current_term := by
  induction es with
  | nil =>
    intro s tr last h hl
    simp only [run, Option.some.injEq] at h
    subst h
    simp only [List.getLast?_singleton, Option.some.injEq] at hl
    subst hl
    exact ⟨le_refl _, [], by simp, by simp⟩
  | cons e es ih =>
    intro s tr last h hl
    simp only [run] at h
    split at h
    · exact absurd h (by simp)
    · next s1 hs1 =>
      split at h
      · exact absurd h (by simp)
      · next tr1 htr1 =>
        simp only [Option.some.injEq] at h
        subst h
        obtain ⟨rest, hrest⟩ := run_head s1 es tr1 htr1
        have hl1 : tr1.getLast? = some last := by
          rw [hrest] at hl ⊢
          simpa [List.getLast?_cons_cons] using hl
        obtain ⟨ht, new2, e2, p2⟩ := ih s1 tr1 last htr1 hl1
        obtain ⟨new1, e1, p1⟩ := step_sent_term s s1 e hs1
        have hst := step_current_term s s1 e hs1
        refine ⟨le_trans hst ht, new1 ++ new2, ?_, ?_⟩
        · rw [e2, e1, List.append_assoc]
        · intro f hf
          rcases List.mem_append.mp hf with h | h
          · rw [p1 f h]
            exact ⟨hst, ht⟩
          · exact ⟨le_trans hst (p2 f h).1, (p2 f h).2⟩

/-- Claim C22: each of the four senders queues frames whose term field is the
node's `current_term` at that moment (for RequestVote the term already
incremented by `clusterSendRequestVote`); hence along any run, every frame
queued after a state in which `current_term` was `T` carries a term of at
least `T`. -/
theorem outbound_term (s : ClusterState) (link : ClusterLink) (granted ok : Bool)
    (es : List Event) (tr : List ClusterState) (last : ClusterState)
    (h : run s es = some tr) (hl : tr.getLast? = some last) :
    (∃ rvs, (clusterSendRequestVote s).sent = s.sent ++ rvs ∧
      ∀ f ∈ rvs, ∃ v, f.2.data = ClusterMsgData.requestvote v ∧
        v.term = (clusterSendRequestVote s).current_term) ∧
    (∃ m, (clusterSendResponseVote s link granted).sent = s.sent ++ [(link, m)] ∧
      ∃ v, m.data = ClusterMsgData.responsevote v ∧ v.term = s.current_term) ∧
    (∃ m, (clusterSendResponseAppendEntries s link ok).sent = s.sent ++ [(link, m)] ∧
      ∃ e, m.data = ClusterMsgData.responseappendentries e ∧ e.term = s.current_term) ∧
    (∀ s1, clusterSendAppendEntries s link = some s1 →
      ∃ m, s1.sent = s.sent ++ [(link, m)] ∧
        ∃ e, m.data = ClusterMsgData.appendentries e ∧ e.term = s.current_term) ∧
    (∃ new, last.sent = s.sent ++ new ∧
      ∀ f ∈ new, s.current_term ≤ msgTerm f.2.data) := by
  refine ⟨?_, ?_, ?_, ?_, ?_⟩
  · refine ⟨broadcastFrames s.nodes.enum
      { sender := myselfName s, port := s.port,
        data := .requestvote
          { term := s.current_term + 1, candidateid := myselfName s,
            last_log_index := logCurrentIndex s, last_log_term := logCurrentTerm s } },
      ?_, ?_⟩
    · unfold clusterSendRequestVote
      simp only
      rw [clusterBroadcastMessage_sent]
      rfl
    · intro f hm
      have hct : (clusterSendRequestVote s).current_term = s.current_term + 1 := by
        rw [clusterSendRequestVote_eq]
      rw [hct]
      unfold broadcastFrames at hm
      simp only [List.mem_filterMap] at hm
      obtain ⟨p, _, hp⟩ := hm
      split at hp
      · exact absurd hp (by simp)
      · split at hp
        · exact absurd hp (by simp)
        · simp only [Option.some.injEq] at hp
          subst hp
          exact ⟨_, rfl, rfl⟩
  · exact ⟨_, rfl, _, rfl, rfl⟩
  · exact ⟨_, rfl, _, rfl, rfl⟩
  · intro s1 h1
    unfold clusterSendAppendEntries at h1
    split at h1
    · exact absurd h1 (by simp)
    · simp only [Option.some.injEq] at h1
      subst h1
      exact ⟨_, rfl, _, rfl, rfl⟩
  · obtain ⟨_, new, e1, p1⟩ := run_sent_term es s tr last h hl
    exact ⟨new, e1, fun f hf => (p1 f hf).1⟩

set_option maxRecDepth 100000 in
/-- The hypotheses of claim C22 at node `A` of the roster `A, B, C` and the run
made of its tick at time 1000: the RequestVotes it queues carry a term of at
least the term 0 it starts with. -/
theorem outbound_term_witness :
    run (exStart 0 "A") [.cron 1000 7 (fun j => some (j : Int))] =
      some [exStart 0 "A", exA1] ∧
    ∃ new, exA1.sent = (exStart 0 "A").sent ++ new ∧
      ∀ f ∈ new, (exStart 0 "A").current_term ≤ msgTerm f.2.data :=
  ⟨rfl, (outbound_term (exStart 0 "A") exLink true true
    [.cron 1000 7 (fun j => some (j : Int))] [exStart 0 "A", exA1] exA1 rfl rfl).2.2.2.2⟩

theorem appendEntriesAdopt_last_activity_time (s : ClusterState) (entries : AppendEntries)
    (now : Int) : (appendEntriesAdopt s entries now).last_activity_time = now := by
  unfold appendEntriesAdopt
  simp only
  split
  · split <;> rfl
  · rfl

/-- Claim C29: `last_activity_time` is written only when a vote is granted (to `now`),
when an AppendEntries whose term is not stale is handled (to `now`), and when
the tick starts an election (to `now`).  A denied RequestVote, also one that
makes the node adopt a newer term, any RequestVoteResponse, any
AppendEntriesResponse, an AppendEntries of a stale term, a tick without
election, a client command and the commit index update leave it
unchanged. -/
theorem last_activity_time_events (s : ClusterState) (link : ClusterLink) (vote : RequestVote)
    (rvote : ResponseVote) (entries : AppendEntries) (rentries : ResponseAppendEntries)
    (now rnd : Int) (connect : Nat → Option Int) (c : PrezClient) :
    (∃ granted : Bool, ∃ m : ClusterMsg,
      (clusterProcessRequestVote s link vote now).sent = s.sent ++ [(link, m)] ∧
      m.data = .responsevote
        { term := (clusterProcessRequestVote s link vote now).current_term,
          vote_granted := granted } ∧
      (clusterProcessRequestVote s link vote now).last_activity_time =
        if granted then now else s.last_activity_time) ∧
    (clusterProcessResponseVote s link rvote).last_activity_time = s.last_activity_time ∧
    (match clusterProcessResponseAppendEntries s link rentries with
     | some s1 => s1.last_activity_time = s.last_activity_time
     | none => linkNode s link = none) ∧
    (entries.term < s.current_term →
      (clusterProcessAppendEntries s link entries now).last_activity_time =
        s.last_activity_time) ∧
    (¬ entries.term < s.current_term →
      (clusterProcessAppendEntries s link entries now).last_activity_time = now) ∧
    (match clusterCron s now rnd connect with
     | none => s.election_timeout = 0
     | some s1 =>
       (s.state ≠ .leader ∧
         now - s.last_activity_time > s.election_timeout + Int.tmod rnd s.election_timeout →
         s1.last_activity_time = now) ∧
       (¬ (s.state ≠ .leader ∧
           now - s.last_activity_time >
             s.election_timeout + Int.tmod rnd s.election_timeout) →
         s1.last_activity_time = s.last_activity_time)) ∧
    (clusterProcessCommand s c).last_activity_time = s.last_activity_time ∧
    (clusterUpdateCommitIndex s).last_activity_time = s.last_activity_time := by
  refine ⟨?_, ?_, ?_, ?_, ?_, ?_, ?_, ?_⟩
  · obtain ⟨c1, c2, c3⟩ := clusterProcessRequestVote_cases s link vote now
    obtain ⟨f1, f2, _, _⟩ := requestVoteAdopt_frame s vote
    by_cases hp : ¬ vote.term < s.current_term ∧
        (vote.term > s.current_term ∨
          ¬ (s.voted_for.length > 0 ∧ s.voted_for ≠ vote.candidateid))
    · by_cases hlog : logCurrentIndex s > vote.last_log_index ∨
          logCurrentTerm s > vote.last_log_term
      · rw [c2 hp.1 hp.2 hlog]
        refine ⟨false, clusterBuildMessageHdr (requestVoteAdopt s vote)
          (.responsevote { term := (requestVoteAdopt s vote).current_term,
                           vote_granted := false }), ?_, rfl, ?_⟩
        · simp only [clusterSendResponseVote, clusterSendMessage, f1]
        · simp only [clusterSendResponseVote, clusterSendMessage, f2, Bool.false_eq_true,
            if_false]
      · rw [c3 hp.1 hp.2 hlog]
        refine ⟨true, clusterBuildMessageHdr
          { requestVoteAdopt s vote with voted_for := vote.candidateid }
          (.responsevote { term := (requestVoteAdopt s vote).current_term,
                           vote_granted := true }), ?_, rfl, ?_⟩
        · simp only [clusterSendResponseVote, clusterSendMessage, f1]
        · simp only [if_true]
    · rw [c1 hp]
      exact ⟨false, clusterBuildMessageHdr s
        (.responsevote { term := s.current_term, vote_granted := false }), rfl, rfl, rfl⟩
  · unfold clusterProcessResponseVote
    split_ifs <;> rfl
  · rcases hr : clusterProcessResponseAppendEntries s link rentries with _ | s1
    · exact responseAppendEntries_none_linkNode s link rentries hr
    · show s1.last_activity_time = s.last_activity_time
      unfold clusterProcessResponseAppendEntries at hr
      split at hr
      · split at hr
        · exact absurd hr (by simp)
        · split at hr <;>
          · simp only [Option.some.injEq] at hr
            subst hr
            rfl
      · split at hr
        · simp only [Option.some.injEq] at hr
          subst hr
          rfl
        · split at hr
          · exact absurd hr (by simp)
          · simp only [Option.some.injEq] at hr
            subst hr
            rfl
  · intro hst
    unfold clusterProcessAppendEntries
    rw [if_pos hst]
    rfl
  · intro hst
    rw [(appendEntries_after_adopt s link entries now hst).2.2.2.2.1]
    exact appendEntriesAdopt_last_activity_time s entries now
  · by_cases he : s.election_timeout = 0
    · rw [clusterCron_eq_none s now rnd connect he]
      exact he
    · rw [clusterCron_eq_some s now rnd connect he]
      have hsp := cronPrepared_eq s now connect
      have hst : (cronPrepared s now connect).state = s.state := by rw [hsp]
      have hla : (cronPrepared s now connect).last_activity_time = s.last_activity_time := by
        rw [hsp]
      refine ⟨fun hf => ?_, fun hf => ?_⟩
      · have hf1 : (cronPrepared s now connect).state ≠ .leader ∧
            now - (cronPrepared s now connect).last_activity_time >
              s.election_timeout + Int.tmod rnd s.election_timeout := by
          rw [hst, hla]
          exact hf
        rw [(cronLeader_cronCandidate_frame _ now).2.2.2, cronElection_fires _ now _ hf1]
      · have hf1 : ¬ ((cronPrepared s now connect).state ≠ .leader ∧
            now - (cronPrepared s now connect).last_activity_time >
              s.election_timeout + Int.tmod rnd s.election_timeout) := by
          rw [hst, hla]
          exact hf
        have hel : cronElection (cronPrepared s now connect) now
            (s.election_timeout + Int.tmod rnd s.election_timeout) =
              cronPrepared s now connect := by
          unfold cronElection
          rw [if_neg hf1]
        rw [hel, (cronLeader_cronCandidate_frame _ now).2.2.2, hla]
  · by_cases hn : s.nodes.length = 1
    · rw [(clusterProcessCommand_effect s c).1 hn]
    · rw [(clusterProcessCommand_effect s c).2 hn]
  · rw [clusterUpdateCommitIndex_eq]

set_option maxRecDepth 100000 in
/-- Claim C29 at concrete frames: the RequestVote `exVoteNewer` makes `exLongLog`
adopt term 3 and is denied, and the clock stays at 0; the grant of `exVoteB`
at time 5 sets it to 5. -/
theorem last_activity_time_events_witness :
    (clusterProcessRequestVote exLongLog exLink exVoteNewer 9).current_term = 3 ∧
    (clusterProcessRequestVote exLongLog exLink exVoteNewer 9).last_activity_time =
      exLongLog.last_activity_time ∧
    exGranted.last_activity_time = 5 ∧
    (clusterProcessResponseVote exLongLog exLink { term := 7, vote_granted := true }
      ).last_activity_time = exLongLog.last_activity_time :=
  ⟨by decide, by decide, by decide,
    (last_activity_time_events exLongLog exLink exVoteNewer { term := 7, vote_granted := true }
      exHeartbeat { term := 0, index := 0, commit_index := 0, ok := false } 9 7
      (fun _ => none) exClient).2.1⟩

/-! ## The AppendEntries a leader builds -/

theorem dropWhile_contiguous (log : List LogEntry) :
    ∀ (off : Int), (∀ (k : Nat) (e : LogEntry), log[k]? = some e →
        e.index = (k : Int) + 1 + off) →
      ∀ (n : Nat), n < log.length →
        log.dropWhile (fun e => e.index != (n : Int) + 1 + off) = log.drop n := by
  induction log with
  | nil =>
    intro off _ n hn
    simp at hn
  | cons a l ih =>
    intro off h n hn
    have ha : a.index = 1 + off := by
      have := h 0 a (by simp)
      simpa using this
    rw [List.dropWhile_cons]
    cases n with
    | zero =>
      have hp : ¬ ((a.index != ((0 : Nat) : Int) + 1 + off) = true) := by
        simp [ha]
      rw [if_neg hp]
      rfl
    | succ m =>
      have hp : (a.index != ((m + 1 : Nat) : Int) + 1 + off) = true := by
        simp only [bne_iff_ne, ne_eq, ha, Nat.cast_add, Nat.cast_one]
        omega
      rw [if_pos hp, List.drop_succ_cons]
      have hl : ∀ (k : Nat) (e : LogEntry), l[k]? = some e →
          e.index = (k : Int) + 1 + (off + 1) := by
        intro k e hk
        have := h (k + 1) e (by simpa using hk)
        simp only [Nat.cast_add, Nat.cast_one] at this
        omega
      have h1 := ih (off + 1) hl m (by simpa using hn)
      have h2 : ((m + 1 : Nat) : Int) + 1 + off = (m : Int) + 1 + (off + 1) := by
        simp only [Nat.cast_add, Nat.cast_one]
        omega
      rw [h2]
      exact h1

/-- The entries `clusterSendAppendEntries` copies, for a contiguous log and a
cursor of at least 1: position by position, the entries of the log from the
cursor on, as many as `count` says. -/
theorem entriesToSend_contiguous (s : ClusterState) (ni : Int) (h : logContiguous s.log_entries)
    (hni : 1 ≤ ni) (k : Nat) :
    (entriesToSend s ni)[k]? =
      if (k : Int) < min (logCurrentIndex s) (ni + s.log_max_entries_per_request - 1) - ni + 1
      then s.log_entries[(ni - 1).toNat + k]? else none := by
  have hcur : logCurrentIndex s = (s.log_entries.length : Int) :=
    logContiguous_lastIndex _ h
  unfold entriesToSend
  by_cases hge : logCurrentIndex s ≥ ni
  · rw [if_pos hge]
    have hd : getLogNode s ni = s.log_entries.drop (ni - 1).toNat := by
      unfold getLogNode
      have h0 : ∀ (k : Nat) (e : LogEntry), s.log_entries[k]? = some e →
          e.index = (k : Int) + 1 + 0 := by
        intro k e hk
        rw [h k e hk]
        omega
      have h1 := dropWhile_contiguous s.log_entries 0 h0 (ni - 1).toNat (by omega)
      have h2 : (((ni - 1).toNat : Nat) : Int) + 1 + 0 = ni := by omega
      rw [h2] at h1
      exact h1
    rw [hd, List.getElem?_take, List.getElem?_drop]
    by_cases hk : (k : Int) <
        min (logCurrentIndex s) (ni + s.log_max_entries_per_request - 1) - ni + 1
    · rw [if_pos hk, if_pos]
      have := min_le_right (logCurrentIndex s) (ni + s.log_max_entries_per_request - 1)
      omega
    · rw [if_neg hk]
      by_cases hm : k < s.log_max_entries_per_request.toNat
      · rw [if_pos hm]
        apply List.getElem?_eq_none
        rcases min_choice (logCurrentIndex s) (ni + s.log_max_entries_per_request - 1)
          with hc | hc
        · rw [hc] at hk
          omega
        · rw [hc] at hk
          omega
      · rw [if_neg hm]
  · rw [if_neg hge, if_neg]
    · rfl
    · have := min_le_left (logCurrentIndex s) (ni + s.log_max_entries_per_request - 1)
      omega

theorem length_of_getElem? {α : Type} (l : List α) (n : Nat)
    (h1 : ∀ k, k < n → l[k]? ≠ none) (h2 : l[n]? = none) : l.length = n := by
  have ha : l.length ≤ n := by
    rcases Nat.lt_or_ge n l.length with h | h
    · rw [List.getElem?_eq_getElem h] at h2
      exact absurd h2 (by simp)
    · exact h
  rcases Nat.lt_or_ge l.length n with h | h
  · exact absurd (List.getElem?_eq_none (le_refl _)) (h1 l.length h)
  · omega

/-- Claim C25: for a link bound to a roster node with `next_index ≥ 1` (and a log
with contiguous indices), `clusterSendAppendEntries` queues one AppendEntries
with `prev_log_index = next_index - 1`, `prev_log_term` the term at that
index, `leader_commit_index = commit_index`, and exactly the log entries of
indices `next_index, …, min(log.current_index, next_index +
log_max_entries_per_request - 1)` in order, none when `next_index` is above
`log.current_index`; the count written is their number; afterwards the
node's `last_sent_entry` is the last entry carried, or null. -/
theorem sendAppendEntries_frame (s : ClusterState) (link : ClusterLink) (i : Nat)
    (node : ClusterNode) (L : MsgLayout) (hl : linkNode s link = some (i, node))
    (hni : 1 ≤ node.next_index) (hlog : logContiguous s.log_entries) :
    ∃ (s1 : ClusterState) (ae : AppendEntries), clusterSendAppendEntries s link = some s1 ∧
      s1.sent = s.sent ++
        [(link, { sender := myselfName s, port := s.port, data := .appendentries ae })] ∧
      ae.term = s.current_term ∧
      ae.prev_log_index = node.next_index - 1 ∧
      ae.prev_log_term = logGetTerm s (node.next_index - 1) ∧
      ae.leader_commit_index = s.commit_index ∧
      (∀ k : Nat, ae.log_entries[k]? =
        if (k : Int) < min (logCurrentIndex s)
            (node.next_index + s.log_max_entries_per_request - 1) - node.next_index + 1
        then s.log_entries[(node.next_index - 1).toNat + k]? else none) ∧
      (∀ (k : Nat) (e : LogEntry), ae.log_entries[k]? = some e →
        e.index = node.next_index + k ∧
        e.index ≤ min (logCurrentIndex s)
          (node.next_index + s.log_max_entries_per_request - 1)) ∧
      (ae.log_entries.length : Int) =
        max 0 (min (logCurrentIndex s)
          (node.next_index + s.log_max_entries_per_request - 1) - node.next_index + 1) ∧
      (node.next_index > logCurrentIndex s → ae.log_entries = []) ∧
      (ae.log_entries.length < 2 ^ 16 →
        (wireFrame L { sender := myselfName s, port := s.port,
                       data := .appendentries ae }).log_entries_count =
          ae.log_entries.length) ∧
      s1.nodes[i]? = some { node with last_sent_entry := ae.log_entries.getLast? } := by
  have hn := linkNode_some s link i node hl
  have hi := getElem?_some_lt s.nodes i node hn
  have hcur : logCurrentIndex s = (s.log_entries.length : Int) :=
    logContiguous_lastIndex _ hlog
  have hget := entriesToSend_contiguous s node.next_index hlog hni
  have hidx : ∀ (k : Nat) (e : LogEntry), (entriesToSend s node.next_index)[k]? = some e →
      e.index = node.next_index + k ∧
      e.index ≤ min (logCurrentIndex s)
        (node.next_index + s.log_max_entries_per_request - 1) := by
    intro k e hk
    rw [hget k] at hk
    split at hk
    · next hlt =>
      have h1 := hlog _ e hk
      simp only [Nat.cast_add] at h1
      omega
    · exact absurd hk (by simp)
  have hlen : ((entriesToSend s node.next_index).length : Int) =
      max 0 (min (logCurrentIndex s)
        (node.next_index + s.log_max_entries_per_request - 1) - node.next_index + 1) := by
    have hmin := min_le_left (logCurrentIndex s)
      (node.next_index + s.log_max_entries_per_request - 1)
    have h1 := length_of_getElem? (entriesToSend s node.next_index)
      (min (logCurrentIndex s)
        (node.next_index + s.log_max_entries_per_request - 1) - node.next_index + 1).toNat
      (by
        intro k hk
        rw [hget k, if_pos (by omega)]
        have hlt : (node.next_index - 1).toNat + k < s.log_entries.length := by omega
        rw [List.getElem?_eq_getElem hlt]
        simp)
      (by
        rw [hget, if_neg (by omega)])
    rw [h1]
    omega
  refine ⟨clusterSendAppendEntriesTo s link i node,
    { term := s.current_term, leaderid := myselfName s,
      prev_log_index := node.next_index - 1,
      prev_log_term := logGetTerm s (node.next_index - 1),
      leader_commit_index := s.commit_index,
      log_entries := entriesToSend s node.next_index }, ?_, rfl, rfl, rfl, rfl, rfl,
    hget, hidx, hlen, ?_, ?_, ?_⟩
  · unfold clusterSendAppendEntries
    rw [hl]
  · intro hgt
    unfold entriesToSend
    rw [if_neg (by omega)]
  · intro hlt
    show uint16 ((entriesToSend s node.next_index).length : Int) = _
    unfold uint16
    have h2 : ((entriesToSend s node.next_index).length : Int) % 2 ^ 16 =
        ((entriesToSend s node.next_index).length : Int) := by
      apply Int.emod_eq_of_lt
      · exact Int.ofNat_nonneg _
      · exact_mod_cast hlt
    rw [h2]
    rfl
  · simp only [clusterSendAppendEntriesTo, clusterSendMessage, List.getElem?_set, hi, if_true]

theorem exLeader_contiguous : logContiguous exLeader.log_entries := by
  intro k e hk
  match k with
  | 0 =>
    simp only [exLeader, List.getElem?_cons_zero, Option.some.injEq] at hk
    subst hk
    rfl
  | k + 1 =>
    simp [exLeader] at hk

set_option maxRecDepth 100000 in
/-- The hypotheses of claim C25 at the leader `exLeader` and its link to `"C"`, whose
cursor is 1: the frame carries entry 1, with `prev_log_index = 0`. -/
theorem sendAppendEntries_frame_witness :
    linkNode exLeader exLinkC = some (2, exLeader.nodes.getD 2 (exNode "C" false)) ∧
    1 ≤ (exLeader.nodes.getD 2 (exNode "C" false)).next_index ∧
    ∃ (s1 : ClusterState) (ae : AppendEntries),
      clusterSendAppendEntries exLeader exLinkC = some s1 ∧
      s1.sent = exLeader.sent ++
        [(exLinkC, { sender := myselfName exLeader, port := exLeader.port,
                     data := .appendentries ae })] ∧
      ae.prev_log_index = 0 ∧ (ae.log_entries.length : Int) = 1 := by
  obtain ⟨s1, ae, h1, h2, _, h4, _, _, _, _, h9, _⟩ :=
    sendAppendEntries_frame exLeader exLinkC 2 (exLeader.nodes.getD 2 (exNode "C" false))
      exLayout rfl (by decide) exLeader_contiguous
  refine ⟨rfl, by decide, s1, ae, h1, h2, ?_, ?_⟩
  · rw [h4]
    decide
  · rw [h9]
    decide

/-! ## Frames that are rejected and frames that are dispatched -/

/-- Function `clusterProcessPacket` by cases: a frame that fails a check only
increments the counter of received frames; a frame that passes them all is
handed to the handler of its tag. -/
theorem clusterProcessPacket_cases (L : MsgLayout) (s : ClusterState) (link : ClusterLink)
    (f : ClusterFrame) (rcvbuflen : Nat) (now : Int) :
    ((f.totlen < 16 ∨ f.ver ≠ 0 ∨ f.totlen > rcvbuflen ∨ expectedLen L f ≠ some f.totlen) →
      clusterProcessPacket L s link f rcvbuflen now =
        some (1, { s with stats_bus_messages_received :=
                            s.stats_bus_messages_received + 1 })) ∧
    (¬ (f.totlen < 16 ∨ f.ver ≠ 0 ∨ f.totlen > rcvbuflen ∨
        expectedLen L f ≠ some f.totlen) →
      clusterProcessPacket L s link f rcvbuflen now =
        dispatchFrame L
          { s with stats_bus_messages_received := s.stats_bus_messages_received + 1 }
          link f now) := by
  unfold clusterProcessPacket expectedLen dispatchFrame
  simp only
  by_cases h1 : f.totlen < 16
  · simp only [h1, true_or, if_true, forall_true_left, not_true_eq_false, false_implies,
      and_self]
  · by_cases h2 : f.ver ≠ 0
    · simp only [h1, h2, true_or, or_true, if_true, if_false, forall_true_left,
        not_true_eq_false, false_implies, and_self, ne_eq, not_false_eq_true]
    · by_cases h3 : f.totlen > rcvbuflen
      · simp only [h1, h2, h3, true_or, or_true, if_true, if_false, forall_true_left,
          not_true_eq_false, false_implies, and_self]
      · rw [if_neg h1, if_neg h2, if_neg h3]
        simp only [h1, h2, h3, false_or]
        by_cases t1 : f.type = L.typeVoteRequest
        · simp only [t1, if_true, Option.some.injEq]
          by_cases e1 : f.totlen = uint32 ((L.hdrLen : Int) + (L.szRequestVote : Int))
          · simp [← e1]
          · have e2 : ¬ uint32 ((L.hdrLen : Int) + (L.szRequestVote : Int)) = f.totlen :=
              fun h => e1 h.symm
            simp [e1, e2]
        · simp only [t1, if_false]
          by_cases t2 : f.type = L.typeAppendEntries
          · simp only [t2, if_true, Option.some.injEq]
            by_cases e1 : f.totlen = appendEntriesExplen L f.log_entries_count
            · simp [← e1]
            · have e2 : ¬ appendEntriesExplen L f.log_entries_count = f.totlen :=
                fun h => e1 h.symm
              simp [e1, e2]
          · simp only [t2, if_false]
            by_cases t3 : f.type = L.typeVoteRequestResp
            · simp only [t3, if_true, Option.some.injEq]
              by_cases e1 : f.totlen = uint32 ((L.hdrLen : Int) + (L.szResponseVote : Int))
              · simp [← e1]
              · have e2 : ¬ uint32 ((L.hdrLen : Int) + (L.szResponseVote : Int)) = f.totlen :=
                  fun h => e1 h.symm
                simp [e1, e2]
            · simp only [t3, if_false]
              by_cases t4 : f.type = L.typeAppendEntriesResp
              · simp only [t4, if_true, Option.some.injEq]
                by_cases e1 : f.totlen =
                    uint32 ((L.hdrLen : Int) + (L.szResponseAppendEntries : Int))
                · simp [← e1]
                · have e2 : ¬ uint32 ((L.hdrLen : Int) + (L.szResponseAppendEntries : Int)) =
                      f.totlen := fun h => e1 h.symm
                  simp [e1, e2]
              · simp [t4]

/-- Claim C27: for every frame `clusterProcessPacket` rejects (total length below 16,
version not 0, total length above the length of the receive buffer, total
length different from the expected length of its tag, or a tag that is none
of the four), the function returns with the counter of received frames
incremented and nothing else changed: no handler runs, no reply is queued, and
`current_term`, the role, `voted_for`, `leader`, `votes_granted`,
`commit_index`, `last_activity_time`, the log and the `nodes` table are as
before. -/
theorem processPacket_reject (L : MsgLayout) (s : ClusterState) (link : ClusterLink)
    (f : ClusterFrame) (rcvbuflen : Nat) (now : Int)
    (h : f.totlen < 16 ∨ f.ver ≠ 0 ∨ f.totlen > rcvbuflen ∨
      expectedLen L f ≠ some f.totlen) :
    ∃ s1, clusterProcessPacket L s link f rcvbuflen now = some (1, s1) ∧
      s1 = { s with stats_bus_messages_received := s.stats_bus_messages_received + 1 } ∧
      s1.current_term = s.current_term ∧ s1.state = s.state ∧
      s1.voted_for = s.voted_for ∧ s1.leader = s.leader ∧
      s1.votes_granted = s.votes_granted ∧ s1.commit_index = s.commit_index ∧
      s1.last_activity_time = s.last_activity_time ∧ s1.log_entries = s.log_entries ∧
      s1.nodes = s.nodes ∧ s1.sent = s.sent :=
  ⟨_, (clusterProcessPacket_cases L s link f rcvbuflen now).1 h, rfl, rfl, rfl, rfl, rfl, rfl,
    rfl, rfl, rfl, rfl, rfl⟩

set_option maxRecDepth 100000 in
/-- The hypothesis of claim C27 at the frame `exBadVersion`, whose version is 1:
the follower that receives it keeps the term 0 and has voted for no one. -/
theorem processPacket_reject_witness :
    exBadVersion.ver ≠ 0 ∧
    ∃ s1, clusterProcessPacket exLayout (exStart 1 "B") exLink exBadVersion
        exBadVersion.totlen 7 = some (1, s1) ∧
      s1.current_term = (exStart 1 "B").current_term ∧
      s1.voted_for = (exStart 1 "B").voted_for := by
  obtain ⟨s1, h1, _, h3, _, h5, _⟩ :=
    processPacket_reject exLayout (exStart 1 "B") exLink exBadVersion exBadVersion.totlen 7
      (Or.inr (Or.inl (by decide)))
  exact ⟨by decide, s1, h1, h3, h5⟩

set_option maxRecDepth 100000 in
/-- Claim C21, counterexample: the frame `exBadVersion` has the signature `RCmb`, a
total length above `CLUSTERMSG_MIN_LEN` and the version 1, so it fails the
version check; `clusterReadHandler` returns with the link still valid. -/
theorem bad_version_keeps_link :
    exBadVersion.sig = "RCmb" ∧ exBadVersion.ver ≠ 0 ∧
    ∃ s1, clusterReadHandler exLayout (exStart 1 "B") exLink exBadVersion 7 =
      some (true, s1) :=
  ⟨by decide, by decide, _, rfl⟩

/-- What `freeClusterLink` does to the state: the node the link is bound to loses
its link, and nothing else changes. -/
theorem freeClusterLink_effect (s : ClusterState) (link : ClusterLink) :
    freeClusterLink s link = { s with nodes := (freeClusterLink s link).nodes } ∧
    (linkNode s link = none → freeClusterLink s link = s) ∧
    (∀ (i : Nat) (node : ClusterNode), linkNode s link = some (i, node) →
      (freeClusterLink s link).nodes[i]? = some { node with link := none } ∧
      ∀ j, j ≠ i → (freeClusterLink s link).nodes[j]? = s.nodes[j]?) := by
  unfold freeClusterLink
  rcases hl : linkNode s link with _ | ⟨i, node⟩
  · exact ⟨rfl, fun _ => rfl, fun i node h => absurd h (by simp)⟩
  · refine ⟨rfl, fun h => absurd h (by simp), ?_⟩
    intro i1 node1 h
    simp only [Option.some.injEq, Prod.mk.injEq] at h
    obtain ⟨rfl, rfl⟩ := h
    have hi := getElem?_some_lt s.nodes i node (linkNode_some s link i node hl)
    refine ⟨?_, ?_⟩
    · simp only [List.getElem?_set, hi, if_true]
    · intro j hj
      simp only [List.getElem?_set]
      rw [if_neg (fun h => hj h.symm)]

/-- Claim C21, amended: a received frame whose total length is not 8 and whose
signature is not `RCmb` or whose total length is below `CLUSTERMSG_MIN_LEN`
makes `clusterReadHandler` free the link: the node the link is bound to, if
any, loses its link, and nothing else in the state changes.  A frame whose
total length is exactly 8 is handed to `clusterProcessPacket` before the
signature is looked at and is discarded there, the link kept.  A longer
frame that passes the two checks and fails a check of `clusterProcessPacket`
(total length below 16, version not 0, total length different from the
expected length of its tag, or a tag that is none of the four) is discarded
too: no handler runs, only the counter of received frames changes, and the
link stays valid.  A frame shorter than 8 bytes that passes the two checks
is never processed, and the link stays valid. -/
theorem readHandler_bad_frame (L : MsgLayout) (s : ClusterState) (link : ClusterLink)
    (f : ClusterFrame) (now : Int) :
    (f.totlen ≠ 8 → (f.sig ≠ "RCmb" ∨ f.totlen < L.minLen) →
      clusterReadHandler L s link f now = some (false, freeClusterLink s link) ∧
      freeClusterLink s link = { s with nodes := (freeClusterLink s link).nodes } ∧
      (linkNode s link = none → freeClusterLink s link = s) ∧
      (∀ (i : Nat) (node : ClusterNode), linkNode s link = some (i, node) →
        (freeClusterLink s link).nodes[i]? = some { node with link := none } ∧
        ∀ j, j ≠ i → (freeClusterLink s link).nodes[j]? = s.nodes[j]?)) ∧
    (f.totlen = 8 →
      clusterReadHandler L s link f now =
        some (true, { s with stats_bus_messages_received :=
                               s.stats_bus_messages_received + 1 })) ∧
    (8 < f.totlen → ¬ (f.sig ≠ "RCmb" ∨ f.totlen < L.minLen) →
      (f.totlen < 16 ∨ f.ver ≠ 0 ∨ expectedLen L f ≠ some f.totlen) →
      clusterReadHandler L s link f now =
        some (true, { s with stats_bus_messages_received :=
                               s.stats_bus_messages_received + 1 })) ∧
    (f.totlen < 8 → ¬ (f.sig ≠ "RCmb" ∨ f.totlen < L.minLen) →
      clusterReadHandler L s link f now = some (true, s)) := by
  refine ⟨fun h8 h => ⟨?_, freeClusterLink_effect s link⟩, fun h8 => ?_, fun h8 h1 h2 => ?_,
    fun h8 h1 => ?_⟩
  · unfold clusterReadHandler
    rw [if_neg h8, if_pos h]
  · have h3 : f.totlen < 16 ∨ f.ver ≠ 0 ∨ f.totlen > 8 ∨
        expectedLen L f ≠ some f.totlen := Or.inl (by omega)
    unfold clusterReadHandler
    rw [if_pos h8, (clusterProcessPacket_cases L s link f 8 now).1 h3]
    rfl
  · have h3 : f.totlen < 16 ∨ f.ver ≠ 0 ∨ f.totlen > f.totlen ∨
        expectedLen L f ≠ some f.totlen := by
      rcases h2 with h2 | h2 | h2
      · exact Or.inl h2
      · exact Or.inr (Or.inl h2)
      · exact Or.inr (Or.inr (Or.inr h2))
    unfold clusterReadHandler
    rw [if_neg (by omega), if_neg h1, if_neg (by omega),
      (clusterProcessPacket_cases L s link f f.totlen now).1 h3]
    rfl
  · unfold clusterReadHandler
    rw [if_neg (by omega), if_neg h1, if_pos h8]

set_option maxRecDepth 100000 in
/-- The amended claim C21 at three frames.  On the link of the leader `exLeader`
to `"B"`, the frame `exBadSignature` frees the link, and the record of `"B"`
loses its link.  The frame `exShortFrame`, 8 bytes with the same bad signature,
is discarded with the link kept.  The frame `exBadVersion` passes the checks
of the signature and of the minimum length, fails the version check, and is
discarded with the link kept. -/
theorem readHandler_bad_frame_witness :
    exBadSignature.totlen ≠ 8 ∧ exBadSignature.sig ≠ "RCmb" ∧
    clusterReadHandler exLayout exLeader exLinkB exBadSignature 7 =
      some (false, freeClusterLink exLeader exLinkB) ∧
    ((freeClusterLink exLeader exLinkB).nodes[1]?).map (fun n => n.link) = some none ∧
    (exLeader.nodes[1]?).map (fun n => n.link) = some (some 4) ∧
    exShortFrame.sig ≠ "RCmb" ∧
    clusterReadHandler exLayout exLeader exLinkB exShortFrame 7 =
      some (true, { exLeader with stats_bus_messages_received := 1 }) ∧
    ¬ (exBadVersion.sig ≠ "RCmb" ∨ exBadVersion.totlen < exLayout.minLen) ∧
    exBadVersion.ver ≠ 0 ∧
    clusterReadHandler exLayout (exStart 1 "B") exLink exBadVersion 7 =
      some (true, { exStart 1 "B" with stats_bus_messages_received := 1 }) :=
  ⟨by decide, by decide,
    ((readHandler_bad_frame exLayout exLeader exLinkB exBadSignature 7).1 (by decide)
      (Or.inl (by decide))).1,
    by decide, by decide, by decide,
    (readHandler_bad_frame exLayout exLeader exLinkB exShortFrame 7).2.1 rfl,
    by decide, by decide,
    (readHandler_bad_frame exLayout (exStart 1 "B") exLink exBadVersion 7).2.2.1 (by decide)
      (by decide) (Or.inr (Or.inl (by decide)))⟩

theorem uint16_of_lt (n : Nat) (h : n < 2 ^ 16) : uint16 (n : Int) = n := by
  unfold uint16
  have h2 : (n : Int) % 2 ^ 16 = (n : Int) := by
    apply Int.emod_eq_of_lt
    · exact Int.ofNat_nonneg _
    · exact_mod_cast h
  rw [h2]
  rfl

theorem uint32_of_lt (x : Int) (n : Nat) (hx : x = (n : Int)) (h : n < 2 ^ 32) :
    uint32 x = n := by
  unfold uint32
  subst hx
  have h2 : (n : Int) % 2 ^ 32 = (n : Int) := by
    apply Int.emod_eq_of_lt
    · exact Int.ofNat_nonneg _
    · exact_mod_cast h
  rw [h2]
  rfl

/-- A frame that passes every check of `clusterReadHandler` and
`clusterProcessPacket` is handed to the handler of its tag, and the link stays
valid. -/
theorem clusterReadHandler_accept (L : MsgLayout) (s : ClusterState) (link : ClusterLink)
    (f : ClusterFrame) (now : Int) (hs : f.sig = "RCmb") (hm : L.minLen ≤ f.totlen)
    (h16 : 16 ≤ f.totlen) (hv : f.ver = 0) (he : expectedLen L f = some f.totlen) :
    clusterReadHandler L s link f now =
      (dispatchFrame L
        { s with stats_bus_messages_received := s.stats_bus_messages_received + 1 }
        link f now).map (fun r => (decide (r.1 ≠ 0), r.2)) := by
  have h1 : ¬ (f.sig ≠ "RCmb" ∨ f.totlen < L.minLen) := by
    intro h
    rcases h with h | h
    · exact h hs
    · omega
  have h2 : ¬ (f.totlen < 16 ∨ f.ver ≠ 0 ∨ f.totlen > f.totlen ∨
      expectedLen L f ≠ some f.totlen) := by
    intro h
    rcases h with h | h | h | h
    · omega
    · exact h hv
    · omega
    · exact h he
  unfold clusterReadHandler
  rw [if_neg (by omega), if_neg h1, if_neg (by omega),
    (clusterProcessPacket_cases L s link f f.totlen now).2 h2]
  rcases dispatchFrame L
    { s with stats_bus_messages_received := s.stats_bus_messages_received + 1 }
    link f now with _ | r
  · rfl
  · rfl

/-- Claim C30: sender and receiver agree on frame lengths.  For a layout as
`cluster.h` declares it and a message of any of the four kinds, with at most
`PREZ_LOG_MAX_ENTRIES_PER_REQUEST` entries for an AppendEntries, the frame the
sender writes has the signature `RCmb`, version 0 and as `totlen` the value
`clusterBuildMessageHdr` (or `clusterSendAppendEntries`) computes, which is the
expected length `clusterProcessPacket` computes for the frame's tag and entries
count; so the receiver's checks pass, the handler of the message's own kind
runs on its payload, and the link stays valid. -/
theorem frame_lengths_agree (L : MsgLayout) (s : ClusterState) (link : ClusterLink)
    (msg : ClusterMsg) (now : Int) (hL : layoutOk L)
    (hk : ∀ e, msg.data = .appendentries e → e.log_entries.length ≤ L.maxEntries) :
    (wireFrame L msg).sig = "RCmb" ∧ (wireFrame L msg).ver = 0 ∧
    ((wireFrame L msg).totlen : Int) =
      (match msg.data with
       | .appendentries e => clusterSendAppendEntriesTotlen L e.log_entries.length
       | d => clusterBuildMessageHdrTotlen L (clusterMsgType L d)) ∧
    expectedLen L (wireFrame L msg) = some (wireFrame L msg).totlen ∧
    clusterReadHandler L s link (wireFrame L msg) now =
      (match msg.data with
       | .requestvote v =>
         some (true, clusterProcessRequestVote
           { s with stats_bus_messages_received := s.stats_bus_messages_received + 1 }
           link v now)
       | .responsevote v =>
         some (true, clusterProcessResponseVote
           { s with stats_bus_messages_received := s.stats_bus_messages_received + 1 }
           link v)
       | .appendentries e =>
         some (true, clusterProcessAppendEntries
           { s with stats_bus_messages_received := s.stats_bus_messages_received + 1 }
           link e now)
       | .responseappendentries e =>
         match linkNode
             { s with stats_bus_messages_received := s.stats_bus_messages_received + 1 }
             link with
         | none => none
         | some _ =>
           (clusterProcessResponseAppendEntries
             { s with stats_bus_messages_received := s.stats_bus_messages_received + 1 }
             link e).map (fun s2 => (true, s2))) := by
  obtain ⟨h16, hmin, harr, l1, l2, l3, l4, hmax, g1, g2, g3, g4, d12, d13, d14, d23, d24,
    d34⟩ := hL
  have n21 : ¬ L.typeAppendEntries = L.typeVoteRequest := fun h => d12 h.symm
  have n31 : ¬ L.typeVoteRequestResp = L.typeVoteRequest := fun h => d13 h.symm
  have n41 : ¬ L.typeAppendEntriesResp = L.typeVoteRequest := fun h => d14 h.symm
  have n32 : ¬ L.typeVoteRequestResp = L.typeAppendEntries := fun h => d23 h.symm
  have n42 : ¬ L.typeAppendEntriesResp = L.typeAppendEntries := fun h => d24 h.symm
  have n43 : ¬ L.typeAppendEntriesResp = L.typeVoteRequestResp := fun h => d34 h.symm
  obtain ⟨sender, port, data⟩ := msg
  cases data with
  | requestvote v =>
    have ht : (wireFrame L ⟨sender, port, .requestvote v⟩).type = L.typeVoteRequest :=
      uint16_of_lt _ g1
    have hlen : (wireFrame L ⟨sender, port, .requestvote v⟩).totlen =
        L.hdrLen + L.szRequestVote := by
      show uint32 (clusterBuildMessageHdrTotlen L L.typeVoteRequest) = _
      unfold clusterBuildMessageHdrTotlen
      rw [if_pos rfl]
      exact uint32_of_lt _ _ (by push_cast; rfl) l1
    have he : expectedLen L (wireFrame L ⟨sender, port, .requestvote v⟩) =
        some (wireFrame L ⟨sender, port, .requestvote v⟩).totlen := by
      unfold expectedLen
      rw [if_pos ht, hlen, uint32_of_lt _ (L.hdrLen + L.szRequestVote) (by push_cast; rfl) l1]
    refine ⟨rfl, rfl, ?_, he, ?_⟩
    · show ((wireFrame L ⟨sender, port, .requestvote v⟩).totlen : Int) =
        clusterBuildMessageHdrTotlen L L.typeVoteRequest
      rw [hlen]
      unfold clusterBuildMessageHdrTotlen
      rw [if_pos rfl]
      push_cast
      rfl
    · rw [clusterReadHandler_accept L s link _ now rfl (by rw [hlen]; omega)
        (by rw [hlen]; omega) rfl he]
      unfold dispatchFrame
      rw [if_pos ht]
      rfl
  | responsevote v =>
    have ht : (wireFrame L ⟨sender, port, .responsevote v⟩).type = L.typeVoteRequestResp :=
      uint16_of_lt _ g3
    have hlen : (wireFrame L ⟨sender, port, .responsevote v⟩).totlen =
        L.hdrLen + L.szResponseVote := by
      show uint32 (clusterBuildMessageHdrTotlen L L.typeVoteRequestResp) = _
      unfold clusterBuildMessageHdrTotlen
      rw [if_neg n31, if_pos rfl]
      exact uint32_of_lt _ _ (by push_cast; rfl) l2
    have he : expectedLen L (wireFrame L ⟨sender, port, .responsevote v⟩) =
        some (wireFrame L ⟨sender, port, .responsevote v⟩).totlen := by
      unfold expectedLen
      rw [ht, if_neg n31, if_neg n32, if_pos rfl, hlen,
        uint32_of_lt _ (L.hdrLen + L.szResponseVote) (by push_cast; rfl) l2]
    refine ⟨rfl, rfl, ?_, he, ?_⟩
    · show ((wireFrame L ⟨sender, port, .responsevote v⟩).totlen : Int) =
        clusterBuildMessageHdrTotlen L L.typeVoteRequestResp
      rw [hlen]
      unfold clusterBuildMessageHdrTotlen
      rw [if_neg n31, if_pos rfl]
      push_cast
      rfl
    · rw [clusterReadHandler_accept L s link _ now rfl (by rw [hlen]; omega)
        (by rw [hlen]; omega) rfl he]
      unfold dispatchFrame
      rw [ht, if_neg n31, if_neg n32, if_pos rfl]
      rfl
  | appendentries e =>
    have hke := hk e rfl
    have hmul : L.szLogEntry * e.log_entries.length ≤ L.szLogEntry * L.maxEntries :=
      Nat.mul_le_mul_left _ hke
    have ht : (wireFrame L ⟨sender, port, .appendentries e⟩).type = L.typeAppendEntries :=
      uint16_of_lt _ g2
    have hc : (wireFrame L ⟨sender, port, .appendentries e⟩).log_entries_count =
        e.log_entries.length := uint16_of_lt _ (by omega)
    have hval : clusterSendAppendEntriesTotlen L e.log_entries.length =
        ((L.hdrLen + (L.szAppendEntries - L.szLogEntry * L.maxEntries) +
          L.szLogEntry * e.log_entries.length : Nat) : Int) := by
      unfold clusterSendAppendEntriesTotlen
      push_cast [Nat.cast_sub harr]
      rfl
    have hlt : L.hdrLen + (L.szAppendEntries - L.szLogEntry * L.maxEntries) +
        L.szLogEntry * e.log_entries.length < 2 ^ 32 := by omega
    have hlen : (wireFrame L ⟨sender, port, .appendentries e⟩).totlen =
        L.hdrLen + (L.szAppendEntries - L.szLogEntry * L.maxEntries) +
          L.szLogEntry * e.log_entries.length :=
      uint32_of_lt _ _ hval hlt
    have he : expectedLen L (wireFrame L ⟨sender, port, .appendentries e⟩) =
        some (wireFrame L ⟨sender, port, .appendentries e⟩).totlen := by
      unfold expectedLen
      rw [ht, if_neg n21, if_pos rfl, hc, hlen]
      unfold appendEntriesExplen
      rw [uint32_of_lt _ (L.hdrLen + (L.szAppendEntries - L.szLogEntry * L.maxEntries) +
        L.szLogEntry * e.log_entries.length) (by push_cast [Nat.cast_sub harr]; ring) hlt]
    refine ⟨rfl, rfl, ?_, he, ?_⟩
    · show ((wireFrame L ⟨sender, port, .appendentries e⟩).totlen : Int) =
        clusterSendAppendEntriesTotlen L e.log_entries.length
      rw [hlen, hval]
    · rw [clusterReadHandler_accept L s link _ now rfl (by rw [hlen]; omega)
        (by rw [hlen]; omega) rfl he]
      unfold dispatchFrame
      rw [ht, if_neg n21, if_pos rfl]
      rfl
  | responseappendentries e =>
    have ht : (wireFrame L ⟨sender, port, .responseappendentries e⟩).type =
        L.typeAppendEntriesResp := uint16_of_lt _ g4
    have hlen : (wireFrame L ⟨sender, port, .responseappendentries e⟩).totlen =
        L.hdrLen + L.szResponseAppendEntries := by
      show uint32 (clusterBuildMessageHdrTotlen L L.typeAppendEntriesResp) = _
      unfold clusterBuildMessageHdrTotlen
      rw [if_neg n41, if_neg n43, if_pos rfl]
      exact uint32_of_lt _ _ (by push_cast; rfl) l4
    have he : expectedLen L (wireFrame L ⟨sender, port, .responseappendentries e⟩) =
        some (wireFrame L ⟨sender, port, .responseappendentries e⟩).totlen := by
      unfold expectedLen
      rw [ht, if_neg n41, if_neg n42,
        if_neg n43, if_pos rfl, hlen,
        uint32_of_lt _ (L.hdrLen + L.szResponseAppendEntries) (by push_cast; rfl) l4]
    refine ⟨rfl, rfl, ?_, he, ?_⟩
    · show ((wireFrame L ⟨sender, port, .responseappendentries e⟩).totlen : Int) =
        clusterBuildMessageHdrTotlen L L.typeAppendEntriesResp
      rw [hlen]
      unfold clusterBuildMessageHdrTotlen
      rw [if_neg n41, if_neg n43, if_pos rfl]
      push_cast
      rfl
    · rw [clusterReadHandler_accept L s link _ now rfl (by rw [hlen]; omega)
        (by rw [hlen]; omega) rfl he]
      unfold dispatchFrame
      rw [ht, if_neg n41, if_neg n42,
        if_neg n43, if_pos rfl]
      simp only
      rcases linkNode
        { s with stats_bus_messages_received := s.stats_bus_messages_received + 1 }
        link with _ | p
      · rfl
      · have hr : (wireFrame L ⟨sender, port, .responseappendentries e⟩).responseappendentries
            = e := rfl
        rw [hr]
        simp only
        rcases clusterProcessResponseAppendEntries
          { s with stats_bus_messages_received := s.stats_bus_messages_received + 1 }
          link e with _ | s2
        · rfl
        · rfl

set_option maxRecDepth 100000 in
/-- The hypotheses of claim C30 at the layout `exLayout` and the RequestVote of `A`
for term 1: the frame is 118 bytes long and is handed to
`clusterProcessRequestVote`. -/
theorem frame_lengths_agree_witness :
    layoutOk exLayout ∧
    (wireFrame exLayout exRequestAB.msg).totlen = 118 ∧
    expectedLen exLayout (wireFrame exLayout exRequestAB.msg) = some 118 ∧
    clusterReadHandler exLayout (exStart 1 "B") exLink (wireFrame exLayout exRequestAB.msg) 7 =
      some (true, clusterProcessRequestVote
        { exStart 1 "B" with stats_bus_messages_received := 1 } exLink
        { term := 1, candidateid := "A", last_log_index := 0, last_log_term := 0 } 7) := by
  have hL : layoutOk exLayout := by
    unfold layoutOk
    decide
  have h := frame_lengths_agree exLayout (exStart 1 "B") exLink exRequestAB.msg 7 hL
    (fun e he => by simp [exRequestAB] at he)
  exact ⟨hL, by decide, by decide, h.2.2.2.2⟩

/-! ## The roster file -/

set_option maxRecDepth 100000 in
/-- Claim C26, the code at the failing input: on the roster line
`<exIdentity> 127.0.0.1:7000`, with `exIdentity` the local identity,
`clusterLoadConfig` registers one node of that identity, marked as this node,
with ip `127.0.0.1` and port 0, the value of `atoi` on `000`, where the
integer value of the port `7000` is 7000. -/
theorem loadConfig_port_skips_digit :
    (clusterLoadConfig exSplitArgs exIdentity (exNode "" false) [exRosterLine]).map
        (fun r => (r.1.map (fun n => (n.name, n.myself, n.ip, n.port)), r.2)) =
      some ([(exIdentity, true, "127.0.0.1", 0)], 0) ∧
    atoi "7000".data = 7000 ∧ atoi "000".data = 0 :=
  ⟨by decide, by decide, by decide⟩

/-! ## The comparison of indices -/

/-- Function `compareIndices` on values whose difference fits an `int`: the result is the
difference, so its sign is the order of the two values. -/
theorem compareIndices_in_range (a b : Int) (h1 : -(2 ^ 31) ≤ a - b) (h2 : a - b < 2 ^ 31) :
    compareIndices a b = a - b ∧
    (compareIndices a b < 0 ↔ a < b) ∧ (compareIndices a b = 0 ↔ a = b) ∧
    (compareIndices a b > 0 ↔ a > b) := by
  have h : compareIndices a b = a - b := by
    unfold compareIndices toInt32 wrap64
    omega
  rw [h]
  refine ⟨rfl, ?_, ?_, ?_⟩ <;> omega

/-- The array after the first `k` exchanges of `reverseIndices`: the `k` outer
positions on each side hold the mirrored values, the positions between them
are untouched. -/
theorem reverseIndices_steps (l : List Int) (k : Nat) (hk : k ≤ l.length / 2) :
    ((List.range k).foldl (fun a i => swapIndices a i (l.length - 1 - i)) l).length =
      l.length ∧
    ∀ i : Nat,
      ((List.range k).foldl (fun a i => swapIndices a i (l.length - 1 - i)) l)[i]? =
        if i < k ∨ l.length - k ≤ i then
          (if i < l.length then l[l.length - 1 - i]? else none)
        else l[i]? := by
  induction k with
  | zero =>
    refine ⟨rfl, fun i => ?_⟩
    simp only [List.range_zero, List.foldl_nil, Nat.not_lt_zero, Nat.sub_zero, false_or]
    by_cases hi : l.length ≤ i
    · rw [if_pos hi, if_neg (by omega), List.getElem?_eq_none hi]
    · rw [if_neg hi]
  | succ k ih =>
    obtain ⟨hlen, hget⟩ := ih (by omega)
    rw [List.range_succ, List.foldl_append]
    simp only [List.foldl_cons, List.foldl_nil]
    generalize (List.range k).foldl (fun a i => swapIndices a i (l.length - 1 - i)) l = a
      at hlen hget
    have hx : a[k]? = l[k]? := by
      rw [hget k, if_neg (by omega)]
    have hy : a[l.length - 1 - k]? = l[l.length - 1 - k]? := by
      rw [hget (l.length - 1 - k), if_neg (by omega)]
    have hkl : k < l.length := by omega
    have hjl : l.length - 1 - k < l.length := by omega
    rw [List.getElem?_eq_getElem hkl] at hx
    rw [List.getElem?_eq_getElem hjl] at hy
    unfold swapIndices
    rw [hx, hy]
    simp only
    refine ⟨by simp [hlen], fun i => ?_⟩
    simp only [List.getElem?_set, List.length_set, hlen]
    by_cases h1 : k = i
    · subst h1
      rw [if_pos rfl, if_pos hkl, if_pos (by omega), if_pos hkl,
        List.getElem?_eq_getElem hjl]
    · rw [if_neg h1]
      by_cases h2 : l.length - 1 - k = i
      · subst h2
        rw [if_pos rfl, if_pos hjl, if_pos (by omega), if_pos hjl]
        have h3 : l.length - 1 - (l.length - 1 - k) = k := by omega
        rw [h3, List.getElem?_eq_getElem hkl]
      · rw [if_neg h2, hget i]
        have e1 : (i < k ∨ l.length - k ≤ i) ↔ (i < k + 1 ∨ l.length - (k + 1) ≤ i) := by
          omega
        simp only [e1]

/-- Function `reverseIndices` called with the length of the array reverses it; the
result is a permutation of the array. -/
theorem reverseIndices_eq_reverse (l : List Int) :
    reverseIndices l l.length = l.reverse ∧ (reverseIndices l l.length).Perm l := by
  have h : reverseIndices l l.length = l.reverse := by
    obtain ⟨_, hget⟩ := reverseIndices_steps l (l.length / 2) (le_refl _)
    unfold reverseIndices
    apply List.ext_getElem?
    intro i
    rw [hget i]
    by_cases hi : i < l.length
    · rw [List.getElem?_reverse hi]
      by_cases h3 : i < l.length / 2 ∨ l.length - l.length / 2 ≤ i
      · rw [if_pos h3, if_pos hi]
      · rw [if_neg h3]
        have h4 : l.length - 1 - i = i := by omega
        rw [h4]
    · have h5 : l.reverse[i]? = none :=
        List.getElem?_eq_none (by simp only [List.length_reverse]; omega)
      rw [h5]
      by_cases h3 : i < l.length / 2 ∨ l.length - l.length / 2 ≤ i
      · rw [if_pos h3, if_neg hi]
      · rw [if_neg h3]
        exact List.getElem?_eq_none (by omega)
  rw [h]
  exact ⟨rfl, List.reverse_perm l⟩

/-- Claim C31, the code at the failing inputs: `compareIndices` returns the 64-bit
difference cut down to an `int`.  For `a = 4294967296` and `b = 0` the
result is 0 although `a ≠ b`; for `a = 3000000000` and `b = 0` it is negative
although `a > b`.  So `qsort` leaves the array `3000000000, 0, 5` as it is,
and after `reverseIndices` the array is `5, 0, 3000000000`, which is not
non-increasing. -/
theorem compareIndices_truncates :
    compareIndices 4294967296 0 = 0 ∧ (4294967296 : Int) ≠ 0 ∧
    compareIndices 3000000000 0 < 0 ∧ (3000000000 : Int) > 0 ∧
    qsortIndices [3000000000, 0, 5] = [3000000000, 0, 5] ∧
    reverseIndices (qsortIndices [3000000000, 0, 5]) 3 = [5, 0, 3000000000] ∧
    ¬ List.Sorted (fun x y : Int => x ≥ y) [5, 0, 3000000000] :=
  ⟨by decide, by decide, by decide, by decide, by decide, by decide, by decide⟩

end Prez
